import Mathlib

/-!
# paperless-ngx-merger: the merge orchestrator, its HTTP client, the similarity package

A shallow embedding of `internal/paperless/client.go`, of
`ListModel.executeMerge` and `ListModel.Update` (`internal/ui/list.go`) and of
`internal/similarity/similarity.go`.

Conventions of the embedding.

* The remote service is an arbitrary deterministic state machine: a state type `σ`
  and a transport function `Do : Request → σ → Except GoError Response × σ`.
  Every client method threads the state of the service explicitly. Any sequence
  of answers is the behaviour of such a machine (take the answers still to be
  given as the state), so a theorem for all `σ` and `Do` holds over every
  behaviour of the service.
* A Go `error` is represented by the text of its `Error()` method.
* A Go `string` is a Lean `String`; `strings.Contains` with an ASCII needle
  agrees on bytes and on characters for UTF-8 text.
* `fmt.Sprintf` and `fmt.Errorf` with a literal format are evaluated; with a
  format taken from the locale bundle (whose files are data, not code) the call
  is kept as the pair of its format and its operands (`Formatted`).
* `encoding/json` is a parameter of the client (`Json`).
* `executeMerge` returns, next to its message, the ordered list of the effects
  it performed: every message sent on `progressChan` and every client method
  it invoked, with the result of the invocation (`Event`).
* A Go `float64` is a NaN, an infinity or the rational number that a finite value
  denotes (`Float64`); the arithmetic of `CalculateSimilarity` rounds every
  result to binary64, to nearest with ties to even (`round64`).
* The functions of the Go packages `strings` and `unicode` are a parameter of
  the similarity package (`Unicode`); `len` and indexing of a string go through
  its UTF-8 bytes (`goBytes`).
* `Update` returns `none` for a run-time panic (an index out of range). The text
  inputs of the bubbles library are represented by their value and their focus,
  and the functions of the library that compute a value are a parameter
  (`TextInput`). A command is a value of `Cmd`; `runCmd` is what the bubbletea
  runtime does with it.
-/

namespace PaperlessMerger

/-! ## Go values -/

/-- Go `error`, represented by the text that `Error()` returns. -/
structure GoError where
  text : String
deriving DecidableEq, Repr

/-- Text of an error, `err.Error()`. -/
def GoError.Error (e : GoError) : String := e.text

/-- The verb `%d` applied to an `int`. -/
def fmtInt (i : Int) : String := toString i

/-- Substring test on character lists: `sub` occurs in the first argument. -/
def containsChars : List Char → List Char → Bool
  | [], sub => sub.isEmpty
  | c :: cs, sub => sub.isPrefixOf (c :: cs) || containsChars cs sub

/-- Go `strings.Contains(s, substr)`. -/
def stringsContains (s substr : String) : Bool :=
  containsChars s.toList substr.toList

/-- Go `float64`: a NaN, an infinity, or a finite value, held as the rational
number it denotes (the two zeros are not told apart; no comparison of the
program does). -/
inductive Float64
  | nan
  | negInf
  | posInf
  | fin (q : ℚ)
deriving DecidableEq

/-! ## `internal/paperless/client.go` -/

/-- An HTTP request as built by `makeRequest`. -/
structure Request where
  method : String
  url : String
  body : Option String
  authorization : String
  contentType : String
deriving DecidableEq, Repr

/-- The part of `http.Response` the client reads. -/
structure Response where
  StatusCode : Int
  Body : String
deriving DecidableEq, Repr

/-- Go `Tag`. -/
structure Tag where
  ID : Int
  Name : String
  Color : String
  Match : String
deriving DecidableEq, Repr

/-- Go `Correspondent`. -/
structure Correspondent where
  ID : Int
  Name : String
  Match : String
deriving DecidableEq, Repr

/-- Go `DocumentType`. -/
structure DocumentType where
  ID : Int
  Name : String
  Match : String
deriving DecidableEq, Repr

/-- Go `Document`. -/
structure Document where
  ID : Int
  Title : String
  Correspondent : Option Int
  DocumentType : Option Int
  Tags : List Int
deriving DecidableEq, Repr

/-- Go `ListResponse`, the paginated envelope of the API; `Results` is the raw JSON. -/
structure ListResponse where
  Count : Int
  Next : Option String
  Previous : Option String
  Results : String
deriving DecidableEq, Repr

/-- The functions of `encoding/json` the client uses, taken as parameters. -/
structure Json where
  decodeListResponse : String → Except GoError ListResponse
  unmarshalTags : String → Except GoError (List Tag)
  unmarshalCorrespondents : String → Except GoError (List Correspondent)
  unmarshalDocumentTypes : String → Except GoError (List DocumentType)
  unmarshalDocuments : String → Except GoError (List Document)
  decodeDocument : String → Except GoError Document
  marshalInts : List Int → String

/-- Go `Client`. `Do` stands for `http.NewRequest` followed by `c.client.Do`:
it answers a request in a state of the service with an error or a response and
the next state. -/
structure Client (σ : Type) where
  BaseURL : String
  APIKey : String
  Do : Request → σ → Except GoError Response × σ
  json : Json

variable {σ : Type}

/-- Go `http.StatusOK`. -/
def StatusOK : Int := 200

/-- Go `http.StatusNoContent`. -/
def StatusNoContent : Int := 204

/-- Go `makeRequest`. -/
def Client.makeRequest (c : Client σ) (method endpoint : String) (body : Option String)
    (s : σ) : Except GoError Response × σ :=
  c.Do { method := method, url := c.BaseURL ++ endpoint, body := body,
         authorization := "Token " ++ c.APIKey, contentType := "application/json" } s

/-- The error `fmt.Errorf("<what>: %d - %s", resp.StatusCode, string(body))`. -/
def apiError (what : String) (resp : Response) : GoError :=
  ⟨what ++ ": " ++ fmtInt resp.StatusCode ++ " - " ++ resp.Body⟩

/-- Go `GetTags`. -/
def Client.GetTags (c : Client σ) (s : σ) : Except GoError (List Tag) × σ :=
  match c.makeRequest "GET" "/api/tags/?page_size=100" none s with
  | (.error err, s1) => (.error err, s1)
  | (.ok resp, s1) =>
    if resp.StatusCode ≠ StatusOK then (.error (apiError "errore API" resp), s1)
    else match c.json.decodeListResponse resp.Body with
      | .error err => (.error err, s1)
      | .ok listResp =>
        match c.json.unmarshalTags listResp.Results with
        | .error err => (.error err, s1)
        | .ok tags => (.ok tags, s1)

/-- Go `GetCorrespondents`. -/
def Client.GetCorrespondents (c : Client σ) (s : σ) :
    Except GoError (List Correspondent) × σ :=
  match c.makeRequest "GET" "/api/correspondents/?page_size=100" none s with
  | (.error err, s1) => (.error err, s1)
  | (.ok resp, s1) =>
    if resp.StatusCode ≠ StatusOK then (.error (apiError "errore API" resp), s1)
    else match c.json.decodeListResponse resp.Body with
      | .error err => (.error err, s1)
      | .ok listResp =>
        match c.json.unmarshalCorrespondents listResp.Results with
        | .error err => (.error err, s1)
        | .ok correspondents => (.ok correspondents, s1)

/-- Go `GetDocumentTypes`. -/
def Client.GetDocumentTypes (c : Client σ) (s : σ) :
    Except GoError (List DocumentType) × σ :=
  match c.makeRequest "GET" "/api/document_types/?page_size=100" none s with
  | (.error err, s1) => (.error err, s1)
  | (.ok resp, s1) =>
    if resp.StatusCode ≠ StatusOK then (.error (apiError "errore API" resp), s1)
    else match c.json.decodeListResponse resp.Body with
      | .error err => (.error err, s1)
      | .ok listResp =>
        match c.json.unmarshalDocumentTypes listResp.Results with
        | .error err => (.error err, s1)
        | .ok docTypes => (.ok docTypes, s1)

/-- The shared body of `UpdateTag`, `UpdateCorrespondent`, `UpdateDocumentType`,
`UpdateDocumentCorrespondent` and `UpdateDocumentTypeForDoc`: one `PATCH`, an
error unless the answer is `200 OK`. -/
def Client.patch (c : Client σ) (endpoint body what : String) (s : σ) :
    Option GoError × σ :=
  match c.makeRequest "PATCH" endpoint (some body) s with
  | (.error err, s1) => (some err, s1)
  | (.ok resp, s1) =>
    if resp.StatusCode ≠ StatusOK then (some (apiError what resp), s1)
    else (none, s1)

/-- The JSON text `{"name": "<name>"}` sent by the rename methods. -/
def nameBody (name : String) : String :=
  "\x7b\"name\": \"" ++ name ++ "\"\x7d"

/-- Go `UpdateTag`. -/
def Client.UpdateTag (c : Client σ) (id : Int) (name : String) (s : σ) : Option GoError × σ :=
  c.patch ("/api/tags/" ++ fmtInt id ++ "/") (nameBody name)
    "errore nell'aggiornamento del tag" s

/-- Go `UpdateCorrespondent`. -/
def Client.UpdateCorrespondent (c : Client σ) (id : Int) (name : String) (s : σ) :
    Option GoError × σ :=
  c.patch ("/api/correspondents/" ++ fmtInt id ++ "/") (nameBody name)
    "errore nell'aggiornamento del corrispondente" s

/-- Go `UpdateDocumentType`. -/
def Client.UpdateDocumentType (c : Client σ) (id : Int) (name : String) (s : σ) :
    Option GoError × σ :=
  c.patch ("/api/document_types/" ++ fmtInt id ++ "/") (nameBody name)
    "errore nell'aggiornamento del tipo documento" s

/-- The shared body of `DeleteTag`, `DeleteCorrespondent`, `DeleteDocumentType`:
one `DELETE`, an error unless the answer is `204 No Content`. -/
def Client.delete (c : Client σ) (endpoint what : String) (s : σ) : Option GoError × σ :=
  match c.makeRequest "DELETE" endpoint none s with
  | (.error err, s1) => (some err, s1)
  | (.ok resp, s1) =>
    if resp.StatusCode ≠ StatusNoContent then (some (apiError what resp), s1)
    else (none, s1)

/-- Go `DeleteTag`. -/
def Client.DeleteTag (c : Client σ) (id : Int) (s : σ) : Option GoError × σ :=
  c.delete ("/api/tags/" ++ fmtInt id ++ "/") "errore nell'eliminazione del tag" s

/-- Go `DeleteCorrespondent`. -/
def Client.DeleteCorrespondent (c : Client σ) (id : Int) (s : σ) : Option GoError × σ :=
  c.delete ("/api/correspondents/" ++ fmtInt id ++ "/")
    "errore nell'eliminazione del corrispondente" s

/-- Go `DeleteDocumentType`. -/
def Client.DeleteDocumentType (c : Client σ) (id : Int) (s : σ) : Option GoError × σ :=
  c.delete ("/api/document_types/" ++ fmtInt id ++ "/")
    "errore nell'eliminazione del tipo documento" s

/-- Go `getDocuments`: one `GET` of `endpoint`; the documents of the page that
answers it. The field `Next` of the envelope is not read. -/
def Client.getDocuments (c : Client σ) (endpoint : String) (s : σ) :
    Except GoError (List Document) × σ :=
  match c.makeRequest "GET" endpoint none s with
  | (.error err, s1) => (.error err, s1)
  | (.ok resp, s1) =>
    if resp.StatusCode ≠ StatusOK then (.error (apiError "errore API" resp), s1)
    else match c.json.decodeListResponse resp.Body with
      | .error err => (.error err, s1)
      | .ok listResp =>
        match c.json.unmarshalDocuments listResp.Results with
        | .error err => (.error err, s1)
        | .ok documents => (.ok documents, s1)

/-- Go `GetDocumentsByTag`. -/
def Client.GetDocumentsByTag (c : Client σ) (tagID : Int) (s : σ) :
    Except GoError (List Document) × σ :=
  c.getDocuments ("/api/documents/?tags__id__in=" ++ fmtInt tagID ++ "&page_size=100") s

/-- Go `GetDocumentsByCorrespondent`. -/
def Client.GetDocumentsByCorrespondent (c : Client σ) (correspondentID : Int) (s : σ) :
    Except GoError (List Document) × σ :=
  c.getDocuments
    ("/api/documents/?correspondent__id=" ++ fmtInt correspondentID ++ "&page_size=100") s

/-- Go `GetDocumentsByType`. -/
def Client.GetDocumentsByType (c : Client σ) (typeID : Int) (s : σ) :
    Except GoError (List Document) × σ :=
  c.getDocuments ("/api/documents/?document_type__id=" ++ fmtInt typeID ++ "&page_size=100") s

/-- Go `getDocument`. -/
def Client.getDocument (c : Client σ) (docID : Int) (s : σ) : Except GoError Document × σ :=
  match c.makeRequest "GET" ("/api/documents/" ++ fmtInt docID ++ "/") none s with
  | (.error err, s1) => (.error err, s1)
  | (.ok resp, s1) =>
    if resp.StatusCode ≠ StatusOK then (.error (apiError "errore API" resp), s1)
    else match c.json.decodeDocument resp.Body with
      | .error err => (.error err, s1)
      | .ok doc => (.ok doc, s1)

/-- The loop of `UpdateDocumentTags` that builds `newTags`. -/
def replaceTag (tags : List Int) (oldTagID newTagID : Int) : List Int :=
  tags.map (fun tagID => if tagID = oldTagID then newTagID else tagID)

/-- Go `UpdateDocumentTags`. -/
def Client.UpdateDocumentTags (c : Client σ) (docID oldTagID newTagID : Int) (s : σ) :
    Option GoError × σ :=
  match c.getDocument docID s with
  | (.error err, s1) => (some err, s1)
  | (.ok doc, s1) =>
    let newTags := replaceTag doc.Tags oldTagID newTagID
    let tagsJSON := c.json.marshalInts newTags
    c.patch ("/api/documents/" ++ fmtInt docID ++ "/") ("\x7b\"tags\": " ++ tagsJSON ++ "\x7d")
      "errore nell'aggiornamento del documento" s1

/-- Go `UpdateDocumentCorrespondent`. -/
def Client.UpdateDocumentCorrespondent (c : Client σ) (docID newCorrespondentID : Int) (s : σ) :
    Option GoError × σ :=
  c.patch ("/api/documents/" ++ fmtInt docID ++ "/")
    ("\x7b\"correspondent\": " ++ fmtInt newCorrespondentID ++ "\x7d")
    "errore nell'aggiornamento del documento" s

/-- Go `UpdateDocumentTypeForDoc`. -/
def Client.UpdateDocumentTypeForDoc (c : Client σ) (docID newTypeID : Int) (s : σ) :
    Option GoError × σ :=
  c.patch ("/api/documents/" ++ fmtInt docID ++ "/")
    ("\x7b\"document_type\": " ++ fmtInt newTypeID ++ "\x7d")
    "errore nell'aggiornamento del documento" s

/-! ## `internal/ui/list.go`: `executeMerge` -/

/-- Go `EntityType`. -/
inductive EntityType
  | EntityTags
  | EntityCorrespondents
  | EntityDocumentTypes
deriving DecidableEq, Repr

/-- Go `MergeMode`. -/
inductive MergeMode
  | ModeSemiAutomatic
  | ModeManual
deriving DecidableEq, Repr

/-- Go `similarity.SimilarItem`. -/
structure SimilarItem where
  ID : Int
  Name : String
deriving DecidableEq, Repr

/-- Go `similarity.SimilarityGroup`. -/
structure SimilarityGroup where
  Representative : String
  Items : List SimilarItem
deriving DecidableEq, Repr

/-- Go `locale.Localizer`: `T` translates a message key. -/
structure Localizer where
  T : String → String

/-- An operand of a formatting call. -/
inductive FmtArg
  | int (i : Int)
  | err (e : GoError)
deriving DecidableEq, Repr

/-- A call `fmt.Sprintf(format, args...)` or `fmt.Errorf(format, args...)` whose
format comes from the locale bundle or wraps an error: its format and operands. -/
structure Formatted where
  format : String
  args : List FmtArg
deriving DecidableEq, Repr

/-- Go `mergeCompleteMsg`: the outcome of a run, `err = none` for success. -/
structure mergeCompleteMsg where
  err : Option Formatted
deriving DecidableEq, Repr

/-- Go `mergeProgressMsg`. -/
structure mergeProgressMsg where
  current : Int
  total : Int
  status : Formatted
deriving DecidableEq, Repr

/-- The error held by the field `err` of `ListModel`: the error of a `loadedMsg`
or of a `mergeCompleteMsg`. -/
inductive UIError
  | load (e : GoError)
  | merge (e : Formatted)
deriving DecidableEq, Repr

/-- Go `ListModel`. The first eight fields are those that `executeMerge` reads;
the others, with the zero values of Go as defaults, are read and written by
`Update`. `mergeInput` and `searchInput` are the values of the two text inputs,
`mergeInputFocus` and `searchFocus` their focus; `selectedMap` is the Go map
`map[int]bool` (absent keys read as `false`) and `selectedKeys` the keys present
in it; `currentGroup` is `none` for a nil pointer; `mergeStatus` is the status
text, kept as format and operands. The fields `config`, `progressChan` and
`progress` (the widget of the progress bar) are not represented. -/
structure ListModel (σ : Type) where
  localizer : Localizer
  entityType : EntityType
  mergeMode : MergeMode
  client : Client σ
  allItems : List SimilarItem
  selectedMap : Int → Bool
  mergeInput : String
  currentGroup : Option SimilarityGroup
  groups : List SimilarityGroup := []
  filteredItems : List SimilarItem := []
  cursor : Int := 0
  groupCursor : Int := 0
  selectedKeys : List Int := []
  loading : Bool := false
  merging : Bool := false
  mergeStatus : Formatted := ⟨"", []⟩
  mergeProgress : Float64 := .fin 0
  mergeTotal : Int := 0
  mergeCurrent : Int := 0
  err : Option UIError := none
  quitting : Bool := false
  mode : String := ""
  mergeInputFocus : Bool := false
  searchInput : String := ""
  searchFocus : Bool := false
  width : Int := 0
  height : Int := 0

/-- A client method invoked by `executeMerge`, with its arguments. -/
inductive Call
  | UpdateTag (id : Int) (name : String)
  | UpdateCorrespondent (id : Int) (name : String)
  | UpdateDocumentType (id : Int) (name : String)
  | GetDocumentsByTag (tagID : Int)
  | GetDocumentsByCorrespondent (correspondentID : Int)
  | GetDocumentsByType (typeID : Int)
  | UpdateDocumentTags (docID oldTagID newTagID : Int)
  | UpdateDocumentCorrespondent (docID newCorrespondentID : Int)
  | UpdateDocumentTypeForDoc (docID newTypeID : Int)
  | DeleteTag (id : Int)
  | DeleteCorrespondent (id : Int)
  | DeleteDocumentType (id : Int)
deriving DecidableEq, Repr

/-- One invocation of a client method: the call, the error it returned (`none`
for nil) and, for a fetch, the documents it returned. -/
structure CallRecord where
  call : Call
  err : Option GoError
  docs : List Document
deriving DecidableEq, Repr

/-- An effect of `executeMerge`: a message sent on `progressChan` or a client call. -/
inductive Event
  | progress (msg : mergeProgressMsg)
  | call (r : CallRecord)
deriving DecidableEq, Repr

/-- The loop `for _, item := range items` that appends the selected, not yet
seen IDs to `selectedIDs` (lines 478-483 and 489-494); `seenIDs` is the Go map. -/
def collectIDs (selectedMap : Int → Bool) :
    List SimilarItem → List Int → (Int → Bool) → List Int
  | [], selectedIDs, _ => selectedIDs
  | item :: rest, selectedIDs, seenIDs =>
    if selectedMap item.ID && !seenIDs item.ID then
      collectIDs selectedMap rest (selectedIDs ++ [item.ID])
        (fun k => if k = item.ID then true else seenIDs k)
    else collectIDs selectedMap rest selectedIDs seenIDs

/-- The loop of lines 512-518: the ID of the first item that is selected and
named `finalName`, `none` when the loop ends without `break`. -/
def findNamed (selectedMap : Int → Bool) (finalName : String) : List SimilarItem → Option Int
  | [] => none
  | item :: rest =>
    if selectedMap item.ID && item.Name = finalName then some item.ID
    else findNamed selectedMap finalName rest

/-- The merge plan held in the local variables `mainID`, `toDeleteIDs`,
`nameExists` of `executeMerge`. -/
structure MergePlan where
  mainID : Int
  toDeleteIDs : List Int
  nameExists : Bool
deriving DecidableEq, Repr

/-- The local `needsRename := !nameExists`. -/
def MergePlan.needsRename (p : MergePlan) : Bool := !p.nameExists

/-- Lines 507-510: the items searched for the final name. -/
def itemsToCheck (m : ListModel σ) : List SimilarItem :=
  match m.mergeMode, m.currentGroup with
  | .ModeSemiAutomatic, some g => g.Items
  | _, _ => m.allItems

/-- Lines 501-531: the plan computed from the collected `selectedIDs`
(`selectedIDs[0]` reads as `0` on an empty list, which validation excludes). -/
def planMerge (m : ListModel σ) (finalName : String) (selectedIDs : List Int) : MergePlan :=
  match findNamed m.selectedMap finalName (itemsToCheck m) with
  | some mainID =>
    { mainID := mainID, toDeleteIDs := selectedIDs.filter (fun id => id ≠ mainID),
      nameExists := true }
  | none =>
    { mainID := selectedIDs.headD 0, toDeleteIDs := selectedIDs.tail, nameExists := false }

/-- Lines 472-495: the selected IDs, deduplicated, in the order of the items;
the error of line 487 when the mode is semi-automatic and there is no group. -/
def collectSelected (m : ListModel σ) : Except Formatted (List Int) :=
  match m.mergeMode with
  | .ModeManual => .ok (collectIDs m.selectedMap m.allItems [] (fun _ => false))
  | .ModeSemiAutomatic =>
    match m.currentGroup with
    | none => .error ⟨m.localizer.T "merge.error_no_group", []⟩
    | some g => .ok (collectIDs m.selectedMap g.Items [] (fun _ => false))

/-- Lines 466-531: validation followed by planning; the error is the one that
`executeMerge` returns in `mergeCompleteMsg`. -/
def mergePlan (m : ListModel σ) : Except Formatted MergePlan :=
  let finalName := m.mergeInput
  if finalName = "" then .error ⟨m.localizer.T "merge.error_empty_name", []⟩
  else
    match collectSelected m with
    | .error e => .error e
    | .ok selectedIDs =>
      if selectedIDs.length < 2 then .error ⟨m.localizer.T "merge.error_min_items", []⟩
      else .ok (planMerge m finalName selectedIDs)

/-- Lines 540-547: the number of operations announced in every progress message. -/
def totalOps (p : MergePlan) : Nat :=
  (if !p.nameExists then 1 else 0) + p.toDeleteIDs.length * 3 + (if !p.nameExists then 1 else 0)

/-- Line 559: `fmt.Sprintf("__MERGING_%d_%s", mainID, finalName)`. -/
def tempName (mainID : Int) (finalName : String) : String :=
  "__MERGING_" ++ fmtInt mainID ++ "_" ++ finalName

/-- The rename method selected by `switch m.entityType` (lines 561-568, 678-685). -/
def renameCall : EntityType → Int → String → Call
  | .EntityTags, id, name => .UpdateTag id name
  | .EntityCorrespondents, id, name => .UpdateCorrespondent id name
  | .EntityDocumentTypes, id, name => .UpdateDocumentType id name

/-- The fetch method selected by `switch m.entityType` (lines 587-605). -/
def fetchCall : EntityType → Int → Call
  | .EntityTags, oldID => .GetDocumentsByTag oldID
  | .EntityCorrespondents, oldID => .GetDocumentsByCorrespondent oldID
  | .EntityDocumentTypes, oldID => .GetDocumentsByType oldID

/-- The reassignment method selected by `switch m.entityType` (lines 616-637). -/
def reassignCall : EntityType → Int → Int → Int → Call
  | .EntityTags, docID, oldID, mainID => .UpdateDocumentTags docID oldID mainID
  | .EntityCorrespondents, docID, _, mainID => .UpdateDocumentCorrespondent docID mainID
  | .EntityDocumentTypes, docID, _, mainID => .UpdateDocumentTypeForDoc docID mainID

/-- The delete method selected by `switch m.entityType` (lines 650-665). -/
def deleteCall : EntityType → Int → Call
  | .EntityTags, oldID => .DeleteTag oldID
  | .EntityCorrespondents, oldID => .DeleteCorrespondent oldID
  | .EntityDocumentTypes, oldID => .DeleteDocumentType oldID

/-- Execution of the rename selected by `switch m.entityType`. -/
def renameEntity (m : ListModel σ) (id : Int) (name : String) (s : σ) : Option GoError × σ :=
  match m.entityType with
  | .EntityTags => m.client.UpdateTag id name s
  | .EntityCorrespondents => m.client.UpdateCorrespondent id name s
  | .EntityDocumentTypes => m.client.UpdateDocumentType id name s

/-- Execution of the fetch selected by `switch m.entityType`. -/
def fetchDocs (m : ListModel σ) (oldID : Int) (s : σ) : Except GoError (List Document) × σ :=
  match m.entityType with
  | .EntityTags => m.client.GetDocumentsByTag oldID s
  | .EntityCorrespondents => m.client.GetDocumentsByCorrespondent oldID s
  | .EntityDocumentTypes => m.client.GetDocumentsByType oldID s

/-- Execution of the reassignment selected by `switch m.entityType`. -/
def reassignDoc (m : ListModel σ) (docID oldID mainID : Int) (s : σ) : Option GoError × σ :=
  match m.entityType with
  | .EntityTags => m.client.UpdateDocumentTags docID oldID mainID s
  | .EntityCorrespondents => m.client.UpdateDocumentCorrespondent docID mainID s
  | .EntityDocumentTypes => m.client.UpdateDocumentTypeForDoc docID mainID s

/-- Execution of the delete selected by `switch m.entityType`. -/
def deleteEntity (m : ListModel σ) (oldID : Int) (s : σ) : Option GoError × σ :=
  match m.entityType with
  | .EntityTags => m.client.DeleteTag oldID s
  | .EntityCorrespondents => m.client.DeleteCorrespondent oldID s
  | .EntityDocumentTypes => m.client.DeleteDocumentType oldID s

/-- The literal format of the delete error (lines 653, 658, 663). -/
def deleteErrorFormat : EntityType → String
  | .EntityTags => "errore nell'eliminazione tag %d: %w"
  | .EntityCorrespondents => "errore nell'eliminazione corrispondente %d: %w"
  | .EntityDocumentTypes => "errore nell'eliminazione tipo documento %d: %w"

/-- The guard of lines 652, 657, 662,
`err != nil && !strings.Contains(err.Error(), "404")`: the error when the guard
holds, `none` when it does not. -/
def deleteAborts (err : Option GoError) : Option GoError :=
  match err with
  | none => none
  | some e => if !stringsContains e.Error "404" then some e else none

/-- Lines 616-637: `for _, doc := range docs`, one reassignment per document,
returning at the first error. The switch on the entity type, constant during
the loop, is taken inside the loop (`reassignDoc`). -/
def updateDocs (m : ListModel σ) (oldID mainID : Int) :
    List Document → σ → Option Formatted × σ × List Event
  | [], s => (none, s, [])
  | doc :: rest, s =>
    match reassignDoc m doc.ID oldID mainID s with
    | (some err, s1) =>
      (some ⟨m.localizer.T "merge.error_update_doc", [.int doc.ID, .err err]⟩, s1,
        [.call ⟨reassignCall m.entityType doc.ID oldID mainID, some err, []⟩])
    | (none, s1) =>
      match updateDocs m oldID mainID rest s1 with
      | (r, s2, evs) =>
        (r, s2, .call ⟨reassignCall m.entityType doc.ID oldID mainID, none, []⟩ :: evs)

/-- Lines 576-666: `for idx, oldID := range toDeleteIDs`. `n` is
`len(toDeleteIDs)`, `total` is `int(totalOps)`, `currentOp` the running counter;
the result is the error of an early `return`, the state of the service and the
events of the loop. -/
def migrate (m : ListModel σ) (mainID : Int) (n total : Nat) :
    Nat → List Int → Nat → σ → Option Formatted × Nat × σ × List Event
  | _, [], currentOp, s => (none, currentOp, s, [])
  | idx, oldID :: rest, currentOp, s =>
    let ev1 := Event.progress ⟨(currentOp + 1 : Nat), total,
      ⟨m.localizer.T "merge.status_get_docs", [.int (idx + 1 : Nat), .int n]⟩⟩
    match fetchDocs m oldID s with
    | (.error err, s1) =>
      (some ⟨m.localizer.T "merge.error_get_docs", [.err err]⟩, currentOp + 1, s1,
        [ev1, .call ⟨fetchCall m.entityType oldID, some err, []⟩])
    | (.ok docs, s1) =>
      let evFetch := Event.call ⟨fetchCall m.entityType oldID, none, docs⟩
      let ev2 : List Event :=
        if docs.length > 0 then
          [.progress ⟨(currentOp + 2 : Nat), total,
            ⟨m.localizer.T "merge.status_update_docs",
              [.int docs.length, .int (idx + 1 : Nat), .int n]⟩⟩]
        else []
      match updateDocs m oldID mainID docs s1 with
      | (some e, s2, evs2) => (some e, currentOp + 2, s2, ev1 :: evFetch :: ev2 ++ evs2)
      | (none, s2, evs2) =>
        let ev3 := Event.progress ⟨(currentOp + 3 : Nat), total,
          ⟨m.localizer.T "merge.status_delete", [.int (idx + 1 : Nat), .int n]⟩⟩
        match deleteEntity m oldID s2 with
        | (err, s3) =>
          let evDelete := Event.call ⟨deleteCall m.entityType oldID, err, []⟩
          match deleteAborts err with
          | some e =>
            (some ⟨deleteErrorFormat m.entityType, [.int oldID, .err e]⟩, currentOp + 3, s3,
              ev1 :: evFetch :: ev2 ++ evs2 ++ [ev3, evDelete])
          | none =>
            match migrate m mainID n total (idx + 1) rest (currentOp + 3) s3 with
            | (r, cur, s4, evs) =>
              (r, cur, s4, ev1 :: evFetch :: ev2 ++ evs2 ++ [ev3, evDelete] ++ evs)

/-- Lines 533-694: execution of a plan. -/
def runPlan (m : ListModel σ) (p : MergePlan) (s : σ) : mergeCompleteMsg × σ × List Event :=
  let finalName := m.mergeInput
  let total := totalOps p
  let n := p.toDeleteIDs.length
  if p.needsRename then
    let evPrepare := Event.progress ⟨1, total, ⟨m.localizer.T "merge.status_prepare", []⟩⟩
    match renameEntity m p.mainID (tempName p.mainID finalName) s with
    | (some err, s1) =>
      (⟨some ⟨m.localizer.T "merge.error_temp_update", [.err err]⟩⟩, s1,
        [evPrepare, .call ⟨renameCall m.entityType p.mainID (tempName p.mainID finalName),
          some err, []⟩])
    | (none, s1) =>
      let evTemp := Event.call
        ⟨renameCall m.entityType p.mainID (tempName p.mainID finalName), none, []⟩
      match migrate m p.mainID n total 0 p.toDeleteIDs 1 s1 with
      | (some e, _, s2, evs) => (⟨some e⟩, s2, evPrepare :: evTemp :: evs)
      | (none, currentOp, s2, evs) =>
        let evFinal := Event.progress ⟨(currentOp + 1 : Nat), total,
          ⟨m.localizer.T "merge.status_final_name", []⟩⟩
        match renameEntity m p.mainID finalName s2 with
        | (some err, s3) =>
          (⟨some ⟨m.localizer.T "merge.error_final_update", [.err err]⟩⟩, s3,
            evPrepare :: evTemp :: evs ++
              [evFinal, .call ⟨renameCall m.entityType p.mainID finalName, some err, []⟩])
        | (none, s3) =>
          (⟨none⟩, s3, evPrepare :: evTemp :: evs ++
              [evFinal, .call ⟨renameCall m.entityType p.mainID finalName, none, []⟩])
  else
    match migrate m p.mainID n total 0 p.toDeleteIDs 0 s with
    | (r, _, s2, evs) => (⟨r⟩, s2, evs)

/-- Go `executeMerge`: the returned message, the state the service is left in
and the events of the run, in order. -/
def executeMerge (m : ListModel σ) (s : σ) : mergeCompleteMsg × σ × List Event :=
  match mergePlan m with
  | .error e => (⟨some e⟩, s, [])
  | .ok p => runPlan m p s

/-- The client calls among a list of events, in order. -/
def callsOf : List Event → List CallRecord
  | [] => []
  | .progress _ :: evs => callsOf evs
  | .call r :: evs => r :: callsOf evs

/-! ## Concrete services and models used to instantiate the theorems -/

/-- A JSON codec for the examples: the body `"P1"` is a first page with a
non-null `next` link, `"P2"` the last page, any other body an empty last page;
the raw results `"R1"` hold document 10, `"R2"` document 11. -/
def exampleJson : Json where
  decodeListResponse := fun b =>
    if b = "P1" then .ok ⟨2, some "http://h/api/documents/?page=2&tags__id__in=5", none, "R1"⟩
    else if b = "P2" then .ok ⟨2, none, some "http://h/api/documents/?tags__id__in=5", "R2"⟩
    else .ok ⟨0, none, none, "R0"⟩
  unmarshalTags := fun _ => .ok []
  unmarshalCorrespondents := fun _ => .ok []
  unmarshalDocumentTypes := fun _ => .ok []
  unmarshalDocuments := fun r =>
    if r = "R1" then .ok [⟨10, "a", none, none, [5]⟩]
    else if r = "R2" then .ok [⟨11, "b", none, none, [5]⟩]
    else .ok []
  decodeDocument := fun _ => .ok ⟨10, "a", none, none, [5]⟩
  marshalInts := fun l => toString l

/-- A service without state that answers every `DELETE` with `del`, every
`PATCH` with `patch`, the `GET` of the documents of tag 5 with `page`, the `GET`
of the `next` link of the page `"P1"` with the page `"P2"`, and every other
request with `200` and an empty body. -/
def exampleClient (del patch page : Except GoError Response) : Client Unit where
  BaseURL := "http://h"
  APIKey := "k"
  Do := fun req s =>
    if req.method = "DELETE" then (del, s)
    else if req.method = "PATCH" then (patch, s)
    else if req.url = "http://h/api/documents/?tags__id__in=5&page_size=100" then (page, s)
    else if req.url = "http://h/api/documents/?page=2&tags__id__in=5" then
      (.ok ⟨200, "P2"⟩, s)
    else (.ok ⟨200, ""⟩, s)
  json := exampleJson

/-- A model in manual mode over `exampleClient` with the items 5 "foo", 7 "Foo",
9 "x", of which 5 and 7 are selected. -/
def exampleModel (kind : EntityType) (del patch page : Except GoError Response)
    (finalName : String) : ListModel Unit where
  localizer := ⟨id⟩
  entityType := kind
  mergeMode := .ModeManual
  client := exampleClient del patch page
  allItems := [⟨5, "foo"⟩, ⟨7, "Foo"⟩, ⟨9, "x"⟩]
  selectedMap := fun k => k = 5 || k = 7
  mergeInput := finalName
  currentGroup := none

/-- The example model over a service on which every request succeeds: `204` for
a `DELETE`, `200` for a `PATCH`, the page `"P1"` for the documents of tag 5. -/
def healthyModel (kind : EntityType) (finalName : String) : ListModel Unit :=
  exampleModel kind (.ok ⟨204, ""⟩) (.ok ⟨200, ""⟩) (.ok ⟨200, "P1"⟩) finalName

/-- A JSON codec for which every list of documents is the three documents 10, 11, 12. -/
def threeDocsJson : Json where
  decodeListResponse := fun _ => .ok ⟨3, none, none, "R"⟩
  unmarshalTags := fun _ => .ok []
  unmarshalCorrespondents := fun _ => .ok []
  unmarshalDocumentTypes := fun _ => .ok []
  unmarshalDocuments := fun _ =>
    .ok [⟨10, "a", some 5, none, []⟩, ⟨11, "b", some 5, none, []⟩, ⟨12, "c", some 5, none, []⟩]
  decodeDocument := fun _ => .ok ⟨10, "a", some 5, none, []⟩
  marshalInts := fun l => toString l

/-- A service whose state counts the `PATCH` requests it has received: it
answers the `PATCH` number `failAt` (from 0) with `500` and every other request
with success. -/
def countingClient (failAt : Nat) : Client Nat where
  BaseURL := "http://h"
  APIKey := "k"
  Do := fun req n =>
    if req.method = "PATCH" then
      (if n = failAt then (.ok ⟨500, "boom"⟩, n + 1) else (.ok ⟨200, ""⟩, n + 1))
    else if req.method = "DELETE" then (.ok ⟨204, ""⟩, n)
    else (.ok ⟨200, ""⟩, n)
  json := threeDocsJson

/-- A model in manual mode over `countingClient` that merges correspondent 5
into correspondent 7, already named `"Foo"`. -/
def countingModel (failAt : Nat) : ListModel Nat where
  localizer := ⟨id⟩
  entityType := .EntityCorrespondents
  mergeMode := .ModeManual
  client := countingClient failAt
  allItems := [⟨5, "foo"⟩, ⟨7, "Foo"⟩, ⟨9, "x"⟩]
  selectedMap := fun k => k = 5 || k = 7
  mergeInput := "Foo"
  currentGroup := none

/-! ## Vocabulary for the log of a run -/

/-- The outcome, the first component of the result of `executeMerge`. -/
def outcome (m : ListModel σ) (s : σ) : mergeCompleteMsg := (executeMerge m s).1

/-- The events of a run, in the order in which they happened. -/
def events (m : ListModel σ) (s : σ) : List Event := (executeMerge m s).2.2

/-- The client calls of a run, in the order in which they were issued. -/
def calls (m : ListModel σ) (s : σ) : List CallRecord := callsOf (events m s)

/-- The call is one of the three delete methods. -/
def Call.isDelete : Call → Bool
  | .DeleteTag _ => true
  | .DeleteCorrespondent _ => true
  | .DeleteDocumentType _ => true
  | _ => false

/-- The call is one of the three rename methods. -/
def Call.isRename : Call → Bool
  | .UpdateTag _ _ => true
  | .UpdateCorrespondent _ _ => true
  | .UpdateDocumentType _ _ => true
  | _ => false

/-- The recorded call made `executeMerge` return: it returned an error, and for
a delete the error passed the guard `deleteAborts`. -/
def CallRecord.aborts (r : CallRecord) : Bool :=
  if r.call.isDelete then (deleteAborts r.err).isSome else r.err.isSome

/-- The event is a call that made `executeMerge` return. -/
def Event.aborts : Event → Bool
  | .progress _ => false
  | .call r => r.aborts

/-- The record of a successful reassignment of `doc` from `oldID` to `mainID`. -/
def okReassign (kind : EntityType) (oldID mainID : Int) (doc : Document) : CallRecord :=
  ⟨reassignCall kind doc.ID oldID mainID, none, []⟩

/-- A duplicate processed up to its delete: its ID, the documents its fetch
returned and the result of its delete. -/
structure Block where
  dup : Int
  docs : List Document
  delErr : Option GoError
deriving DecidableEq, Repr

/-- The calls of a processed duplicate: the successful fetch, one successful
reassignment per fetched document in order, then the delete. -/
def blockCalls (kind : EntityType) (mainID : Int) (b : Block) : List CallRecord :=
  ⟨fetchCall kind b.dup, none, b.docs⟩ :: b.docs.map (okReassign kind b.dup mainID) ++
    [⟨deleteCall kind b.dup, b.delErr, []⟩]

/-- The calls of a sequence of processed duplicates, one block after the other. -/
def blocksCalls (kind : EntityType) (mainID : Int) : List Block → List CallRecord
  | [] => []
  | b :: bs => blockCalls kind mainID b ++ blocksCalls kind mainID bs

/-- How the loop over the duplicates ended, for the returned error `res`, the
processed duplicates `blocks`, the duplicates `rest` not processed up to their
delete, and the calls `tail` issued after the last block:
the loop ran to its end; or the delete of the last block made it return; or the
fetch of the next duplicate failed; or a reassignment for the next duplicate
failed after the documents `done`. -/
def MigrateEnd (m : ListModel σ) (mainID : Int) (res : Option Formatted)
    (blocks : List Block) (rest : List Int) (tail : List CallRecord) : Prop :=
  (res = none ∧ rest = [] ∧ tail = [] ∧ ∀ b ∈ blocks, deleteAborts b.delErr = none) ∨
  (∃ bs b e, blocks = bs ++ [b] ∧ (∀ b' ∈ bs, deleteAborts b'.delErr = none) ∧
    deleteAborts b.delErr = some e ∧ tail = [] ∧
    res = some ⟨deleteErrorFormat m.entityType, [.int b.dup, .err e]⟩) ∨
  (∃ d rest' err, rest = d :: rest' ∧ (∀ b ∈ blocks, deleteAborts b.delErr = none) ∧
    tail = [⟨fetchCall m.entityType d, some err, []⟩] ∧
    res = some ⟨m.localizer.T "merge.error_get_docs", [.err err]⟩) ∨
  (∃ d rest' done doc later err, rest = d :: rest' ∧
    (∀ b ∈ blocks, deleteAborts b.delErr = none) ∧
    tail = ⟨fetchCall m.entityType d, none, done ++ doc :: later⟩ ::
      done.map (okReassign m.entityType d mainID) ++
      [⟨reassignCall m.entityType doc.ID d mainID, some err, []⟩] ∧
    res = some ⟨m.localizer.T "merge.error_update_doc", [.int doc.ID, .err err]⟩)

/-- No event follows an event that satisfies `P`. -/
def NothingAfter (P : Event → Prop) (l : List Event) : Prop :=
  ∀ pre x post, l = pre ++ x :: post → P x → post = []

/-- The progress message of step 1 of an iteration of the loop (lines 578-583). -/
def evGetDocs (m : ListModel σ) (n total idx currentOp : Nat) : Event :=
  .progress ⟨(currentOp + 1 : Nat), total,
    ⟨m.localizer.T "merge.status_get_docs", [.int (idx + 1 : Nat), .int n]⟩⟩

/-- The progress message of step 2 (lines 608-614), sent when there are documents. -/
def evUpdateDocs (m : ListModel σ) (n total idx currentOp : Nat) (docs : List Document) :
    List Event :=
  if docs.length > 0 then
    [.progress ⟨(currentOp + 2 : Nat), total,
      ⟨m.localizer.T "merge.status_update_docs",
        [.int docs.length, .int (idx + 1 : Nat), .int n]⟩⟩]
  else []

/-- The progress message of step 3 (lines 643-648). -/
def evDelete (m : ListModel σ) (n total idx currentOp : Nat) : Event :=
  .progress ⟨(currentOp + 3 : Nat), total,
    ⟨m.localizer.T "merge.status_delete", [.int (idx + 1 : Nat), .int n]⟩⟩

/-- The events of an iteration up to the reassignments: progress, successful
fetch, progress when there are documents. -/
def iterationHead (m : ListModel σ) (n total idx currentOp : Nat) (oldID : Int)
    (docs : List Document) : List Event :=
  evGetDocs m n total idx currentOp :: .call ⟨fetchCall m.entityType oldID, none, docs⟩ ::
    evUpdateDocs m n total idx currentOp docs

/-- The events of a whole iteration whose delete returned `err`. -/
def iterationEvents (m : ListModel σ) (mainID : Int) (n total idx currentOp : Nat)
    (oldID : Int) (docs : List Document) (err : Option GoError) : List Event :=
  iterationHead m n total idx currentOp oldID docs ++
    docs.map (fun doc => Event.call (okReassign m.entityType oldID mainID doc)) ++
    [evDelete m n total idx currentOp, .call ⟨deleteCall m.entityType oldID, err, []⟩]

/-- The progress message of the Preparing step (lines 552-557). -/
def evPrepare (m : ListModel σ) (p : MergePlan) : Event :=
  .progress ⟨1, totalOps p, ⟨m.localizer.T "merge.status_prepare", []⟩⟩

/-- The progress message of the Finalizing step (lines 671-676). -/
def evFinalName (m : ListModel σ) (p : MergePlan) (currentOp : Nat) : Event :=
  .progress ⟨(currentOp + 1 : Nat), totalOps p, ⟨m.localizer.T "merge.status_final_name", []⟩⟩

/-- The record of the rename of `mainID` to the temporary name that returned `err`. -/
def tempRename (m : ListModel σ) (p : MergePlan) (err : Option GoError) : CallRecord :=
  ⟨renameCall m.entityType p.mainID (tempName p.mainID m.mergeInput), err, []⟩

/-- The record of the rename of `mainID` to the final name that returned `err`. -/
def finalRename (m : ListModel σ) (p : MergePlan) (err : Option GoError) : CallRecord :=
  ⟨renameCall m.entityType p.mainID m.mergeInput, err, []⟩

/-- The calls of a Preparing step that succeeded: the rename to the temporary
name when the plan needs a rename, nothing otherwise. -/
def prepareCalls (m : ListModel σ) (p : MergePlan) : List CallRecord :=
  if p.needsRename then [tempRename m p none] else []

/-- The calls of a duplicate whose processing stopped before its delete: its
fetch failed, or the reassignment of the document `doc` failed after the
documents `done` had been reassigned. -/
def IncompleteBlock (kind : EntityType) (mainID d : Int) (tail : List CallRecord) : Prop :=
  (∃ err, tail = [⟨fetchCall kind d, some err, []⟩]) ∨
  (∃ done doc later err,
    tail = ⟨fetchCall kind d, none, done ++ doc :: later⟩ ::
      done.map (okReassign kind d mainID) ++
      [⟨reassignCall kind doc.ID d mainID, some err, []⟩])

/-- The possible shapes of a run of the plan `p`: the list of its client calls
together with the error of its outcome. -/
inductive RunShape (m : ListModel σ) (p : MergePlan) :
    List CallRecord → Option Formatted → Prop
  | prepareFailed (err : GoError) (h : p.needsRename = true) :
    RunShape m p [tempRename m p (some err)]
      (some ⟨m.localizer.T "merge.error_temp_update", [.err err]⟩)
  | fetchFailed (blocks : List Block) (d : Int) (rest : List Int) (err : GoError)
      (hids : p.toDeleteIDs = blocks.map Block.dup ++ d :: rest)
      (hok : ∀ b ∈ blocks, deleteAborts b.delErr = none) :
    RunShape m p
      (prepareCalls m p ++ blocksCalls m.entityType p.mainID blocks ++
        [⟨fetchCall m.entityType d, some err, []⟩])
      (some ⟨m.localizer.T "merge.error_get_docs", [.err err]⟩)
  | reassignFailed (blocks : List Block) (d : Int) (rest : List Int)
      (done : List Document) (doc : Document) (later : List Document) (err : GoError)
      (hids : p.toDeleteIDs = blocks.map Block.dup ++ d :: rest)
      (hok : ∀ b ∈ blocks, deleteAborts b.delErr = none) :
    RunShape m p
      (prepareCalls m p ++ blocksCalls m.entityType p.mainID blocks ++
        (⟨fetchCall m.entityType d, none, done ++ doc :: later⟩ ::
          done.map (okReassign m.entityType d p.mainID) ++
          [⟨reassignCall m.entityType doc.ID d p.mainID, some err, []⟩]))
      (some ⟨m.localizer.T "merge.error_update_doc", [.int doc.ID, .err err]⟩)
  | deleteFailed (blocks : List Block) (b : Block) (rest : List Int) (e : GoError)
      (hids : p.toDeleteIDs = (blocks ++ [b]).map Block.dup ++ rest)
      (hok : ∀ b' ∈ blocks, deleteAborts b'.delErr = none)
      (ha : deleteAborts b.delErr = some e) :
    RunShape m p
      (prepareCalls m p ++ blocksCalls m.entityType p.mainID (blocks ++ [b]))
      (some ⟨deleteErrorFormat m.entityType, [.int b.dup, .err e]⟩)
  | completed (blocks : List Block)
      (hids : p.toDeleteIDs = blocks.map Block.dup)
      (hok : ∀ b ∈ blocks, deleteAborts b.delErr = none)
      (h : p.needsRename = false) :
    RunShape m p (prepareCalls m p ++ blocksCalls m.entityType p.mainID blocks) none
  | finalized (blocks : List Block) (err : Option GoError)
      (hids : p.toDeleteIDs = blocks.map Block.dup)
      (hok : ∀ b ∈ blocks, deleteAborts b.delErr = none)
      (h : p.needsRename = true) :
    RunShape m p
      (prepareCalls m p ++ blocksCalls m.entityType p.mainID blocks ++ [finalRename m p err])
      (err.map (fun e => ⟨m.localizer.T "merge.error_final_update", [.err e]⟩))

/-- The call is one of the three fetch methods. -/
def Call.isFetch : Call → Bool
  | .GetDocumentsByTag _ => true
  | .GetDocumentsByCorrespondent _ => true
  | .GetDocumentsByType _ => true
  | _ => false

/-- The call is one of the three reassignment methods. -/
def Call.isReassign : Call → Bool
  | .UpdateDocumentTags _ _ _ => true
  | .UpdateDocumentCorrespondent _ _ => true
  | .UpdateDocumentTypeForDoc _ _ => true
  | _ => false

/-! ## Reference definition from the specification -/

/-- The complete result set of a listing, as the specification words it ("paged
transparently"): the documents of the page at `url`, followed by the documents
of the pages reached through the `next` links; `fuel` bounds the number of
pages read. This is not code of the repository: `getDocuments` is compared
with it. -/
def completeResultSet (c : Client σ) :
    Nat → String → σ → Except GoError (List Document) × σ
  | 0, _, s => (.ok [], s)
  | fuel + 1, url, s =>
    match c.Do { method := "GET", url := url, body := none,
                 authorization := "Token " ++ c.APIKey,
                 contentType := "application/json" } s with
    | (.error err, s1) => (.error err, s1)
    | (.ok resp, s1) =>
      if resp.StatusCode ≠ StatusOK then (.error (apiError "errore API" resp), s1)
      else match c.json.decodeListResponse resp.Body with
        | .error err => (.error err, s1)
        | .ok listResp =>
          match c.json.unmarshalDocuments listResp.Results with
          | .error err => (.error err, s1)
          | .ok documents =>
            match listResp.Next with
            | none => (.ok documents, s1)
            | some next =>
              match completeResultSet c fuel next s1 with
              | (.error err, s2) => (.error err, s2)
              | (.ok more, s2) => (.ok (documents ++ more), s2)

/-- The set of the distinct selected IDs: the IDs of the items, among those
`executeMerge` looks at, that `selectedMap` marks as selected. -/
def selectedIDSet (m : ListModel σ) : Finset Int :=
  (((itemsToCheck m).filter (fun it => m.selectedMap it.ID)).map SimilarItem.ID).toFinset

/-- The values of `current` of the progress messages among a list of events, in order. -/
def currentsOf : List Event → List Int
  | [] => []
  | .progress msg :: evs => msg.current :: currentsOf evs
  | .call _ :: evs => currentsOf evs

/-- A model in manual mode over `countingClient 100` (no request fails in a run
this short) that merges the correspondents 5, 7 and 9 under the new name
`"Bar"`: a plan with a rename and two duplicates. -/
def eightStepModel : ListModel Nat where
  localizer := ⟨id⟩
  entityType := .EntityCorrespondents
  mergeMode := .ModeManual
  client := countingClient 100
  allItems := [⟨5, "foo"⟩, ⟨7, "Foo"⟩, ⟨9, "x"⟩]
  selectedMap := fun k => k = 5 || k = 7 || k = 9
  mergeInput := "Bar"
  currentGroup := none

/-! ## `internal/similarity/similarity.go` -/

/-- Go `a < b` on `float64`. -/
def Float64.lt : Float64 → Float64 → Bool
  | .nan, _ => false
  | _, .nan => false
  | _, .negInf => false
  | .negInf, _ => true
  | .posInf, _ => false
  | .fin _, .posInf => true
  | .fin a, .fin b => decide (a < b)

/-- Go `a > b` on `float64`. -/
def Float64.gt (a b : Float64) : Bool := Float64.lt b a

/-- Go `a >= b` on `float64`. -/
def Float64.ge : Float64 → Float64 → Bool
  | .nan, _ => false
  | _, .nan => false
  | _, .negInf => true
  | .negInf, _ => false
  | .posInf, _ => true
  | .fin _, .posInf => false
  | .fin a, .fin b => decide (b ≤ a)

/-- The power `2 ^ k` for an integer `k`. -/
def pow2 (k : Int) : ℚ :=
  if 0 ≤ k then ((2 ^ k.toNat : Nat) : ℚ) else 1 / ((2 ^ (-k).toNat : Nat) : ℚ)

/-- Rounding of a rational to the nearest integer, ties to the even one. -/
def roundHalfEven (x : ℚ) : Int :=
  let f := ⌊x⌋
  let r := x - f
  if r < 1 / 2 then f else if 1 / 2 < r then f + 1 else if f % 2 = 0 then f else f + 1

/-- The number of binary digits of `n`, by halving at most `fuel` times. -/
def bitLengthAux : Nat → Nat → Nat
  | 0, _ => 0
  | fuel + 1, n => if n = 0 then 0 else bitLengthAux fuel (n / 2) + 1

/-- The number of binary digits of `n`: `2 ^ (bitLength n - 1) ≤ n < 2 ^ bitLength n`
for `n ≥ 1`. -/
def bitLength (n : Nat) : Nat := bitLengthAux n n

/-- The binary exponent of a non-zero rational `x`: the `e` with `2 ^ e ≤ |x| < 2 ^ (e + 1)`. -/
def binaryExponent (x : ℚ) : Int :=
  let k : Int := (bitLength x.num.natAbs : Int) - (bitLength x.den : Int)
  if pow2 k ≤ |x| then k else k - 1

/-- Rounding to `float64` (IEEE 754 binary64, round to nearest, ties to even) of
a rational in the normal range: the nearest multiple of `2 ^ (e - 52)`, `e` the
binary exponent. The values the program rounds are machine integers, quotients
of two of them, and `1` minus such a quotient, which overflow and the subnormal
range do not reach. -/
def round64 (x : ℚ) : ℚ :=
  if x = 0 then 0
  else
    let q := pow2 (binaryExponent x - 52)
    (roundHalfEven (x / q) : ℚ) * q

/-- Go `float64(n)` for an `int`. -/
def Float64.ofInt (n : Int) : ℚ := round64 n

/-- The functions of the Go packages `strings` and `unicode` that the package
uses, taken as parameters. -/
structure Unicode where
  TrimSpace : String → String
  ToLower : String → String
  IsLetter : Char → Bool
  IsDigit : Char → Bool
  IsSpace : Char → Bool

/-- The bytes of a Go string: the UTF-8 encoding of its characters. -/
def goBytes (s : String) : List UInt8 := s.data.flatMap String.utf8EncodeChar

/-- Go `len(s)` for a string: the number of its bytes. -/
def goLen (s : String) : Int := (goBytes s).length

/-- Go `min` of the package (the minimum of three integers). -/
def min3 (a b c : Int) : Int :=
  if a < b then (if a < c then a else c)
  else if b < c then b else c

/-- The inner loop of `levenshteinDistance` (lines 44-55) for one `i`: the cells
`matrix[i][j..]`, from the element `c = s1[i-1]`, the rest `s2[j-1..]` of the
second string, the cells `matrix[i-1][j-1..]` of the row above and the cell
`left = matrix[i][j-1]`. -/
def levRowFrom {α : Type} [DecidableEq α] (c : α) : List α → List Int → Int → List Int
  | b :: bs, diag :: up :: above, left =>
    let cost : Int := if c = b then 0 else 1
    let cell := min3 (up + 1) (left + 1) (diag + cost)
    cell :: levRowFrom c bs (up :: above) cell
  | _, _, _ => []

/-- The row `matrix[i]`: `matrix[i][0] = i` (line 36), then the inner loop. -/
def levRow {α : Type} [DecidableEq α] (c : α) (s2 : List α) (above : List Int) (i : Int) :
    List Int :=
  i :: levRowFrom c s2 above i

/-- The outer loop of `levenshteinDistance` (lines 43-56) from row `i` on: the
last row of the matrix, from the rest `s1[i-1..]` of the first string and the row
`matrix[i-1]`. -/
def levRows {α : Type} [DecidableEq α] (s2 : List α) : List α → List Int → Int → List Int
  | [], above, _ => above
  | c :: cs, above, i => levRows s2 cs (levRow c s2 above i) (i + 1)

/-- The row `matrix[0]`: `matrix[0][j] = j` (lines 38-40). -/
def levRow0 (n : Nat) : List Int := (List.range (n + 1)).map (fun j => (j : Int))

/-- The dynamic programme of `levenshteinDistance` on two sequences: the cell
`matrix[len(s1)][len(s2)]`. -/
def levMatrix {α : Type} [DecidableEq α] (s1 s2 : List α) : Int :=
  if s1.length = 0 then s2.length
  else if s2.length = 0 then s1.length
  else (levRows s2 s1 (levRow0 s2.length) 1).getLastD 0

/-- Go `levenshteinDistance`: both strings are lower-cased and compared byte by byte. -/
def levenshteinDistance (u : Unicode) (s1 s2 : String) : Int :=
  levMatrix (goBytes (u.ToLower s1)) (goBytes (u.ToLower s2))

/-- Go `normalizeString`. -/
def normalizeString (u : Unicode) (s : String) : String :=
  String.mk ((u.ToLower (u.TrimSpace s)).data.filter
    (fun r => u.IsLetter r || u.IsDigit r || u.IsSpace r))

/-- Go `CalculateSimilarity`. -/
def CalculateSimilarity (u : Unicode) (s1 s2 : String) : Float64 :=
  let norm1 := normalizeString u s1
  let norm2 := normalizeString u s2
  if norm1 = norm2 then .fin 1
  else
    let maxLen := if goLen norm2 > goLen norm1 then goLen norm2 else goLen norm1
    if maxLen = 0 then .fin 1
    else
      let distance := levenshteinDistance u norm1 norm2
      .fin (round64 (1 - round64 (Float64.ofInt distance / Float64.ofInt maxLen)))

/-- Lines 117-122 of `FindSimilarGroups`: the threshold after the two `if`s. -/
def clampThreshold (threshold : Float64) : Float64 :=
  let t1 := if threshold.lt (.fin 0) then .fin 0 else threshold
  if t1.gt (.fin 1) then .fin 1 else t1

/-- The inner loop of `FindSimilarGroups` (lines 139-149), for the
representative `rep`: the items of the group and the map `used` after the loop
over the items `items[j..]`. -/
def absorb (u : Unicode) (rep : SimilarItem) (threshold : Float64) :
    List SimilarItem → List SimilarItem → (Int → Bool) → List SimilarItem × (Int → Bool)
  | [], groupItems, used => (groupItems, used)
  | item :: rest, groupItems, used =>
    if used item.ID then absorb u rep threshold rest groupItems used
    else if (CalculateSimilarity u rep.Name item.Name).ge threshold then
      absorb u rep threshold rest (groupItems ++ [item])
        (fun k => if k = item.ID then true else used k)
    else absorb u rep threshold rest groupItems used

/-- The outer loop of `FindSimilarGroups` (lines 127-155) over the items
`items[i..]`, with the map `used` and the groups collected so far. -/
def findGroups (u : Unicode) (threshold : Float64) :
    List SimilarItem → (Int → Bool) → List SimilarityGroup → List SimilarityGroup
  | [], _, groups => groups
  | item :: rest, used, groups =>
    if used item.ID then findGroups u threshold rest used groups
    else
      let r := absorb u item threshold rest [item]
        (fun k => if k = item.ID then true else used k)
      if r.1.length > 1 then
        findGroups u threshold rest r.2 (groups ++ [⟨item.Name, r.1⟩])
      else findGroups u threshold rest r.2 groups

/-- Go `FindSimilarGroups`. -/
def FindSimilarGroups (u : Unicode) (items : List SimilarItem) (threshold : Float64) :
    List SimilarityGroup :=
  findGroups u (clampThreshold threshold) items (fun _ => false) []

/-- An instance of `Unicode` used to evaluate the examples. It agrees with Go on
the ASCII letters and digits and on the space, the tab, the line feed and the
carriage return. It differs from Go elsewhere: the vertical tab and the form
feed, which Go trims and counts as space, are neither trimmed nor counted as
space, and the characters outside ASCII are left unchanged by `ToLower` and
counted neither as letters nor as space. The examples hold none of these
characters. -/
def asciiUnicode : Unicode where
  TrimSpace := fun s =>
    String.mk (((s.data.dropWhile Char.isWhitespace).reverse.dropWhile
      Char.isWhitespace).reverse)
  ToLower := fun s => String.mk (s.data.map Char.toLower)
  IsLetter := Char.isAlpha
  IsDigit := Char.isDigit
  IsSpace := Char.isWhitespace

/-- The items `[(1,"Amazon"),(2,"amazon "),(3,"Amaz0n"),(4,"Ebay")]` of the
example of the specification. -/
def exampleItems : List SimilarItem :=
  [⟨1, "Amazon"⟩, ⟨2, "amazon "⟩, ⟨3, "Amaz0n"⟩, ⟨4, "Ebay"⟩]

/-- The `float64` constant `0.7`, the threshold that `loadData` passes. -/
def threshold07 : Float64 := .fin (round64 (7 / 10))

/-! ## Reference definition of the clustering from the specification -/

/-- First match wins: the item joins the earliest open group whose
representative is similar enough to it (similarity `>= t`), at the end of the
group; when there is no such group it opens a new group, after the others, as
its representative. -/
def assignFirstMatch (u : Unicode) (t : Float64) (item : SimilarItem) :
    List SimilarityGroup → List SimilarityGroup
  | [] => [⟨item.Name, [item]⟩]
  | g :: gs =>
    if (CalculateSimilarity u g.Representative item.Name).ge t then
      ⟨g.Representative, g.Items ++ [item]⟩ :: gs
    else g :: assignFirstMatch u t item gs

/-- The clustering as the specification words it: the items are taken in input
order, each is assigned by `assignFirstMatch`, and the groups that end with more
than one member are kept, in the order in which they were opened. This is not
code of the repository: `FindSimilarGroups` is compared with it. -/
def firstMatchGroups (u : Unicode) (items : List SimilarItem) (t : Float64) :
    List SimilarityGroup :=
  (items.foldl (fun gs item => assignFirstMatch u t item gs) []).filter
    (fun g => decide (g.Items.length > 1))

/-- The IDs of the items of a list of groups, group after group. -/
def groupIDs (groups : List SimilarityGroup) : List Int :=
  groups.flatMap (fun g => g.Items.map SimilarItem.ID)

/-- The text of `json.Marshal` for a slice of `int`: `[7,7]`. -/
def marshalIntList (l : List Int) : String :=
  "[" ++ ",".intercalate (l.map fmtInt) ++ "]"

/-- A JSON codec for which every document is document 10 with the tags 5 and 7. -/
def twoTagsJson : Json where
  decodeListResponse := fun _ => .ok ⟨0, none, none, "R"⟩
  unmarshalTags := fun _ => .ok []
  unmarshalCorrespondents := fun _ => .ok []
  unmarshalDocumentTypes := fun _ => .ok []
  unmarshalDocuments := fun _ => .ok []
  decodeDocument := fun _ => .ok ⟨10, "a", none, none, [5, 7]⟩
  marshalInts := marshalIntList

/-- A service that answers every request with `200` and whose state is the list
of the requests it has received. -/
def recordingClient : Client (List Request) where
  BaseURL := "http://h"
  APIKey := "k"
  Do := fun req log => (.ok ⟨200, ""⟩, log ++ [req])
  json := twoTagsJson

/-- Three names of which the second and the third are close to the first and
far from each other. -/
def chainItems : List SimilarItem :=
  [⟨1, "abcdefghij"⟩, ⟨2, "abcdefghxy"⟩, ⟨3, "xycdefghij"⟩]

/-! ## Reference definition of the edit distance -/

/-- The standard recursive definition of the edit distance (Levenshtein
distance) of two sequences: the least number of insertions, deletions and
substitutions of one element, of cost 1 each, that turn the first sequence into
the second. This is not code of the repository: `levenshteinDistance` is
compared with it. -/
def editDistance {α : Type} [DecidableEq α] : List α → List α → Nat
  | [], ys => ys.length
  | x :: xs, [] => (x :: xs).length
  | x :: xs, y :: ys =>
    min (min (editDistance xs (y :: ys) + 1) (editDistance (x :: xs) ys + 1))
      (editDistance xs ys + (if x = y then 0 else 1))
termination_by xs ys => xs.length + ys.length

/-- The edit distances from `p` to the prefixes `pre`, `pre ++ [b₁]`,
`pre ++ [b₁, b₂]`, ... of `pre ++ bs`: what a row of the matrix of
`levenshteinDistance` is to hold. -/
def edRow {α : Type} [DecidableEq α] (p pre : List α) : List α → List Int
  | [] => [(editDistance p pre : Int)]
  | b :: bs => (editDistance p pre : Int) :: edRow p (pre ++ [b]) bs

/-! ## `internal/ui/list.go`: `Update` -/

/-- Go `loadedMsg`. -/
structure loadedMsg where
  groups : List SimilarityGroup
  allItems : List SimilarItem
  err : Option GoError
deriving DecidableEq, Repr

/-- A message given to `Update`, by the cases of its type switch; a key message
is represented by the text `msg.String()`, and `other` is a message of any other
type. -/
inductive Msg
  | WindowSizeMsg (Width Height : Int)
  | loaded (msg : loadedMsg)
  | progress (msg : mergeProgressMsg)
  | complete (msg : mergeCompleteMsg)
  | KeyMsg (key : String)
  | other
deriving DecidableEq, Repr

/-- A command returned by `Update`: `nil`, `tea.Quit`, `m.loadData`,
`waitForProgress(m.progressChan)`, the same command returned by
`updateMergeMode` after it has started the goroutine that runs `executeMerge`
(`startMerge`), the command of `textinput.Focus` (`Blink`) and the command of
`textinput.Update` (`input`). -/
inductive Cmd
  | nil
  | Quit
  | loadData
  | waitForProgress
  | startMerge
  | Blink
  | input
deriving DecidableEq, Repr

/-- The functions of the package `textinput` of bubbles that compute the value
of a text input, taken as parameters: `SetValue limit s` is the value after
`SetValue(s)` on an input with `CharLimit = limit`, and
`Update limit value focused key` the value after `Update(msg)`. -/
structure TextInput where
  SetValue : Int → String → String
  Update : Int → String → Bool → String → String

/-- Go `s[i]` on a slice; `none` stands for the run-time panic
`index out of range`. -/
def goIndex {α : Type} (l : List α) (i : Int) : Option α :=
  if 0 ≤ i then l[i.toNat]? else none

/-- Go `m.selectedMap[id] = v`. -/
def ListModel.setSelected (m : ListModel σ) (id : Int) (v : Bool) : ListModel σ :=
  { m with
    selectedMap := fun k => if k = id then v else m.selectedMap k
    selectedKeys := if id ∈ m.selectedKeys then m.selectedKeys else m.selectedKeys ++ [id] }

/-- Go `m.selectedMap = make(map[int]bool)`. -/
def ListModel.clearSelected (m : ListModel σ) : ListModel σ :=
  { m with selectedMap := fun _ => false, selectedKeys := [] }

/-- The loop `for _, item := range m.currentGroup.Items` of `updateBrowseMode`
(lines 267-269). -/
def ListModel.selectAll (m : ListModel σ) : List SimilarItem → ListModel σ
  | [] => m
  | item :: rest => ListModel.selectAll (m.setSelected item.ID true) rest

/-- The loop of `updateManualMode` that counts the selected entries of the map
(lines 416-421). -/
def ListModel.selectedCount (m : ListModel σ) : Int :=
  (m.selectedKeys.filter m.selectedMap).length

/-- Go `NewListModel`; the client, which the Go function builds from the
configuration, is an argument. -/
def NewListModel (client : Client σ) (loc : Localizer) (entityType : EntityType)
    (mergeMode : MergeMode) : ListModel σ where
  localizer := loc
  entityType := entityType
  mergeMode := mergeMode
  client := client
  allItems := []
  selectedMap := fun _ => false
  mergeInput := ""
  currentGroup := none
  loading := true
  mode := if mergeMode = .ModeManual then "manual" else "browse"
  width := 80
  height := 24

/-- Go `loadData`. -/
def loadData (u : Unicode) (m : ListModel σ) (s : σ) : loadedMsg × σ :=
  let fetched : Except GoError (List SimilarItem) × σ :=
    match m.entityType with
    | .EntityTags =>
      match m.client.GetTags s with
      | (.error err, s1) => (.error err, s1)
      | (.ok tags, s1) => (.ok (tags.map (fun tag => ⟨tag.ID, tag.Name⟩)), s1)
    | .EntityCorrespondents =>
      match m.client.GetCorrespondents s with
      | (.error err, s1) => (.error err, s1)
      | (.ok correspondents, s1) =>
        (.ok (correspondents.map (fun corr => ⟨corr.ID, corr.Name⟩)), s1)
    | .EntityDocumentTypes =>
      match m.client.GetDocumentTypes s with
      | (.error err, s1) => (.error err, s1)
      | (.ok docTypes, s1) => (.ok (docTypes.map (fun dt => ⟨dt.ID, dt.Name⟩)), s1)
  match fetched with
  | (.error err, s1) => (⟨[], [], some err⟩, s1)
  | (.ok items, s1) =>
    (⟨if items.length > 0 then FindSimilarGroups u items threshold07 else [], items, none⟩, s1)

/-- Go `filterItems`. -/
def filterItems (u : Unicode) (m : ListModel σ) (query : String) : List SimilarItem :=
  m.allItems.filter (fun item => stringsContains (u.ToLower item.Name) query)

/-- Go `updateBrowseMode`. -/
def updateBrowseMode (m : ListModel σ) (key : String) : Option (ListModel σ × Cmd) :=
  if key = "ctrl+c" then some ({ m with quitting := true }, .Quit)
  else if key = "q" ∨ key = "esc" then some ({ m with quitting := true }, .nil)
  else if key = "up" ∨ key = "k" then
    some (if m.cursor > 0 then { m with cursor := m.cursor - 1 } else m, .nil)
  else if key = "down" ∨ key = "j" then
    some (if m.cursor < (m.groups.length : Int) - 1 then { m with cursor := m.cursor + 1 }
      else m, .nil)
  else if key = "enter" ∨ key = " " then
    if m.groups.length > 0 then
      match goIndex m.groups m.cursor with
      | none => none
      | some group =>
        some (ListModel.selectAll
          { m with mode := "select", currentGroup := some group, groupCursor := 0 }
          group.Items, .nil)
    else some (m, .nil)
  else some (m, .nil)

/-- Go `updateSelectMode`. -/
def updateSelectMode (ti : TextInput) (m : ListModel σ) (key : String) :
    Option (ListModel σ × Cmd) :=
  if key = "ctrl+c" then some ({ m with quitting := true }, .Quit)
  else if key = "esc" then
    some ({ m.clearSelected with mode := "browse", currentGroup := none }, .nil)
  else if key = "up" ∨ key = "k" then
    some (if m.groupCursor > 0 then { m with groupCursor := m.groupCursor - 1 } else m, .nil)
  else if key = "down" ∨ key = "j" then
    match m.currentGroup with
    | none => some (m, .nil)
    | some group =>
      some (if m.groupCursor < (group.Items.length : Int) - 1 then
        { m with groupCursor := m.groupCursor + 1 } else m, .nil)
  else if key = " " then
    match m.currentGroup with
    | none => some (m, .nil)
    | some group =>
      match goIndex group.Items m.groupCursor with
      | none => none
      | some item => some (m.setSelected item.ID (!m.selectedMap item.ID), .nil)
  else if key = "enter" then
    match m.currentGroup with
    | none => some ({ m with mode := "merge", mergeInputFocus := true }, .Blink)
    | some group =>
      if m.groupCursor < (group.Items.length : Int) then
        match goIndex group.Items m.groupCursor with
        | none => none
        | some item =>
          some ({ m with mode := "merge", mergeInput := ti.SetValue 200 item.Name,
                         mergeInputFocus := true }, .Blink)
      else some ({ m with mode := "merge", mergeInputFocus := true }, .Blink)
  else some (m, .nil)

/-- Go `updateMergeMode`. -/
def updateMergeMode (ti : TextInput) (m : ListModel σ) (key : String) :
    Option (ListModel σ × Cmd) :=
  if key = "ctrl+c" then some ({ m with quitting := true }, .Quit)
  else if key = "esc" then
    some ({ m with mode := if m.mergeMode = .ModeManual then "manual" else "select",
                   mergeInputFocus := false }, .nil)
  else if key = "enter" then
    some ({ m with mergeInputFocus := false, merging := true,
                   mergeStatus := ⟨m.localizer.T "merge.status_start", []⟩,
                   mergeProgress := .fin 0, mergeCurrent := 0, mergeTotal := 0 }, .startMerge)
  else
    some ({ m with mergeInput := ti.Update 200 m.mergeInput m.mergeInputFocus key }, .input)

/-- The end of `updateManualMode`, after its `switch` (lines 432-453). -/
def updateSearch (u : Unicode) (ti : TextInput) (m : ListModel σ) (key : String) :
    Option (ListModel σ × Cmd) :=
  if m.searchFocus then
    let m1 := { m with searchInput := ti.Update 100 m.searchInput m.searchFocus key }
    let query := u.ToLower m1.searchInput
    let m2 := { m1 with
      filteredItems := if query = "" then m1.allItems else filterItems u m1 query }
    let m3 := if m2.cursor ≥ (m2.filteredItems.length : Int) then { m2 with cursor := 0 }
      else m2
    some (m3, .input)
  else some (m, .nil)

/-- Go `updateManualMode`. -/
def updateManualMode (u : Unicode) (ti : TextInput) (m : ListModel σ) (key : String) :
    Option (ListModel σ × Cmd) :=
  if key = "ctrl+c" then some ({ m with quitting := true }, .Quit)
  else if key = "esc" then
    if m.searchFocus && m.searchInput ≠ "" then
      some ({ m with searchInput := ti.SetValue 100 "", filteredItems := m.allItems,
                     cursor := 0 }, .nil)
    else some ({ m with quitting := true }, .nil)
  else if key = "up" ∨ key = "k" then
    updateSearch u ti
      (if !m.searchFocus then
        (if m.cursor > 0 then { m with cursor := m.cursor - 1 } else m)
       else m) key
  else if key = "down" ∨ key = "j" then
    updateSearch u ti
      (if !m.searchFocus then
        (if m.cursor < (m.filteredItems.length : Int) - 1 then
          { m with cursor := m.cursor + 1 } else m)
       else m) key
  else if key = "tab" then
    if m.searchFocus then updateSearch u ti { m with searchFocus := false } key
    else some ({ m with searchFocus := true }, .Blink)
  else if key = " " then
    if !m.searchFocus && m.filteredItems.length > 0 then
      match goIndex m.filteredItems m.cursor with
      | none => none
      | some item => updateSearch u ti (m.setSelected item.ID (!m.selectedMap item.ID)) key
    else updateSearch u ti m key
  else if key = "enter" then
    if m.searchFocus then some ({ m with searchFocus := false }, .nil)
    else if m.selectedCount ≥ 2 then
      if m.cursor < (m.filteredItems.length : Int) then
        match goIndex m.filteredItems m.cursor with
        | none => none
        | some item =>
          some ({ m with mode := "merge", mergeInput := ti.SetValue 200 item.Name,
                         mergeInputFocus := true }, .Blink)
      else some ({ m with mode := "merge", mergeInputFocus := true }, .Blink)
    else updateSearch u ti m key
  else updateSearch u ti m key

/-- Go `Update`; `none` stands for a run-time panic. -/
def ListModel.Update (u : Unicode) (ti : TextInput) (m : ListModel σ) :
    Msg → Option (ListModel σ × Cmd)
  | .WindowSizeMsg w h => some ({ m with width := w, height := h }, .nil)
  | .loaded msg =>
    match msg.err with
    | some err => some ({ m with loading := false, err := some (.load err) }, .nil)
    | none =>
      some ({ m with loading := false, groups := msg.groups, allItems := msg.allItems,
                     filteredItems := msg.allItems,
                     searchFocus := if m.mergeMode = .ModeManual then true
                       else m.searchFocus }, .nil)
  | .progress msg =>
    some ({ m with mergeCurrent := msg.current, mergeTotal := msg.total,
                   mergeStatus := msg.status,
                   mergeProgress := if msg.total > 0 then
                       .fin (round64 (Float64.ofInt msg.current / Float64.ofInt msg.total))
                     else m.mergeProgress }, .waitForProgress)
  | .complete msg =>
    match msg.err with
    | some err =>
      some ({ m with merging := false, mergeStatus := ⟨"", []⟩, mergeProgress := .fin 0,
                     mergeCurrent := 0, mergeTotal := 0, err := some (.merge err),
                     mode := "select" }, .nil)
    | none =>
      some ({ m.clearSelected with
              merging := false, mergeStatus := ⟨"", []⟩, mergeProgress := .fin 0,
              mergeCurrent := 0, mergeTotal := 0,
              mode := if m.mergeMode = .ModeManual then "manual" else "browse",
              currentGroup := none, loading := true }, .loadData)
  | .KeyMsg key =>
    if m.merging then some (m, .nil)
    else if m.mode = "merge" then updateMergeMode ti m key
    else if m.mode = "select" then updateSelectMode ti m key
    else if m.mode = "manual" then updateManualMode u ti m key
    else updateBrowseMode m key
  | .other => some (m, .nil)

/-! ## The run of the program on a service -/

/-- The progress messages among the effects of a run of `executeMerge`, in the
order in which they were sent on the channel. -/
def progressMsgs : List Event → List mergeProgressMsg
  | [] => []
  | .progress msg :: rest => msg :: progressMsgs rest
  | .call _ :: rest => progressMsgs rest

/-- The model after `Update` has received the messages in turn. -/
def feed (u : Unicode) (ti : TextInput) (m : ListModel σ) : List Msg → Option (ListModel σ)
  | [] => some m
  | msg :: rest =>
    match m.Update u ti msg with
    | none => none
    | some (m1, _) => feed u ti m1 rest

/-- The runtime executes the command `m.loadData` on the service and gives its
message to `Update`. -/
def runLoad (u : Unicode) (ti : TextInput) (m : ListModel σ) (s : σ) :
    Option (ListModel σ × σ) :=
  match feed u ti m [.loaded (loadData u m s).1] with
  | none => none
  | some m1 => some (m1, (loadData u m s).2)

/-- The runtime executes the command returned by `Update`, in the schedule in
which every message that the command produces is delivered before the next key
message: for `startMerge` the progress messages of `executeMerge`, then its
`mergeCompleteMsg`, then the message of the command that `Update` returns for
it. -/
def runCmd (u : Unicode) (ti : TextInput) (m : ListModel σ) (s : σ) :
    Cmd → Option (ListModel σ × σ)
  | .loadData => runLoad u ti m s
  | .startMerge =>
    match feed u ti m ((progressMsgs (executeMerge m s).2.2).map Msg.progress) with
    | none => none
    | some m1 =>
      match m1.Update u ti (.complete (executeMerge m s).1) with
      | none => none
      | some (m2, .loadData) => runLoad u ti m2 (executeMerge m s).2.1
      | some (m2, _) => some (m2, (executeMerge m s).2.1)
  | _ => some (m, s)

/-- The user presses a key: `Update` receives the key message and the runtime
executes the command. -/
def press (u : Unicode) (ti : TextInput) (st : ListModel σ × σ) (key : String) :
    Option (ListModel σ × σ) :=
  match st.1.Update u ti (.KeyMsg key) with
  | none => none
  | some (m1, cmd) => runCmd u ti m1 st.2 cmd

/-- The user presses the keys in turn; `none` once a step panics. -/
def pressAll (u : Unicode) (ti : TextInput) :
    Option (ListModel σ × σ) → List String → Option (ListModel σ × σ)
  | st, [] => st
  | none, _ => none
  | some st, key :: rest => pressAll u ti (press u ti st key) rest

/-- The program opens the list: `NewListModel`, then the command of `Init`. -/
def openList (u : Unicode) (ti : TextInput) (client : Client σ) (loc : Localizer)
    (entityType : EntityType) (mergeMode : MergeMode) (s : σ) : Option (ListModel σ × σ) :=
  runLoad u ti (NewListModel client loc entityType mergeMode) s

/-- A text input for the examples: `SetValue` stores the text, `Update` appends
a key of one character to a focused input. -/
def plainInput : TextInput where
  SetValue := fun _ s => s
  Update := fun _ value focused key =>
    if focused && key.length = 1 then value ++ key else value

/-- The four tags of the examples. -/
def fourTags : List Tag :=
  [⟨1, "Amazon", "", ""⟩, ⟨2, "Amaz0n", "", ""⟩, ⟨3, "Ebay", "", ""⟩, ⟨4, "Ebxy", "", ""⟩]

/-- A JSON codec for a service with the four tags of `fourTags`, of which the
tag `gone` is missing in the listing `"after"`; no document has a tag. -/
def shrinkingJson (gone : Int) : Json where
  decodeListResponse := fun b => .ok ⟨0, none, none, b⟩
  unmarshalTags := fun r =>
    if r = "before" then .ok fourTags
    else if r = "after" then .ok (fourTags.filter (fun t => t.ID ≠ gone))
    else .ok []
  unmarshalCorrespondents := fun _ => .ok []
  unmarshalDocumentTypes := fun _ => .ok []
  unmarshalDocuments := fun _ => .ok []
  decodeDocument := fun _ => .ok ⟨10, "a", none, none, []⟩
  marshalInts := marshalIntList

/-- A service that holds the four tags of `fourTags` until it receives the
`DELETE` of the tag `gone`, and the three others from then on; the state tells
whether the tag has been deleted. -/
def shrinkingClient (gone : Int) : Client Bool where
  BaseURL := "http://h"
  APIKey := "k"
  Do := fun req deleted =>
    if req.method = "DELETE" then
      (.ok ⟨204, ""⟩, deleted || req.url = "http://h/api/tags/" ++ fmtInt gone ++ "/")
    else if req.method = "GET" ∧ req.url = "http://h/api/tags/?page_size=100" then
      (.ok ⟨200, if deleted then "after" else "before"⟩, deleted)
    else (.ok ⟨200, ""⟩, deleted)
  json := shrinkingJson gone

/-! ## The calls of a run, performed on the service -/

/-- The result of a fetch method as the fields of a record: the error, the
documents returned, and the next state of the service. -/
def fetched : Except GoError (List Document) × σ → (Option GoError × List Document) × σ
  | (.error err, s1) => ((some err, []), s1)
  | (.ok docs, s1) => ((none, docs), s1)

/-- The client method that a call names, invoked on the service in the state
`s`: the error it returns, the documents it returns, and the state in which it
leaves the service. -/
def Call.perform (c : Client σ) : Call → σ → (Option GoError × List Document) × σ
  | .UpdateTag id name, s => (((c.UpdateTag id name s).1, []), (c.UpdateTag id name s).2)
  | .UpdateCorrespondent id name, s =>
    (((c.UpdateCorrespondent id name s).1, []), (c.UpdateCorrespondent id name s).2)
  | .UpdateDocumentType id name, s =>
    (((c.UpdateDocumentType id name s).1, []), (c.UpdateDocumentType id name s).2)
  | .GetDocumentsByTag tagID, s => fetched (c.GetDocumentsByTag tagID s)
  | .GetDocumentsByCorrespondent correspondentID, s =>
    fetched (c.GetDocumentsByCorrespondent correspondentID s)
  | .GetDocumentsByType typeID, s => fetched (c.GetDocumentsByType typeID s)
  | .UpdateDocumentTags docID oldTagID newTagID, s =>
    (((c.UpdateDocumentTags docID oldTagID newTagID s).1, []),
      (c.UpdateDocumentTags docID oldTagID newTagID s).2)
  | .UpdateDocumentCorrespondent docID newCorrespondentID, s =>
    (((c.UpdateDocumentCorrespondent docID newCorrespondentID s).1, []),
      (c.UpdateDocumentCorrespondent docID newCorrespondentID s).2)
  | .UpdateDocumentTypeForDoc docID newTypeID, s =>
    (((c.UpdateDocumentTypeForDoc docID newTypeID s).1, []),
      (c.UpdateDocumentTypeForDoc docID newTypeID s).2)
  | .DeleteTag id, s => (((c.DeleteTag id s).1, []), (c.DeleteTag id s).2)
  | .DeleteCorrespondent id, s =>
    (((c.DeleteCorrespondent id s).1, []), (c.DeleteCorrespondent id s).2)
  | .DeleteDocumentType id, s =>
    (((c.DeleteDocumentType id s).1, []), (c.DeleteDocumentType id s).2)

/-- The calls invoked on the service one after the other from the state `s`,
each in the state left by the one before: the records of their results and the
state in which the last one leaves the service. -/
def performAll (c : Client σ) : List Call → σ → List CallRecord × σ
  | [], s => ([], s)
  | call :: rest, s =>
    (⟨call, (call.perform c s).1.1, (call.perform c s).1.2⟩ ::
        (performAll c rest (call.perform c s).2).1,
      (performAll c rest (call.perform c s).2).2)

/-- The request that `makeRequest` builds for a method, an endpoint and a body. -/
def Client.request (c : Client σ) (method endpoint : String) (body : Option String) :
    Request :=
  { method := method, url := c.BaseURL ++ endpoint, body := body,
    authorization := "Token " ++ c.APIKey, contentType := "application/json" }

/-- The service of `c` with a wiretap on the transport: the state is paired with
the list of the requests that the service has received, in order. The answers
and the states of the service are those of `c`. -/
def Client.recording (c : Client σ) : Client (σ × List Request) where
  BaseURL := c.BaseURL
  APIKey := c.APIKey
  Do := fun req st => ((c.Do req st.1).1, ((c.Do req st.1).2, st.2 ++ [req]))
  json := c.json

/-- The model `m` over the service with the wiretap: every field is the one of
`m`, the client is `m.client.recording`. -/
def ListModel.recording (m : ListModel σ) : ListModel (σ × List Request) where
  localizer := m.localizer
  entityType := m.entityType
  mergeMode := m.mergeMode
  client := m.client.recording
  allItems := m.allItems
  selectedMap := m.selectedMap
  mergeInput := m.mergeInput
  currentGroup := m.currentGroup
  groups := m.groups
  filteredItems := m.filteredItems
  cursor := m.cursor
  groupCursor := m.groupCursor
  selectedKeys := m.selectedKeys
  loading := m.loading
  merging := m.merging
  mergeStatus := m.mergeStatus
  mergeProgress := m.mergeProgress
  mergeTotal := m.mergeTotal
  mergeCurrent := m.mergeCurrent
  err := m.err
  quitting := m.quitting
  mode := m.mode
  mergeInputFocus := m.mergeInputFocus
  searchInput := m.searchInput
  searchFocus := m.searchFocus
  width := m.width
  height := m.height

/-- The requests that the client method named by a call sends when it is invoked
in the state `s`, in order. `UpdateDocumentTags` sends the `GET` of the document
and, when the document is fetched, the `PATCH` of its new tag list; every other
method sends one request. -/
def Call.requests (c : Client σ) : Call → σ → List Request
  | .UpdateTag id name, _ =>
    [c.request "PATCH" ("/api/tags/" ++ fmtInt id ++ "/") (some (nameBody name))]
  | .UpdateCorrespondent id name, _ =>
    [c.request "PATCH" ("/api/correspondents/" ++ fmtInt id ++ "/") (some (nameBody name))]
  | .UpdateDocumentType id name, _ =>
    [c.request "PATCH" ("/api/document_types/" ++ fmtInt id ++ "/") (some (nameBody name))]
  | .GetDocumentsByTag tagID, _ =>
    [c.request "GET" ("/api/documents/?tags__id__in=" ++ fmtInt tagID ++ "&page_size=100")
      none]
  | .GetDocumentsByCorrespondent correspondentID, _ =>
    [c.request "GET"
      ("/api/documents/?correspondent__id=" ++ fmtInt correspondentID ++ "&page_size=100")
      none]
  | .GetDocumentsByType typeID, _ =>
    [c.request "GET"
      ("/api/documents/?document_type__id=" ++ fmtInt typeID ++ "&page_size=100") none]
  | .UpdateDocumentTags docID oldTagID newTagID, s =>
    c.request "GET" ("/api/documents/" ++ fmtInt docID ++ "/") none ::
      (match (c.getDocument docID s).1 with
        | .error _ => []
        | .ok doc =>
          [c.request "PATCH" ("/api/documents/" ++ fmtInt docID ++ "/")
            (some ("\x7b\"tags\": " ++
              c.json.marshalInts (replaceTag doc.Tags oldTagID newTagID) ++ "\x7d"))])
  | .UpdateDocumentCorrespondent docID newCorrespondentID, _ =>
    [c.request "PATCH" ("/api/documents/" ++ fmtInt docID ++ "/")
      (some ("\x7b\"correspondent\": " ++ fmtInt newCorrespondentID ++ "\x7d"))]
  | .UpdateDocumentTypeForDoc docID newTypeID, _ =>
    [c.request "PATCH" ("/api/documents/" ++ fmtInt docID ++ "/")
      (some ("\x7b\"document_type\": " ++ fmtInt newTypeID ++ "\x7d"))]
  | .DeleteTag id, _ => [c.request "DELETE" ("/api/tags/" ++ fmtInt id ++ "/") none]
  | .DeleteCorrespondent id, _ =>
    [c.request "DELETE" ("/api/correspondents/" ++ fmtInt id ++ "/") none]
  | .DeleteDocumentType id, _ =>
    [c.request "DELETE" ("/api/document_types/" ++ fmtInt id ++ "/") none]

/-- The requests that the calls send when they are invoked one after the other
from the state `s`. -/
def requestsAll (c : Client σ) : List Call → σ → List Request
  | [], _ => []
  | call :: rest, s => call.requests c s ++ requestsAll c rest (call.perform c s).2

/-- A service without state on which correspondent 7 is gone and every other
entity exists: it answers the `DELETE` of correspondent 7 with `404 Not Found`,
every other `DELETE` with `204` and every other request with `200`; every list
of documents is the three documents 10, 11, 12. -/
def goneClient : Client Unit where
  BaseURL := "http://h"
  APIKey := "k"
  Do := fun req s =>
    if req.method = "DELETE" then
      (if req.url = "http://h/api/correspondents/7/" then (.ok ⟨404, "Not found"⟩, s)
        else (.ok ⟨204, ""⟩, s))
    else (.ok ⟨200, ""⟩, s)
  json := threeDocsJson

/-- A model in manual mode over `goneClient` that merges the correspondents 5
and 7 under the new name `"Bar"`. -/
def goneModel : ListModel Unit where
  localizer := ⟨id⟩
  entityType := .EntityCorrespondents
  mergeMode := .ModeManual
  client := goneClient
  allItems := [⟨5, "foo"⟩, ⟨7, "Foo"⟩, ⟨9, "x"⟩]
  selectedMap := fun k => k = 5 || k = 7
  mergeInput := "Bar"
  currentGroup := none

/-- The example model over a service that answers every `PATCH` with `500`. -/
def patchFailsModel (kind : EntityType) (finalName : String) : ListModel Unit :=
  exampleModel kind (.ok ⟨204, ""⟩) (.ok ⟨500, "boom"⟩) (.ok ⟨200, "P1"⟩) finalName

/-! ## Theorems -/

/-! ### The planner -/

theorem collectIDs_spec (sel : Int → Bool) :
    ∀ (items : List SimilarItem) (acc : List Int) (seen : Int → Bool),
      (∀ k, seen k = true ↔ k ∈ acc) → acc.Nodup →
      (collectIDs sel items acc seen).Nodup ∧
      (∀ k, k ∈ collectIDs sel items acc seen ↔
        k ∈ acc ∨ ∃ it ∈ items, it.ID = k ∧ sel k = true) ∧
      acc <+: collectIDs sel items acc seen := by
  intro items
  induction items with
  | nil =>
    intro acc seen _ hnd
    simp [collectIDs, hnd]
  | cons item rest ih =>
    intro acc seen hseen hnd
    unfold collectIDs
    by_cases hc : (sel item.ID && !seen item.ID) = true
    · rw [if_pos hc]
      simp only [Bool.and_eq_true, Bool.not_eq_true'] at hc
      obtain ⟨hsel, hns⟩ := hc
      have hnot : item.ID ∉ acc := by
        intro hmem
        have := (hseen item.ID).2 hmem
        rw [this] at hns; exact absurd hns (by decide)
      have hseen2 : ∀ k, (if k = item.ID then true else seen k) = true ↔ k ∈ acc ++ [item.ID] := by
        intro k
        by_cases hk : k = item.ID
        · simp [hk]
        · simp [hk, hseen k]
      have hnd2 : (acc ++ [item.ID]).Nodup := by
        rw [List.nodup_append]
        refine ⟨hnd, List.nodup_singleton _, ?_⟩
        intro a ha hb
        simp only [List.mem_singleton] at hb
        exact hnot (hb ▸ ha)
      obtain ⟨h1, h2, h3⟩ := ih (acc ++ [item.ID]) _ hseen2 hnd2
      refine ⟨h1, ?_, ?_⟩
      · intro k
        rw [h2 k]
        constructor
        · rintro (hk | ⟨it, hit, hid, hs⟩)
          · rcases List.mem_append.1 hk with hk | hk
            · exact Or.inl hk
            · simp only [List.mem_singleton] at hk
              exact Or.inr ⟨item, List.mem_cons_self _ _, hk.symm, hk ▸ hsel⟩
          · exact Or.inr ⟨it, List.mem_cons_of_mem _ hit, hid, hs⟩
        · rintro (hk | ⟨it, hit, hid, hs⟩)
          · exact Or.inl (List.mem_append_left _ hk)
          · rcases List.mem_cons.1 hit with rfl | hit
            · exact Or.inl (List.mem_append_right _ (by simp [hid]))
            · exact Or.inr ⟨it, hit, hid, hs⟩
      · exact (List.prefix_append acc [item.ID]).trans h3
    · rw [if_neg hc]
      obtain ⟨h1, h2, h3⟩ := ih acc seen hseen hnd
      refine ⟨h1, ?_, h3⟩
      intro k
      rw [h2 k]
      constructor
      · rintro (hk | ⟨it, hit, hid, hs⟩)
        · exact Or.inl hk
        · exact Or.inr ⟨it, List.mem_cons_of_mem _ hit, hid, hs⟩
      · rintro (hk | ⟨it, hit, hid, hs⟩)
        · exact Or.inl hk
        · rcases List.mem_cons.1 hit with rfl | hit
          · left
            have : seen it.ID = true := by
              cases hs2 : seen it.ID
              · exfalso; apply hc; rw [hs2, hid, hs]; rfl
              · rfl
            exact hid ▸ (hseen it.ID).1 this
          · exact Or.inr ⟨it, hit, hid, hs⟩

theorem collectSelected_eq (m : ListModel σ) (ids : List Int)
    (h : collectSelected m = .ok ids) :
    ids = collectIDs m.selectedMap (itemsToCheck m) [] (fun _ => false) := by
  unfold collectSelected at h
  unfold itemsToCheck
  cases hm : m.mergeMode <;> rw [hm] at h <;> simp only at h
  · cases hg : m.currentGroup <;> rw [hg] at h <;> simp only at h
    · cases h
    · cases h; rfl
  · cases h
    cases hg : m.currentGroup <;> rfl

theorem collectSelected_spec (m : ListModel σ) (ids : List Int)
    (h : collectSelected m = .ok ids) :
    ids.Nodup ∧
    ∀ id, id ∈ ids ↔ ∃ it ∈ itemsToCheck m, it.ID = id ∧ m.selectedMap id = true := by
  have hids := collectSelected_eq m ids h
  have hspec := collectIDs_spec m.selectedMap (itemsToCheck m) [] (fun _ => false)
    (by intro k; simp) List.nodup_nil
  rw [hids]
  refine ⟨hspec.1, ?_⟩
  intro id
  rw [hspec.2.1 id]
  simp

theorem findNamed_some (sel : Int → Bool) (name : String) :
    ∀ (items : List SimilarItem) (id : Int), findNamed sel name items = some id →
      ∃ it ∈ items, sel it.ID = true ∧ it.Name = name ∧ id = it.ID := by
  intro items
  induction items with
  | nil => intro id h; simp [findNamed] at h
  | cons item rest ih =>
    intro id h
    unfold findNamed at h
    by_cases hc : (sel item.ID && decide (item.Name = name)) = true
    · rw [if_pos hc] at h
      simp only [Bool.and_eq_true, decide_eq_true_eq] at hc
      cases h
      exact ⟨item, List.mem_cons_self _ _, hc.1, hc.2, rfl⟩
    · rw [if_neg hc] at h
      obtain ⟨it, hit, h1, h2, h3⟩ := ih id h
      exact ⟨it, List.mem_cons_of_mem _ hit, h1, h2, h3⟩

theorem findNamed_none (sel : Int → Bool) (name : String) :
    ∀ (items : List SimilarItem),
      (∀ it ∈ items, sel it.ID = true → it.Name ≠ name) → findNamed sel name items = none := by
  intro items
  induction items with
  | nil => intro _; rfl
  | cons item rest ih =>
    intro h
    unfold findNamed
    have hc : ¬ (sel item.ID && decide (item.Name = name)) = true := by
      simp only [Bool.and_eq_true, decide_eq_true_eq, not_and]
      exact fun hs => h item (List.mem_cons_self _ _) hs
    rw [if_neg hc]
    exact ih (fun it hit => h it (List.mem_cons_of_mem _ hit))

theorem findNamed_isSome (sel : Int → Bool) (name : String) :
    ∀ (items : List SimilarItem),
      (∃ it ∈ items, sel it.ID = true ∧ it.Name = name) →
      ∃ id, findNamed sel name items = some id := by
  intro items
  induction items with
  | nil => rintro ⟨it, hit, _⟩; cases hit
  | cons item rest ih =>
    rintro ⟨it, hit, hs, hn⟩
    unfold findNamed
    by_cases hc : (sel item.ID && decide (item.Name = name)) = true
    · rw [if_pos hc]; exact ⟨_, rfl⟩
    · rw [if_neg hc]
      rcases List.mem_cons.1 hit with rfl | hit
      · exfalso; apply hc; simp [hs, hn]
      · exact ih ⟨it, hit, hs, hn⟩

theorem collectIDs_head (sel : Int → Bool) :
    ∀ (pre : List SimilarItem) (it : SimilarItem) (post : List SimilarItem),
      (∀ x ∈ pre, sel x.ID = false) → sel it.ID = true →
      (collectIDs sel (pre ++ it :: post) [] (fun _ => false)).head? = some it.ID := by
  intro pre
  induction pre with
  | nil =>
    intro it post _ hs
    simp only [List.nil_append]
    unfold collectIDs
    simp only [hs, Bool.not_false, Bool.and_self, if_true, List.nil_append]
    have h := (collectIDs_spec sel post [it.ID] (fun k => if k = it.ID then true else false)
      (by intro k; by_cases hk : k = it.ID <;> simp [hk]) (List.nodup_singleton _)).2.2
    obtain ⟨t, ht⟩ := h
    rw [← ht]; rfl
  | cons x pre ih =>
    intro it post hpre hs
    have hx : sel x.ID = false := hpre x (List.mem_cons_self _ _)
    simp only [List.cons_append]
    unfold collectIDs
    simp only [hx, Bool.false_and, if_false]
    exact ih it post (fun y hy => hpre y (List.mem_cons_of_mem _ hy)) hs

/-- C9. Planner, name-match case: let `ids` be the selected IDs that
`executeMerge` collects (they are pairwise distinct and are exactly the IDs of
the selected items). With a non-empty final name and at least two such IDs, if
some selected item is named exactly `finalName`, then validation passes, `mainID`
is the ID of a selected item named `finalName` (and one of the selected IDs),
`needsRename` is false, and `toDeleteIDs` is the selected IDs other than `mainID`,
in their order. -/
theorem planner_name_match (m : ListModel σ) (ids : List Int)
    (hname : m.mergeInput ≠ "") (hsel : collectSelected m = .ok ids) (h2 : 2 ≤ ids.length)
    (hmatch : ∃ it ∈ itemsToCheck m, m.selectedMap it.ID = true ∧ it.Name = m.mergeInput) :
    (ids.Nodup ∧
      ∀ id, id ∈ ids ↔ ∃ it ∈ itemsToCheck m, it.ID = id ∧ m.selectedMap id = true) ∧
    ∃ p, mergePlan m = .ok p ∧
      (∃ it ∈ itemsToCheck m,
        m.selectedMap it.ID = true ∧ it.Name = m.mergeInput ∧ p.mainID = it.ID) ∧
      p.mainID ∈ ids ∧
      p.needsRename = false ∧
      p.toDeleteIDs = ids.filter (fun id => id ≠ p.mainID) ∧
      (∀ id, id ∈ p.toDeleteIDs ↔ id ∈ ids ∧ id ≠ p.mainID) := by
  refine ⟨collectSelected_spec m ids hsel, ?_⟩
  obtain ⟨mainID, hfind⟩ := findNamed_isSome m.selectedMap m.mergeInput _ hmatch
  have hplan : mergePlan m = .ok (planMerge m m.mergeInput ids) := by
    unfold mergePlan
    simp only [hname, if_false, hsel]
    rw [if_neg (by omega)]
  have hp : planMerge m m.mergeInput ids =
      { mainID := mainID, toDeleteIDs := ids.filter (fun id => id ≠ mainID),
        nameExists := true } := by
    unfold planMerge; rw [hfind]
  refine ⟨_, hplan, ?_⟩
  rw [hp]
  obtain ⟨it, hit, hs, hn, hid⟩ := findNamed_some _ _ _ _ hfind
  refine ⟨⟨it, hit, hs, hn, hid⟩, ?_, rfl, rfl, ?_⟩
  · have hids := collectSelected_eq m ids hsel
    have hspec := (collectIDs_spec m.selectedMap (itemsToCheck m) [] (fun _ => false)
      (by intro k; simp) List.nodup_nil).2.1
    rw [hids]
    exact (hspec mainID).2 (Or.inr ⟨it, hit, hid.symm, hid ▸ hs⟩)
  · intro id
    simp [List.mem_filter]

/-- Instance at the example of the specification: items 5 and 7 selected, item 7 named
`"Foo"`, final name `"Foo"`. -/
theorem planner_name_match_witness :
    mergePlan (healthyModel .EntityTags "Foo") = .ok ⟨7, [5], true⟩ ∧
    ∃ p, mergePlan (healthyModel .EntityTags "Foo") = .ok p ∧
      (∃ it ∈ itemsToCheck (healthyModel .EntityTags "Foo"),
        (healthyModel .EntityTags "Foo").selectedMap it.ID = true ∧
        it.Name = "Foo" ∧ p.mainID = it.ID) ∧
      p.mainID ∈ [5, 7] ∧
      p.needsRename = false ∧
      p.toDeleteIDs = [5, 7].filter (fun id => id ≠ p.mainID) ∧
      (∀ id, id ∈ p.toDeleteIDs ↔ id ∈ [5, 7] ∧ id ≠ p.mainID) :=
  ⟨rfl, (planner_name_match (healthyModel .EntityTags "Foo") [5, 7]
    (by decide) rfl (by decide) ⟨⟨7, "Foo"⟩, by decide, by decide, rfl⟩).2⟩

/-- C10. Planner, no-match case: let `ids` be the selected IDs that
`executeMerge` collects (they are pairwise distinct and are exactly the IDs of
the selected items). With a non-empty final name that no selected item carries
and at least two such IDs, validation passes, `mainID` is the first selected ID
(the ID of the first selected item in the order of the items), `needsRename` is
true, and `toDeleteIDs` is the remaining selected IDs in order. -/
theorem planner_no_match (m : ListModel σ) (ids : List Int)
    (hname : m.mergeInput ≠ "") (hsel : collectSelected m = .ok ids) (h2 : 2 ≤ ids.length)
    (hno : ∀ it ∈ itemsToCheck m, m.selectedMap it.ID = true → it.Name ≠ m.mergeInput) :
    (ids.Nodup ∧
      ∀ id, id ∈ ids ↔ ∃ it ∈ itemsToCheck m, it.ID = id ∧ m.selectedMap id = true) ∧
    ∃ p, mergePlan m = .ok p ∧
      ids = p.mainID :: p.toDeleteIDs ∧
      p.needsRename = true ∧
      (∀ pre it post, itemsToCheck m = pre ++ it :: post →
        (∀ x ∈ pre, m.selectedMap x.ID = false) → m.selectedMap it.ID = true →
        p.mainID = it.ID) := by
  refine ⟨collectSelected_spec m ids hsel, ?_⟩
  have hfind := findNamed_none m.selectedMap m.mergeInput _ hno
  have hplan : mergePlan m = .ok (planMerge m m.mergeInput ids) := by
    unfold mergePlan
    simp only [hname, if_false, hsel]
    rw [if_neg (by omega)]
  have hp : planMerge m m.mergeInput ids =
      { mainID := ids.headD 0, toDeleteIDs := ids.tail, nameExists := false } := by
    unfold planMerge; rw [hfind]
  refine ⟨_, hplan, ?_⟩
  rw [hp]
  refine ⟨?_, rfl, ?_⟩
  · cases ids with
    | nil => simp at h2
    | cons a t => rfl
  · intro pre it post hitems hpre hs
    have hids := collectSelected_eq m ids hsel
    have hh := collectIDs_head m.selectedMap pre it post hpre hs
    rw [← hitems, ← hids] at hh
    cases ids with
    | nil => simp at h2
    | cons a t => simpa using hh

/-- Instance at the example of the specification: items 5 and 7 selected, neither
named `"Bar"`. -/
theorem planner_no_match_witness :
    mergePlan (healthyModel .EntityTags "Bar") = .ok ⟨5, [7], false⟩ ∧
    ∃ p, mergePlan (healthyModel .EntityTags "Bar") = .ok p ∧
      [5, 7] = p.mainID :: p.toDeleteIDs ∧
      p.needsRename = true ∧
      (∀ pre it post,
        itemsToCheck (healthyModel .EntityTags "Bar") = pre ++ it :: post →
        (∀ x ∈ pre, (healthyModel .EntityTags "Bar").selectedMap x.ID = false) →
        (healthyModel .EntityTags "Bar").selectedMap it.ID = true →
        p.mainID = it.ID) :=
  ⟨rfl, (planner_no_match (healthyModel .EntityTags "Bar") [5, 7]
    (by decide) rfl (by decide) (by decide)).2⟩

/-! ### Lists and logs -/

theorem split_right {α : Type} {x : α} {post : List α} :
    ∀ (A B pre : List α), A ++ B = pre ++ x :: post → x ∉ A →
      ∃ b', pre = A ++ b' ∧ B = b' ++ x :: post := by
  intro A
  induction A with
  | nil => intro B pre h _; exact ⟨pre, rfl, h⟩
  | cons a A ih =>
    intro B pre h hx
    cases pre with
    | nil =>
      simp only [List.cons_append, List.nil_append, List.cons.injEq] at h
      exact absurd (h.1 ▸ List.mem_cons_self _ _) hx
    | cons c pre =>
      simp only [List.cons_append, List.cons.injEq] at h
      obtain ⟨b', h1, h2⟩ := ih B pre h.2 (fun hm => hx (List.mem_cons_of_mem _ hm))
      exact ⟨b', by rw [h.1, h1]; rfl, h2⟩

theorem snoc_inj {α : Type} {x y : α} :
    ∀ (a b : List α), a ++ [x] = b ++ [y] → a = b ∧ x = y := by
  intro a b h
  have h1 := List.append_inj' h rfl
  exact ⟨h1.1, by simpa using h1.2⟩

theorem callsOf_append (a b : List Event) : callsOf (a ++ b) = callsOf a ++ callsOf b := by
  induction a with
  | nil => rfl
  | cons e a ih =>
    cases e with
    | progress msg => simpa [callsOf] using ih
    | call r => simp [callsOf, ih]

theorem nothingAfter_append {P : Event → Prop} {A B : List Event}
    (hA : ∀ a ∈ A, ¬ P a) (hB : NothingAfter P B) : NothingAfter P (A ++ B) := by
  intro pre x post h hx
  obtain ⟨b', _, h2⟩ := split_right A B pre h (fun hm => hA x hm hx)
  exact hB b' x post h2 hx

theorem nothingAfter_nil {P : Event → Prop} : NothingAfter P [] := by
  intro pre x post h _
  cases pre <;> cases h

theorem nothingAfter_singleton {P : Event → Prop} (e : Event) : NothingAfter P [e] := by
  intro pre x post h _
  cases pre with
  | nil => simp only [List.nil_append, List.cons.injEq] at h; exact h.2.symm
  | cons c pre => cases pre <;> simp at h

/-! ### The reassignment loop -/

theorem updateDocs_spec (m : ListModel σ) (oldID mainID : Int) :
    ∀ (docs : List Document) (s : σ),
      ((updateDocs m oldID mainID docs s).1 = none ∧
        (updateDocs m oldID mainID docs s).2.2 =
          docs.map (fun doc => Event.call (okReassign m.entityType oldID mainID doc))) ∨
      (∃ done doc later err, docs = done ++ doc :: later ∧
        (updateDocs m oldID mainID docs s).1 =
          some ⟨m.localizer.T "merge.error_update_doc", [.int doc.ID, .err err]⟩ ∧
        (updateDocs m oldID mainID docs s).2.2 =
          done.map (fun doc => Event.call (okReassign m.entityType oldID mainID doc)) ++
            [.call ⟨reassignCall m.entityType doc.ID oldID mainID, some err, []⟩]) := by
  intro docs
  induction docs with
  | nil => intro s; left; exact ⟨rfl, rfl⟩
  | cons doc rest ih =>
    intro s
    rcases hr : reassignDoc m doc.ID oldID mainID s with ⟨_ | err, s1⟩
    · rcases ih s1 with ⟨h1, h2⟩ | ⟨done, d, later, err, hd, h1, h2⟩
      · left
        simp only [updateDocs, hr, h1, h2, List.map_cons, okReassign, and_self]
      · right
        refine ⟨doc :: done, d, later, err, by rw [hd]; rfl, ?_, ?_⟩
        · simp only [updateDocs, hr, h1]
        · simp only [updateDocs, hr, h2, List.map_cons, okReassign, List.cons_append]
    · right
      refine ⟨[], doc, rest, err, rfl, ?_, ?_⟩
      · simp only [updateDocs, hr]
      · simp only [updateDocs, hr, List.map_nil, List.nil_append]

/-! ### One iteration of the loop over the duplicates -/

theorem migrate_nil (m : ListModel σ) (mainID : Int) (n total idx cur : Nat) (s : σ) :
    migrate m mainID n total idx [] cur s = (none, cur, s, []) := by
  simp only [migrate]

theorem migrate_cons (m : ListModel σ) (mainID : Int) (n total idx : Nat) (d : Int)
    (rest : List Int) (cur : Nat) (s : σ) :
    (∃ err s1, fetchDocs m d s = (.error err, s1) ∧
      migrate m mainID n total idx (d :: rest) cur s =
        (some ⟨m.localizer.T "merge.error_get_docs", [.err err]⟩, cur + 1, s1,
          [evGetDocs m n total idx cur, .call ⟨fetchCall m.entityType d, some err, []⟩])) ∨
    (∃ s1 done doc later err s2, fetchDocs m d s = (.ok (done ++ doc :: later), s1) ∧
      (updateDocs m d mainID (done ++ doc :: later) s1).1 =
        some ⟨m.localizer.T "merge.error_update_doc", [.int doc.ID, .err err]⟩ ∧
      migrate m mainID n total idx (d :: rest) cur s =
        (some ⟨m.localizer.T "merge.error_update_doc", [.int doc.ID, .err err]⟩, cur + 2, s2,
          iterationHead m n total idx cur d (done ++ doc :: later) ++
            (done.map (fun doc => Event.call (okReassign m.entityType d mainID doc)) ++
              [.call ⟨reassignCall m.entityType doc.ID d mainID, some err, []⟩]))) ∨
    (∃ docs s1 s2 err s3 e, fetchDocs m d s = (.ok docs, s1) ∧
      updateDocs m d mainID docs s1 =
        (none, s2, docs.map (fun doc => Event.call (okReassign m.entityType d mainID doc))) ∧
      deleteEntity m d s2 = (err, s3) ∧ deleteAborts err = some e ∧
      migrate m mainID n total idx (d :: rest) cur s =
        (some ⟨deleteErrorFormat m.entityType, [.int d, .err e]⟩, cur + 3, s3,
          iterationEvents m mainID n total idx cur d docs err)) ∨
    (∃ docs s1 s2 err s3, fetchDocs m d s = (.ok docs, s1) ∧
      updateDocs m d mainID docs s1 =
        (none, s2, docs.map (fun doc => Event.call (okReassign m.entityType d mainID doc))) ∧
      deleteEntity m d s2 = (err, s3) ∧ deleteAborts err = none ∧
      migrate m mainID n total idx (d :: rest) cur s =
        ((migrate m mainID n total (idx + 1) rest (cur + 3) s3).1,
          (migrate m mainID n total (idx + 1) rest (cur + 3) s3).2.1,
          (migrate m mainID n total (idx + 1) rest (cur + 3) s3).2.2.1,
          iterationEvents m mainID n total idx cur d docs err ++
            (migrate m mainID n total (idx + 1) rest (cur + 3) s3).2.2.2)) := by
  rcases hf : fetchDocs m d s with ⟨err | docs, s1⟩
  · left
    exact ⟨err, s1, rfl, by simp only [migrate, hf, evGetDocs]⟩
  · right
    rcases hu : updateDocs m d mainID docs s1 with ⟨_ | e, s2, evs2⟩
    · right
      have hspec := updateDocs_spec m d mainID docs s1
      rw [hu] at hspec
      rcases hspec with ⟨_, h2⟩ | ⟨_, _, _, _, _, h1, _⟩
      · simp only at h2
        subst h2
        rcases hd : deleteEntity m d s2 with ⟨err, s3⟩
        cases ha : deleteAborts err with
        | some e =>
          left
          refine ⟨docs, s1, s2, err, s3, e, rfl, hu, hd, ha, ?_⟩
          simp only [migrate, hf, hu, hd, ha, iterationEvents, iterationHead, evGetDocs,
            evUpdateDocs, evDelete, List.cons_append, List.append_assoc]
        | none =>
          right
          refine ⟨docs, s1, s2, err, s3, rfl, hu, hd, ha, ?_⟩
          simp only [migrate, hf, hu, hd, ha, iterationEvents, iterationHead, evGetDocs,
            evUpdateDocs, evDelete, List.cons_append, List.append_assoc]
      · simp at h1
    · left
      have hspec := updateDocs_spec m d mainID docs s1
      rw [hu] at hspec
      rcases hspec with ⟨h1, _⟩ | ⟨done, doc, later, err, hdocs, h1, h2⟩
      · simp at h1
      · simp only at h1 h2
        subst hdocs
        refine ⟨s1, done, doc, later, err, s2, rfl, (by rw [hu]; exact h1), ?_⟩
        simp only [migrate, hf, hu, h1, h2, iterationHead, evGetDocs, evUpdateDocs,
          List.cons_append, List.append_assoc]

/-! ### The calls of the loop over the duplicates -/

@[simp] theorem isDelete_deleteCall (kind : EntityType) (d : Int) :
    (deleteCall kind d).isDelete = true := by cases kind <;> rfl

@[simp] theorem isDelete_fetchCall (kind : EntityType) (d : Int) :
    (fetchCall kind d).isDelete = false := by cases kind <;> rfl

@[simp] theorem isDelete_reassignCall (kind : EntityType) (doc d mainID : Int) :
    (reassignCall kind doc d mainID).isDelete = false := by cases kind <;> rfl

@[simp] theorem isDelete_renameCall (kind : EntityType) (id : Int) (name : String) :
    (renameCall kind id name).isDelete = false := by cases kind <;> rfl

@[simp] theorem isRename_renameCall (kind : EntityType) (id : Int) (name : String) :
    (renameCall kind id name).isRename = true := by cases kind <;> rfl

@[simp] theorem isRename_deleteCall (kind : EntityType) (d : Int) :
    (deleteCall kind d).isRename = false := by cases kind <;> rfl

@[simp] theorem isRename_fetchCall (kind : EntityType) (d : Int) :
    (fetchCall kind d).isRename = false := by cases kind <;> rfl

@[simp] theorem isRename_reassignCall (kind : EntityType) (doc d mainID : Int) :
    (reassignCall kind doc d mainID).isRename = false := by cases kind <;> rfl

theorem deleteCall_inj (kind : EntityType) (d d' : Int)
    (h : deleteCall kind d = deleteCall kind d') : d = d' := by
  cases kind <;> simpa [deleteCall] using h

theorem callsOf_iterationHead (m : ListModel σ) (n total idx cur : Nat) (d : Int)
    (docs : List Document) :
    callsOf (iterationHead m n total idx cur d docs) =
      [⟨fetchCall m.entityType d, none, docs⟩] := by
  unfold iterationHead evGetDocs evUpdateDocs
  by_cases h : docs.length > 0
  · simp only [h, if_true, callsOf]
  · simp only [h, if_false, callsOf]

theorem callsOf_okReassign (kind : EntityType) (d mainID : Int) (docs : List Document) :
    callsOf (docs.map (fun doc => Event.call (okReassign kind d mainID doc))) =
      docs.map (okReassign kind d mainID) := by
  induction docs with
  | nil => rfl
  | cons doc docs ih => simp [callsOf, ih]

theorem callsOf_iterationEvents (m : ListModel σ) (mainID : Int) (n total idx cur : Nat)
    (d : Int) (docs : List Document) (err : Option GoError) :
    callsOf (iterationEvents m mainID n total idx cur d docs err) =
      blockCalls m.entityType mainID ⟨d, docs, err⟩ := by
  unfold iterationEvents blockCalls
  rw [callsOf_append, callsOf_append, callsOf_iterationHead, callsOf_okReassign]
  simp [callsOf, evDelete]

theorem migrate_calls (m : ListModel σ) (mainID : Int) (n total : Nat) :
    ∀ (ids : List Int) (idx cur : Nat) (s : σ),
      ∃ (blocks : List Block) (rest : List Int) (tail : List CallRecord),
        ids = blocks.map Block.dup ++ rest ∧
        callsOf (migrate m mainID n total idx ids cur s).2.2.2 =
          blocksCalls m.entityType mainID blocks ++ tail ∧
        MigrateEnd m mainID (migrate m mainID n total idx ids cur s).1 blocks rest tail := by
  intro ids
  induction ids with
  | nil =>
    intro idx cur s
    refine ⟨[], [], [], rfl, ?_, Or.inl ⟨?_, rfl, rfl, ?_⟩⟩
    · rw [migrate_nil]; rfl
    · rw [migrate_nil]
    · intro b hb; cases hb
  | cons d rest ih =>
    intro idx cur s
    rcases migrate_cons m mainID n total idx d rest cur s with
      ⟨err, s1, _, h⟩ | ⟨s1, done, doc, later, err, s2, _, _, h⟩ |
      ⟨docs, s1, s2, err, s3, e, _, _, _, ha, h⟩ | ⟨docs, s1, s2, err, s3, _, _, _, ha, h⟩
    · refine ⟨[], d :: rest, [⟨fetchCall m.entityType d, some err, []⟩], rfl, ?_, ?_⟩
      · rw [h]; simp [callsOf, evGetDocs, blocksCalls]
      · rw [h]
        exact Or.inr (Or.inr (Or.inl ⟨d, rest, err, rfl, (fun _ hb => absurd hb (List.not_mem_nil _)), rfl, rfl⟩))
    · refine ⟨[], d :: rest,
        ⟨fetchCall m.entityType d, none, done ++ doc :: later⟩ ::
          done.map (okReassign m.entityType d mainID) ++
          [⟨reassignCall m.entityType doc.ID d mainID, some err, []⟩], rfl, ?_, ?_⟩
      · rw [h]
        show callsOf (_ ++ (_ ++ _)) = _
        rw [callsOf_append, callsOf_iterationHead, callsOf_append, callsOf_okReassign]
        simp [callsOf, blocksCalls]
      · rw [h]
        exact Or.inr (Or.inr (Or.inr ⟨d, rest, done, doc, later, err, rfl,
          (fun _ hb => absurd hb (List.not_mem_nil _)), rfl, rfl⟩))
    · refine ⟨[⟨d, docs, err⟩], rest, [], rfl, ?_, ?_⟩
      · rw [h]
        simp only [callsOf_iterationEvents, blocksCalls, List.append_nil]
      · rw [h]
        exact Or.inr (Or.inl ⟨[], ⟨d, docs, err⟩, e, rfl, (fun _ hb => absurd hb (List.not_mem_nil _)), ha, rfl, rfl⟩)
    · obtain ⟨blocks, rest', tail, hids, hcalls, hend⟩ := ih (idx + 1) (cur + 3) s3
      refine ⟨⟨d, docs, err⟩ :: blocks, rest', tail, ?_, ?_, ?_⟩
      · rw [hids]; rfl
      · rw [h]
        simp only [callsOf_append, callsOf_iterationEvents, hcalls, blocksCalls,
          List.append_assoc]
      · rw [h]
        have hall : ∀ (bs : List Block), (∀ b ∈ bs, deleteAborts b.delErr = none) →
            ∀ b ∈ (⟨d, docs, err⟩ : Block) :: bs, deleteAborts b.delErr = none := by
          intro bs hbs b hb
          rcases List.mem_cons.1 hb with rfl | hb
          · exact ha
          · exact hbs b hb
        rcases hend with ⟨h1, h2, h3, h4⟩ | ⟨bs, b, e, h1, h2, h3, h4, h5⟩ |
          ⟨d', r', e, h1, h2, h3, h4⟩ | ⟨d', r', done, doc, later, e, h1, h2, h3, h4⟩
        · exact Or.inl ⟨h1, h2, h3, hall _ h4⟩
        · exact Or.inr (Or.inl ⟨⟨d, docs, err⟩ :: bs, b, e, by rw [h1]; rfl, hall _ h2,
            h3, h4, h5⟩)
        · exact Or.inr (Or.inr (Or.inl ⟨d', r', e, h1, hall _ h2, h3, h4⟩))
        · exact Or.inr (Or.inr (Or.inr ⟨d', r', done, doc, later, e, h1, hall _ h2, h3, h4⟩))

/-! ### The whole run -/

theorem executeMerge_eq_runPlan (m : ListModel σ) (p : MergePlan) (s : σ)
    (hp : mergePlan m = .ok p) : executeMerge m s = runPlan m p s := by
  unfold executeMerge; rw [hp]

theorem runPlan_cases (m : ListModel σ) (p : MergePlan) (s : σ) :
    (p.needsRename = false ∧
      runPlan m p s =
        (⟨(migrate m p.mainID p.toDeleteIDs.length (totalOps p) 0 p.toDeleteIDs 0 s).1⟩,
          (migrate m p.mainID p.toDeleteIDs.length (totalOps p) 0 p.toDeleteIDs 0 s).2.2.1,
          (migrate m p.mainID p.toDeleteIDs.length (totalOps p) 0 p.toDeleteIDs 0 s).2.2.2)) ∨
    (p.needsRename = true ∧ ∃ err s1,
      renameEntity m p.mainID (tempName p.mainID m.mergeInput) s = (some err, s1) ∧
      runPlan m p s =
        (⟨some ⟨m.localizer.T "merge.error_temp_update", [.err err]⟩⟩, s1,
          [evPrepare m p, .call (tempRename m p (some err))])) ∨
    (p.needsRename = true ∧ ∃ s1 e,
      renameEntity m p.mainID (tempName p.mainID m.mergeInput) s = (none, s1) ∧
      (migrate m p.mainID p.toDeleteIDs.length (totalOps p) 0 p.toDeleteIDs 1 s1).1 = some e ∧
      runPlan m p s =
        (⟨some e⟩,
          (migrate m p.mainID p.toDeleteIDs.length (totalOps p) 0 p.toDeleteIDs 1 s1).2.2.1,
          evPrepare m p :: .call (tempRename m p none) ::
            (migrate m p.mainID p.toDeleteIDs.length (totalOps p) 0 p.toDeleteIDs 1 s1).2.2.2)) ∨
    (p.needsRename = true ∧ ∃ s1 err s3,
      renameEntity m p.mainID (tempName p.mainID m.mergeInput) s = (none, s1) ∧
      (migrate m p.mainID p.toDeleteIDs.length (totalOps p) 0 p.toDeleteIDs 1 s1).1 = none ∧
      renameEntity m p.mainID m.mergeInput
        (migrate m p.mainID p.toDeleteIDs.length (totalOps p) 0 p.toDeleteIDs 1 s1).2.2.1 =
          (err, s3) ∧
      runPlan m p s =
        (⟨err.map (fun e => ⟨m.localizer.T "merge.error_final_update", [.err e]⟩)⟩, s3,
          evPrepare m p :: .call (tempRename m p none) ::
            (migrate m p.mainID p.toDeleteIDs.length (totalOps p) 0 p.toDeleteIDs 1 s1).2.2.2 ++
            [evFinalName m p
                (migrate m p.mainID p.toDeleteIDs.length (totalOps p) 0 p.toDeleteIDs 1 s1).2.1,
              .call (finalRename m p err)])) := by
  cases hn : p.needsRename with
  | false =>
    left
    refine ⟨rfl, ?_⟩
    unfold runPlan
    simp only [hn, Bool.false_eq_true, if_false]
  | true =>
    right
    rcases hr : renameEntity m p.mainID (tempName p.mainID m.mergeInput) s with ⟨_ | err, s1⟩
    · right
      rcases hm : migrate m p.mainID p.toDeleteIDs.length (totalOps p) 0 p.toDeleteIDs 1 s1
        with ⟨_ | e, cur, s2, evs⟩
      · right
        rcases hf : renameEntity m p.mainID m.mergeInput s2 with ⟨_ | err, s3⟩
        · refine ⟨rfl, s1, none, s3, rfl, (by rw [hm]), (by rw [hm]; exact hf), ?_⟩
          unfold runPlan
          simp only [hn, if_true, hr, hm, hf, evPrepare, evFinalName, tempRename, finalRename,
            Option.map_none']
        · refine ⟨rfl, s1, some err, s3, rfl, (by rw [hm]), (by rw [hm]; exact hf), ?_⟩
          unfold runPlan
          simp only [hn, if_true, hr, hm, hf, evPrepare, evFinalName, tempRename, finalRename,
            Option.map_some']
      · left
        refine ⟨rfl, s1, e, rfl, (by rw [hm]), ?_⟩
        unfold runPlan
        simp only [hn, if_true, hr, hm, evPrepare, tempRename]
    · left
      refine ⟨rfl, err, s1, rfl, ?_⟩
      unfold runPlan
      simp only [hn, if_true, hr, evPrepare, tempRename]

theorem migrate_failed_shape (m : ListModel σ) (p : MergePlan) (n total idx cur : Nat) (s : σ)
    (e : Formatted)
    (h : (migrate m p.mainID n total idx p.toDeleteIDs cur s).1 = some e) :
    RunShape m p
      (prepareCalls m p ++ callsOf (migrate m p.mainID n total idx p.toDeleteIDs cur s).2.2.2)
      (some e) := by
  obtain ⟨blocks, rest, tail, hids, hcalls, hend⟩ :=
    migrate_calls m p.mainID n total p.toDeleteIDs idx cur s
  rw [hcalls, ← List.append_assoc]
  rw [h] at hend
  rcases hend with ⟨h1, _⟩ | ⟨bs, b, e', h1, h2, h3, h4, h5⟩ |
    ⟨d, r, err, h1, h2, h3, h4⟩ | ⟨d, r, done, doc, later, err, h1, h2, h3, h4⟩
  · cases h1
  · subst h1 h4
    rw [h5, List.append_nil]
    exact RunShape.deleteFailed bs b rest e' hids h2 h3
  · subst h1 h3
    rw [h4]
    exact RunShape.fetchFailed blocks d r err hids h2
  · subst h1 h3
    rw [h4]
    exact RunShape.reassignFailed blocks d r done doc later err hids h2

theorem migrate_done_shape (m : ListModel σ) (p : MergePlan) (n total idx cur : Nat) (s : σ)
    (h : (migrate m p.mainID n total idx p.toDeleteIDs cur s).1 = none) :
    ∃ blocks : List Block, p.toDeleteIDs = blocks.map Block.dup ∧
      (∀ b ∈ blocks, deleteAborts b.delErr = none) ∧
      callsOf (migrate m p.mainID n total idx p.toDeleteIDs cur s).2.2.2 =
        blocksCalls m.entityType p.mainID blocks := by
  obtain ⟨blocks, rest, tail, hids, hcalls, hend⟩ :=
    migrate_calls m p.mainID n total p.toDeleteIDs idx cur s
  rw [h] at hend
  rcases hend with ⟨_, h2, h3, h4⟩ | ⟨_, _, _, _, _, _, _, h5⟩ |
    ⟨_, _, _, _, _, _, h4⟩ | ⟨_, _, _, _, _, _, _, _, _, h4⟩
  · subst h2 h3
    refine ⟨blocks, by simpa using hids, h4, by simpa using hcalls⟩
  · cases h5
  · cases h4
  · cases h4

theorem run_shape (m : ListModel σ) (p : MergePlan) (s : σ) (hp : mergePlan m = .ok p) :
    RunShape m p (calls m s) (outcome m s).err := by
  unfold calls events outcome
  rw [executeMerge_eq_runPlan m p s hp]
  rcases runPlan_cases m p s with ⟨hn, h⟩ | ⟨hn, err, s1, _, h⟩ | ⟨hn, s1, e, _, hm, h⟩ |
    ⟨hn, s1, err, s3, _, hm, _, h⟩
  · rw [h]
    simp only
    have hprep : prepareCalls m p = [] := by simp [prepareCalls, hn]
    cases hres : (migrate m p.mainID p.toDeleteIDs.length (totalOps p) 0 p.toDeleteIDs 0 s).1 with
    | none =>
      obtain ⟨blocks, hids, hok, hcalls⟩ := migrate_done_shape m p _ _ 0 0 s hres
      rw [hcalls]
      have := @RunShape.completed σ m p blocks hids hok hn
      rwa [hprep, List.nil_append] at this
    | some e =>
      have := migrate_failed_shape m p _ _ 0 0 s e hres
      rwa [hprep, List.nil_append] at this
  · rw [h]
    simp only [callsOf]
    exact RunShape.prepareFailed err hn
  · rw [h]
    simp only [callsOf]
    have hprep : prepareCalls m p = [tempRename m p none] := by simp [prepareCalls, hn]
    have := migrate_failed_shape m p _ _ 0 1 s1 e hm
    rwa [hprep] at this
  · rw [h]
    have hprep : prepareCalls m p = [tempRename m p none] := by simp [prepareCalls, hn]
    obtain ⟨blocks, hids, hok, hcalls⟩ := migrate_done_shape m p _ _ 0 1 s1 hm
    show RunShape m p (tempRename m p none :: callsOf (_ ++ [_, _])) _
    rw [callsOf_append, hcalls]
    have := @RunShape.finalized σ m p blocks err hids hok hn
    rwa [hprep] at this

/-! ### Nothing happens after the call that makes the run return -/

theorem iterationHead_not_aborts (m : ListModel σ) (n total idx cur : Nat) (d : Int)
    (docs : List Document) :
    ∀ e ∈ iterationHead m n total idx cur d docs, ¬ e.aborts = true := by
  intro e he
  unfold iterationHead evGetDocs evUpdateDocs at he
  by_cases h : docs.length > 0
  · simp only [h, if_true, List.mem_cons, List.mem_singleton, List.not_mem_nil, or_false] at he
    rcases he with rfl | rfl | rfl <;> simp [Event.aborts, CallRecord.aborts]
  · simp only [h, if_false, List.mem_cons, List.not_mem_nil, or_false] at he
    rcases he with rfl | rfl <;> simp [Event.aborts, CallRecord.aborts]

theorem okReassign_not_aborts (kind : EntityType) (d mainID : Int) (docs : List Document) :
    ∀ e ∈ docs.map (fun doc => Event.call (okReassign kind d mainID doc)),
      ¬ e.aborts = true := by
  intro e he
  obtain ⟨doc, _, rfl⟩ := List.mem_map.1 he
  simp [Event.aborts, CallRecord.aborts, okReassign]

theorem iterationEvents_not_aborts (m : ListModel σ) (mainID : Int) (n total idx cur : Nat)
    (d : Int) (docs : List Document) (err : Option GoError) (ha : deleteAborts err = none) :
    ∀ e ∈ iterationEvents m mainID n total idx cur d docs err, ¬ e.aborts = true := by
  intro e he
  unfold iterationEvents at he
  rcases List.mem_append.1 he with he | he
  · rcases List.mem_append.1 he with he | he
    · exact iterationHead_not_aborts m n total idx cur d docs e he
    · exact okReassign_not_aborts m.entityType d mainID docs e he
  · simp only [List.mem_cons, List.not_mem_nil, or_false] at he
    rcases he with rfl | rfl
    · simp [Event.aborts, evDelete]
    · simp [Event.aborts, CallRecord.aborts, ha]

theorem migrate_nothingAfter (m : ListModel σ) (mainID : Int) (n total : Nat) :
    ∀ (ids : List Int) (idx cur : Nat) (s : σ),
      NothingAfter (fun e => e.aborts = true) (migrate m mainID n total idx ids cur s).2.2.2 ∧
      ((migrate m mainID n total idx ids cur s).1 = none →
        ∀ e ∈ (migrate m mainID n total idx ids cur s).2.2.2, ¬ e.aborts = true) := by
  intro ids
  induction ids with
  | nil =>
    intro idx cur s
    rw [migrate_nil]
    exact ⟨nothingAfter_nil, fun _ e he => absurd he (List.not_mem_nil _)⟩
  | cons d rest ih =>
    intro idx cur s
    rcases migrate_cons m mainID n total idx d rest cur s with
      ⟨err, s1, _, h⟩ | ⟨s1, done, doc, later, err, s2, _, _, h⟩ |
      ⟨docs, s1, s2, err, s3, e, _, _, _, ha, h⟩ | ⟨docs, s1, s2, err, s3, _, _, _, ha, h⟩
    · rw [h]
      refine ⟨?_, fun hn => by cases hn⟩
      exact @nothingAfter_append _ [evGetDocs m n total idx cur] _
        (by intro a ha; simp only [List.mem_singleton] at ha; subst ha
            simp [Event.aborts, evGetDocs])
        (nothingAfter_singleton _)
    · rw [h]
      refine ⟨?_, fun hn => by cases hn⟩
      exact nothingAfter_append (iterationHead_not_aborts m n total idx cur d _)
        (nothingAfter_append (okReassign_not_aborts m.entityType d mainID done)
          (nothingAfter_singleton _))
    · rw [h]
      refine ⟨?_, fun hn => by cases hn⟩
      unfold iterationEvents
      refine nothingAfter_append ?_
        (@nothingAfter_append _ [evDelete m n total idx cur] _
          (by intro a ha; simp only [List.mem_singleton] at ha; subst ha
              simp [Event.aborts, evDelete])
          (nothingAfter_singleton _))
      intro a ha
      rcases List.mem_append.1 ha with ha | ha
      · exact iterationHead_not_aborts m n total idx cur d docs a ha
      · exact okReassign_not_aborts m.entityType d mainID docs a ha
    · rw [h]
      obtain ⟨ih1, ih2⟩ := ih (idx + 1) (cur + 3) s3
      refine ⟨nothingAfter_append
        (iterationEvents_not_aborts m mainID n total idx cur d docs err ha) ih1, ?_⟩
      intro hn e he
      rcases List.mem_append.1 he with he | he
      · exact iterationEvents_not_aborts m mainID n total idx cur d docs err ha e he
      · exact ih2 hn e he

theorem run_nothingAfter (m : ListModel σ) (s : σ) :
    NothingAfter (fun e => e.aborts = true) (events m s) := by
  unfold events
  cases hp : mergePlan m with
  | error e =>
    unfold executeMerge; rw [hp]
    exact nothingAfter_nil
  | ok p =>
    rw [executeMerge_eq_runPlan m p s hp]
    rcases runPlan_cases m p s with ⟨hn, h⟩ | ⟨hn, err, s1, _, h⟩ | ⟨hn, s1, e, _, hm, h⟩ |
      ⟨hn, s1, err, s3, _, hm, _, h⟩
    · rw [h]
      exact (migrate_nothingAfter m p.mainID _ _ p.toDeleteIDs 0 0 s).1
    · rw [h]
      exact @nothingAfter_append _ [evPrepare m p] _
        (by intro a ha; simp only [List.mem_singleton] at ha; subst ha
            simp [Event.aborts, evPrepare])
        (nothingAfter_singleton _)
    · rw [h]
      refine @nothingAfter_append _ [evPrepare m p, .call (tempRename m p none)] _ ?_
        (migrate_nothingAfter m p.mainID _ _ p.toDeleteIDs 0 1 s1).1
      intro a ha
      simp only [List.mem_cons, List.not_mem_nil, or_false] at ha
      rcases ha with rfl | rfl <;>
        simp [Event.aborts, evPrepare, CallRecord.aborts, tempRename]
    · rw [h]
      have hmig := (migrate_nothingAfter m p.mainID _ _ p.toDeleteIDs 0 1 s1).2 hm
      refine @nothingAfter_append _
        (evPrepare m p :: .call (tempRename m p none) ::
          (migrate m p.mainID p.toDeleteIDs.length (totalOps p) 0 p.toDeleteIDs 1 s1).2.2.2)
        _ ?_
        (@nothingAfter_append _ [evFinalName m p _] _
          (by intro a ha; simp only [List.mem_singleton] at ha; subst ha
              simp [Event.aborts, evFinalName])
          (nothingAfter_singleton _))
      intro a ha
      simp only [List.mem_cons] at ha
      rcases ha with rfl | rfl | ha
      · simp [Event.aborts, evPrepare]
      · simp [Event.aborts, CallRecord.aborts, tempRename]
      · exact hmig a ha

/-! ### The order of the calls of a run -/

@[simp] theorem isFetch_fetchCall (kind : EntityType) (d : Int) :
    (fetchCall kind d).isFetch = true := by cases kind <;> rfl

@[simp] theorem isFetch_deleteCall (kind : EntityType) (d : Int) :
    (deleteCall kind d).isFetch = false := by cases kind <;> rfl

@[simp] theorem isFetch_reassignCall (kind : EntityType) (doc d mainID : Int) :
    (reassignCall kind doc d mainID).isFetch = false := by cases kind <;> rfl

@[simp] theorem isFetch_renameCall (kind : EntityType) (id : Int) (name : String) :
    (renameCall kind id name).isFetch = false := by cases kind <;> rfl

@[simp] theorem isReassign_reassignCall (kind : EntityType) (doc d mainID : Int) :
    (reassignCall kind doc d mainID).isReassign = true := by cases kind <;> rfl

@[simp] theorem isReassign_fetchCall (kind : EntityType) (d : Int) :
    (fetchCall kind d).isReassign = false := by cases kind <;> rfl

@[simp] theorem isReassign_deleteCall (kind : EntityType) (d : Int) :
    (deleteCall kind d).isReassign = false := by cases kind <;> rfl

@[simp] theorem isReassign_renameCall (kind : EntityType) (id : Int) (name : String) :
    (renameCall kind id name).isReassign = false := by cases kind <;> rfl

theorem blocksCalls_append (kind : EntityType) (mainID : Int) (bs cs : List Block) :
    blocksCalls kind mainID (bs ++ cs) =
      blocksCalls kind mainID bs ++ blocksCalls kind mainID cs := by
  induction bs with
  | nil => rfl
  | cons b bs ih => simp [blocksCalls, ih]

theorem mem_blockCalls (kind : EntityType) (mainID : Int) (b : Block) (r : CallRecord)
    (h : r ∈ blockCalls kind mainID b) :
    r = ⟨fetchCall kind b.dup, none, b.docs⟩ ∨
    (∃ doc ∈ b.docs, r = okReassign kind b.dup mainID doc) ∨
    r = ⟨deleteCall kind b.dup, b.delErr, []⟩ := by
  unfold blockCalls at h
  simp only [List.cons_append, List.mem_cons, List.mem_append, List.mem_map,
    List.mem_singleton, List.not_mem_nil, or_false] at h
  rcases h with h | ⟨doc, hd, h⟩ | h
  · exact Or.inl h
  · exact Or.inr (Or.inl ⟨doc, hd, h.symm⟩)
  · exact Or.inr (Or.inr h)

theorem mem_blocksCalls (kind : EntityType) (mainID : Int) (r : CallRecord) :
    ∀ (blocks : List Block), r ∈ blocksCalls kind mainID blocks →
      ∃ b ∈ blocks, r ∈ blockCalls kind mainID b := by
  intro blocks
  induction blocks with
  | nil => intro h; cases h
  | cons b bs ih =>
    intro h
    unfold blocksCalls at h
    rcases List.mem_append.1 h with h | h
    · exact ⟨b, List.mem_cons_self _ _, h⟩
    · obtain ⟨b', hb', h'⟩ := ih h
      exact ⟨b', List.mem_cons_of_mem _ hb', h'⟩

theorem mem_prepareCalls (m : ListModel σ) (p : MergePlan) (r : CallRecord)
    (h : r ∈ prepareCalls m p) : r = tempRename m p none := by
  unfold prepareCalls at h
  by_cases hn : p.needsRename = true
  · simpa [hn] using h
  · simp [hn] at h

theorem delete_position (kind : EntityType) (mainID : Int) (r : CallRecord)
    (post0 : List CallRecord) (hr : r.call.isDelete = true) :
    ∀ (blocks : List Block) (Y pre0 : List CallRecord),
      blocksCalls kind mainID blocks ++ Y = pre0 ++ r :: post0 →
      (∀ y ∈ Y, y.call.isDelete = false) →
      ∃ pre1 b, b ∈ blocks ∧
        pre0 = pre1 ++ ⟨fetchCall kind b.dup, none, b.docs⟩ ::
          b.docs.map (okReassign kind b.dup mainID) ∧
        r = ⟨deleteCall kind b.dup, b.delErr, []⟩ := by
  intro blocks
  induction blocks with
  | nil =>
    intro Y pre0 h hY
    have hmem : r ∈ Y := by
      have : blocksCalls kind mainID [] ++ Y = Y := rfl
      rw [this] at h; rw [h]; simp
    rw [hY r hmem] at hr; cases hr
  | cons b bs ih =>
    intro Y pre0 h hY
    have hsplit : blocksCalls kind mainID (b :: bs) ++ Y =
        (⟨fetchCall kind b.dup, none, b.docs⟩ :: b.docs.map (okReassign kind b.dup mainID)) ++
          (⟨deleteCall kind b.dup, b.delErr, []⟩ :: (blocksCalls kind mainID bs ++ Y)) := by
      simp [blocksCalls, blockCalls]
    rw [hsplit] at h
    have hnot : r ∉ (⟨fetchCall kind b.dup, none, b.docs⟩ ::
        b.docs.map (okReassign kind b.dup mainID) : List CallRecord) := by
      intro hm
      simp only [List.mem_cons, List.mem_map] at hm
      rcases hm with rfl | ⟨doc, _, rfl⟩
      · simp at hr
      · simp [okReassign] at hr
    obtain ⟨b', h1, h2⟩ := split_right _ _ pre0 h hnot
    cases b' with
    | nil =>
      simp only [List.nil_append, List.cons.injEq] at h2
      exact ⟨[], b, List.mem_cons_self _ _, by simpa using h1, h2.1.symm⟩
    | cons c b'' =>
      simp only [List.cons_append, List.cons.injEq] at h2
      obtain ⟨pre1, b2, hb2, hpre, hrec⟩ := ih Y b'' h2.2 hY
      refine ⟨(⟨fetchCall kind b.dup, none, b.docs⟩ ::
        b.docs.map (okReassign kind b.dup mainID)) ++ c :: pre1, b2,
        List.mem_cons_of_mem _ hb2, ?_, hrec⟩
      rw [h1, hpre]
      simp

theorem incompleteBlock_no_delete (kind : EntityType) (mainID d : Int)
    (tail : List CallRecord) (h : IncompleteBlock kind mainID d tail) :
    ∀ y ∈ tail, y.call.isDelete = false := by
  intro y hy
  rcases h with ⟨err, rfl⟩ | ⟨done, doc, later, err, rfl⟩
  · simp only [List.mem_singleton] at hy; subst hy; simp
  · simp only [List.cons_append, List.mem_cons, List.mem_append, List.mem_map,
      List.not_mem_nil, or_false] at hy
    rcases hy with rfl | ⟨doc', _, rfl⟩ | rfl <;> simp [okReassign]

theorem run_decomposition (m : ListModel σ) (s : σ) (p : MergePlan)
    (hp : mergePlan m = .ok p) :
    ∃ (pre : List CallRecord) (blocks : List Block) (rest : List Int)
      (tail fin : List CallRecord),
      calls m s = pre ++ (blocksCalls m.entityType p.mainID blocks ++ (tail ++ fin)) ∧
      p.toDeleteIDs = blocks.map Block.dup ++ rest ∧
      (∀ r ∈ pre, r.call = renameCall m.entityType p.mainID (tempName p.mainID m.mergeInput)) ∧
      (∀ r ∈ fin, r.call = renameCall m.entityType p.mainID m.mergeInput) ∧
      (tail = [] ∨ (fin = [] ∧ ∃ d rest', rest = d :: rest' ∧
        IncompleteBlock m.entityType p.mainID d tail)) := by
  have hprep : ∀ r ∈ prepareCalls m p,
      r.call = renameCall m.entityType p.mainID (tempName p.mainID m.mergeInput) := by
    intro r hr; rw [mem_prepareCalls m p r hr]; rfl
  have hnil : ∀ r ∈ ([] : List CallRecord),
      r.call = renameCall m.entityType p.mainID m.mergeInput :=
    fun _ hr => absurd hr (List.not_mem_nil _)
  have h := run_shape m p s hp
  generalize calls m s = cs at h
  generalize (outcome m s).err = o at h
  cases h with
  | prepareFailed err hn =>
    refine ⟨[tempRename m p (some err)], [], p.toDeleteIDs, [], [], by simp [blocksCalls],
      rfl, ?_, hnil, Or.inl rfl⟩
    intro r hr
    simp only [List.mem_singleton] at hr
    subst hr; rfl
  | fetchFailed blocks d rest err hids hok =>
    exact ⟨prepareCalls m p, blocks, d :: rest, _, [], by simp, hids, hprep, hnil,
      Or.inr ⟨rfl, d, rest, rfl, Or.inl ⟨err, rfl⟩⟩⟩
  | reassignFailed blocks d rest done doc later err hids hok =>
    exact ⟨prepareCalls m p, blocks, d :: rest, _, [], by simp, hids, hprep, hnil,
      Or.inr ⟨rfl, d, rest, rfl, Or.inr ⟨done, doc, later, err, rfl⟩⟩⟩
  | deleteFailed blocks b rest e hids hok ha =>
    exact ⟨prepareCalls m p, blocks ++ [b], rest, [], [], by simp, hids, hprep, hnil,
      Or.inl rfl⟩
  | completed blocks hids hok hn =>
    exact ⟨prepareCalls m p, blocks, [], [], [], by simp, by simpa using hids, hprep, hnil,
      Or.inl rfl⟩
  | finalized blocks err hids hok hn =>
    refine ⟨prepareCalls m p, blocks, [], [], [finalRename m p err], by simp,
      by simpa using hids, hprep, ?_, Or.inl rfl⟩
    intro r hr
    simp only [List.mem_singleton] at hr
    subst hr; rfl

/-! ### Preparing and Finalizing -/

theorem tempName_ne (mainID : Int) (finalName : String) :
    tempName mainID finalName ≠ finalName := by
  intro h
  have hl := congrArg String.length h
  unfold tempName at hl
  simp only [String.length_append] at hl
  have : ("__MERGING_" : String).length = 10 := by decide
  have h1 : ("_" : String).length = 1 := by decide
  omega

theorem renameCall_inj (kind : EntityType) (id id' : Int) (name name' : String)
    (h : renameCall kind id name = renameCall kind id' name') : id = id' ∧ name = name' := by
  cases kind <;> simpa [renameCall] using h

/-! ### Failures of the Migrating steps -/

theorem plan_nodup (m : ListModel σ) (p : MergePlan) (hp : mergePlan m = .ok p) :
    p.toDeleteIDs.Nodup := by
  unfold mergePlan at hp
  by_cases hname : m.mergeInput = ""
  · simp [hname] at hp
  · simp only [hname, if_false] at hp
    cases hsel : collectSelected m with
    | error e => rw [hsel] at hp; cases hp
    | ok ids =>
      rw [hsel] at hp
      simp only at hp
      by_cases hlen : ids.length < 2
      · rw [if_pos hlen] at hp; cases hp
      · rw [if_neg hlen] at hp
        have hids := collectSelected_eq m ids hsel
        have hnd : ids.Nodup := by
          rw [hids]
          exact (collectIDs_spec m.selectedMap (itemsToCheck m) [] (fun _ => false)
            (by intro k; simp) List.nodup_nil).1
        cases hp
        unfold planMerge
        cases findNamed m.selectedMap m.mergeInput (itemsToCheck m) with
        | none => exact hnd.sublist (List.tail_sublist ids)
        | some mainID => exact hnd.filter _

theorem no_delete_of_pending (m : ListModel σ) (p : MergePlan) (blocks : List Block)
    (d : Int) (rest : List Int) (tail : List CallRecord)
    (hnd : p.toDeleteIDs.Nodup) (hids : p.toDeleteIDs = blocks.map Block.dup ++ d :: rest)
    (htail : ∀ y ∈ tail, y.call.isDelete = false) :
    (∀ b ∈ blocks, b.dup ≠ d) ∧
    ∀ r ∈ prepareCalls m p ++ blocksCalls m.entityType p.mainID blocks ++ tail,
      r.call ≠ deleteCall m.entityType d := by
  have hne : ∀ b ∈ blocks, b.dup ≠ d := by
    intro b hb heq
    rw [hids] at hnd
    exact (List.nodup_append.1 hnd).2.2 (List.mem_map_of_mem Block.dup hb)
      (heq ▸ List.mem_cons_self d rest)
  refine ⟨hne, ?_⟩
  intro r hr hc
  have hdel : r.call.isDelete = true := by rw [hc]; simp
  rcases List.mem_append.1 hr with hr | hr
  · rcases List.mem_append.1 hr with hr | hr
    · rw [mem_prepareCalls m p r hr] at hdel
      simp [tempRename] at hdel
    · obtain ⟨b, hb, hrb⟩ := mem_blocksCalls _ _ _ _ hr
      rcases mem_blockCalls _ _ _ _ hrb with rfl | ⟨doc, _, rfl⟩ | rfl
      · simp at hdel
      · simp [okReassign] at hdel
      · exact hne b hb (deleteCall_inj _ _ _ hc)
  · rw [htail r hr] at hdel; cases hdel

theorem not_mem_blocks_of_failed (kind : EntityType) (mainID : Int) (blocks : List Block)
    (r : CallRecord) (err : GoError) (herr : r.err = some err)
    (hcall : r.call.isDelete = false) : r ∉ blocksCalls kind mainID blocks := by
  intro hr
  obtain ⟨b, _, hrb⟩ := mem_blocksCalls _ _ _ _ hr
  rcases mem_blockCalls _ _ _ _ hrb with rfl | ⟨doc, _, rfl⟩ | rfl
  · cases herr
  · simp [okReassign] at herr
  · simp at hcall

/-- C5. If a reassignment call of the run returned an error, then it is the
last event of the run (no call and no progress message follows it); it is the
reassignment to `mainID` of a document `doc` fetched for a duplicate `d` of
`toDeleteIDs`; the calls before it are the preparing rename if any, the complete
blocks of the duplicates before `d`, the successful fetch of `d` and the
successful reassignments of the documents fetched before `doc`, and nothing
else; the run issues no delete of `d`; and the outcome is the failure built from
`merge.error_update_doc` with the ID of `doc` and the error. -/
theorem reassign_failure_aborts (m : ListModel σ) (s : σ) (p : MergePlan)
    (hp : mergePlan m = .ok p) (pre : List Event) (r : CallRecord) (post : List Event)
    (err : GoError) (hev : events m s = pre ++ Event.call r :: post)
    (hcall : r.call.isReassign = true) (herr : r.err = some err) :
    post = [] ∧
    ∃ (blocks : List Block) (d : Int) (rest : List Int)
      (done : List Document) (doc : Document) (later : List Document),
      p.toDeleteIDs = blocks.map Block.dup ++ d :: rest ∧
      callsOf pre = prepareCalls m p ++ blocksCalls m.entityType p.mainID blocks ++
        ⟨fetchCall m.entityType d, none, done ++ doc :: later⟩ ::
          done.map (okReassign m.entityType d p.mainID) ∧
      r = ⟨reassignCall m.entityType doc.ID d p.mainID, some err, []⟩ ∧
      (∀ r' ∈ calls m s, r'.call ≠ deleteCall m.entityType d) ∧
      outcome m s =
        ⟨some ⟨m.localizer.T "merge.error_update_doc", [.int doc.ID, .err err]⟩⟩ := by
  have hnotdel : r.call.isDelete = false := by
    cases hc : r.call <;> rw [hc] at hcall <;> first | rfl | cases hcall
  have hab : (Event.call r).aborts = true := by
    simp [Event.aborts, CallRecord.aborts, hnotdel, herr]
  have hpost : post = [] := run_nothingAfter m s pre (.call r) post hev hab
  refine ⟨hpost, ?_⟩
  subst hpost
  have hcalls : calls m s = callsOf pre ++ [r] := by
    unfold calls; rw [hev, callsOf_append]; rfl
  have hnd := plan_nodup m p hp
  have h := run_shape m p s hp
  have hout : outcome m s = ⟨(outcome m s).err⟩ := rfl
  rw [hout]
  rw [hcalls] at h
  generalize hcs : callsOf pre ++ [r] = cs at h
  generalize (outcome m s).err = o at h
  have hmem : r ∈ cs := by rw [← hcs]; simp
  have hprep : r ∉ prepareCalls m p := by
    intro hr
    rw [mem_prepareCalls m p r hr] at hcall
    simp [tempRename] at hcall
  have hblk := not_mem_blocks_of_failed m.entityType p.mainID
  cases h with
  | prepareFailed e hn =>
    simp only [List.mem_singleton] at hmem
    rw [hmem] at hcall; simp [tempRename] at hcall
  | fetchFailed blocks d rest e hids hok =>
    simp only [List.mem_append, List.mem_singleton] at hmem
    rcases hmem with (hm | hm) | hm
    · exact absurd hm hprep
    · exact absurd hm (hblk blocks r err herr hnotdel)
    · rw [hm] at hcall; simp at hcall
  | reassignFailed blocks d rest done doc later e hids hok =>
    have hassoc : prepareCalls m p ++ blocksCalls m.entityType p.mainID blocks ++
        (⟨fetchCall m.entityType d, none, done ++ doc :: later⟩ ::
          done.map (okReassign m.entityType d p.mainID) ++
          [⟨reassignCall m.entityType doc.ID d p.mainID, some e, []⟩]) =
        (prepareCalls m p ++ blocksCalls m.entityType p.mainID blocks ++
          ⟨fetchCall m.entityType d, none, done ++ doc :: later⟩ ::
            done.map (okReassign m.entityType d p.mainID)) ++
          [⟨reassignCall m.entityType doc.ID d p.mainID, some e, []⟩] := by
      simp
    rw [hassoc] at hcs
    obtain ⟨h1, h2⟩ := snoc_inj _ _ hcs
    have he : e = err := by
      have := congrArg CallRecord.err h2
      rw [herr] at this
      simpa using this.symm
    subst he
    refine ⟨blocks, d, rest, done, doc, later, hids, h1, h2, ?_, rfl⟩
    rw [hcalls, hcs, ← hassoc]
    refine (no_delete_of_pending m p blocks d rest _ hnd hids ?_).2
    exact incompleteBlock_no_delete m.entityType p.mainID d _
      (Or.inr ⟨done, doc, later, e, rfl⟩)
  | deleteFailed blocks b rest e hids hok ha =>
    simp only [List.mem_append] at hmem
    rcases hmem with hm | hm
    · exact absurd hm hprep
    · exact absurd hm (hblk _ r err herr hnotdel)
  | completed blocks hids hok hn =>
    simp only [List.mem_append] at hmem
    rcases hmem with hm | hm
    · exact absurd hm hprep
    · exact absurd hm (hblk _ r err herr hnotdel)
  | finalized blocks e hids hok hn =>
    simp only [List.mem_append, List.mem_singleton] at hmem
    rcases hmem with (hm | hm) | hm
    · exact absurd hm hprep
    · exact absurd hm (hblk blocks r err herr hnotdel)
    · rw [hm] at hcall; simp [finalRename] at hcall

/-- Instance at a run in which the reassignment of the second of three fetched
documents fails: the first document has been reassigned, the run ends with the
failed call and names document 11. -/
theorem reassign_failure_aborts_witness :
    events (countingModel 1) 0 =
      [.progress ⟨1, 3, ⟨"merge.status_get_docs", [.int 1, .int 1]⟩⟩,
        .call ⟨.GetDocumentsByCorrespondent 5, none,
          [⟨10, "a", some 5, none, []⟩, ⟨11, "b", some 5, none, []⟩,
            ⟨12, "c", some 5, none, []⟩]⟩,
        .progress ⟨2, 3, ⟨"merge.status_update_docs", [.int 3, .int 1, .int 1]⟩⟩,
        .call ⟨.UpdateDocumentCorrespondent 10 7, none, []⟩] ++
      .call ⟨.UpdateDocumentCorrespondent 11 7,
        some ⟨"errore nell'aggiornamento del documento: 500 - boom"⟩, []⟩ :: [] ∧
    ∃ (blocks : List Block) (d : Int) (rest : List Int)
      (done : List Document) (doc : Document) (later : List Document),
      [5] = blocks.map Block.dup ++ d :: rest ∧
      callsOf [.progress ⟨1, 3, ⟨"merge.status_get_docs", [.int 1, .int 1]⟩⟩,
        .call ⟨.GetDocumentsByCorrespondent 5, none,
          [⟨10, "a", some 5, none, []⟩, ⟨11, "b", some 5, none, []⟩,
            ⟨12, "c", some 5, none, []⟩]⟩,
        .progress ⟨2, 3, ⟨"merge.status_update_docs", [.int 3, .int 1, .int 1]⟩⟩,
        .call ⟨.UpdateDocumentCorrespondent 10 7, none, []⟩] =
        prepareCalls (countingModel 1) ⟨7, [5], true⟩ ++
          blocksCalls .EntityCorrespondents 7 blocks ++
          ⟨fetchCall .EntityCorrespondents d, none, done ++ doc :: later⟩ ::
            done.map (okReassign .EntityCorrespondents d 7) ∧
      (⟨.UpdateDocumentCorrespondent 11 7,
          some ⟨"errore nell'aggiornamento del documento: 500 - boom"⟩, []⟩ : CallRecord) =
        ⟨reassignCall .EntityCorrespondents doc.ID d 7,
          some ⟨"errore nell'aggiornamento del documento: 500 - boom"⟩, []⟩ ∧
      (∀ r' ∈ calls (countingModel 1) 0, r'.call ≠ deleteCall .EntityCorrespondents d) ∧
      outcome (countingModel 1) 0 =
        ⟨some ⟨"merge.error_update_doc",
          [.int doc.ID, .err ⟨"errore nell'aggiornamento del documento: 500 - boom"⟩]⟩⟩ :=
  ⟨by decide,
    (reassign_failure_aborts (countingModel 1) 0 ⟨7, [5], true⟩ rfl
      [.progress ⟨1, 3, ⟨"merge.status_get_docs", [.int 1, .int 1]⟩⟩,
        .call ⟨.GetDocumentsByCorrespondent 5, none,
          [⟨10, "a", some 5, none, []⟩, ⟨11, "b", some 5, none, []⟩,
            ⟨12, "c", some 5, none, []⟩]⟩,
        .progress ⟨2, 3, ⟨"merge.status_update_docs", [.int 3, .int 1, .int 1]⟩⟩,
        .call ⟨.UpdateDocumentCorrespondent 10 7, none, []⟩]
      ⟨.UpdateDocumentCorrespondent 11 7,
        some ⟨"errore nell'aggiornamento del documento: 500 - boom"⟩, []⟩ []
      ⟨"errore nell'aggiornamento del documento: 500 - boom"⟩ (by decide) rfl rfl).2⟩

/-- C8. If a fetch call of the run returned an error, then it is the last event
of the run (no reassignment, no delete, no call for a later duplicate, no final
rename and no progress message follows it); it is the fetch of a duplicate `d`
of `toDeleteIDs`; the calls before it are the preparing rename if any and the
complete blocks of the duplicates before `d`, all different from `d`; the run
issues no delete of `d`; and the outcome is the failure built from
`merge.error_get_docs` with the error. -/
theorem fetch_failure_aborts (m : ListModel σ) (s : σ) (p : MergePlan)
    (hp : mergePlan m = .ok p) (pre : List Event) (r : CallRecord) (post : List Event)
    (err : GoError) (hev : events m s = pre ++ Event.call r :: post)
    (hcall : r.call.isFetch = true) (herr : r.err = some err) :
    post = [] ∧
    ∃ (blocks : List Block) (d : Int) (rest : List Int),
      p.toDeleteIDs = blocks.map Block.dup ++ d :: rest ∧
      callsOf pre = prepareCalls m p ++ blocksCalls m.entityType p.mainID blocks ∧
      (∀ b ∈ blocks, b.dup ≠ d) ∧
      r = ⟨fetchCall m.entityType d, some err, []⟩ ∧
      (∀ r' ∈ calls m s, r'.call ≠ deleteCall m.entityType d) ∧
      outcome m s = ⟨some ⟨m.localizer.T "merge.error_get_docs", [.err err]⟩⟩ := by
  have hnotdel : r.call.isDelete = false := by
    cases hc : r.call <;> rw [hc] at hcall <;> first | rfl | cases hcall
  have hab : (Event.call r).aborts = true := by
    simp [Event.aborts, CallRecord.aborts, hnotdel, herr]
  have hpost : post = [] := run_nothingAfter m s pre (.call r) post hev hab
  refine ⟨hpost, ?_⟩
  subst hpost
  have hcalls : calls m s = callsOf pre ++ [r] := by
    unfold calls; rw [hev, callsOf_append]; rfl
  have hnd := plan_nodup m p hp
  have h := run_shape m p s hp
  have hout : outcome m s = ⟨(outcome m s).err⟩ := rfl
  rw [hout]
  rw [hcalls] at h
  generalize hcs : callsOf pre ++ [r] = cs at h
  generalize (outcome m s).err = o at h
  have hmem : r ∈ cs := by rw [← hcs]; simp
  have hprep : r ∉ prepareCalls m p := by
    intro hr
    rw [mem_prepareCalls m p r hr] at hcall
    simp [tempRename] at hcall
  have hblk := not_mem_blocks_of_failed m.entityType p.mainID
  cases h with
  | prepareFailed e hn =>
    simp only [List.mem_singleton] at hmem
    rw [hmem] at hcall; simp [tempRename] at hcall
  | fetchFailed blocks d rest e hids hok =>
    obtain ⟨h1, h2⟩ := snoc_inj _ _ hcs
    have he : e = err := by
      have := congrArg CallRecord.err h2
      rw [herr] at this
      simpa using this.symm
    subst he
    have hpend := no_delete_of_pending m p blocks d rest
      [⟨fetchCall m.entityType d, some e, []⟩] hnd hids
      (incompleteBlock_no_delete m.entityType p.mainID d _ (Or.inl ⟨e, rfl⟩))
    refine ⟨blocks, d, rest, hids, h1, hpend.1, h2, ?_, rfl⟩
    rw [hcalls, hcs]
    exact hpend.2
  | reassignFailed blocks d rest done doc later e hids hok =>
    simp only [List.mem_append, List.cons_append, List.mem_cons, List.mem_map,
      List.not_mem_nil, or_false] at hmem
    rcases hmem with (hm | hm) | hm | ⟨doc', _, hm⟩ | hm
    · exact absurd hm hprep
    · exact absurd hm (hblk blocks r err herr hnotdel)
    · rw [hm] at herr; cases herr
    · rw [← hm] at herr; simp [okReassign] at herr
    · rw [hm] at hcall; simp at hcall
  | deleteFailed blocks b rest e hids hok ha =>
    simp only [List.mem_append] at hmem
    rcases hmem with hm | hm
    · exact absurd hm hprep
    · exact absurd hm (hblk _ r err herr hnotdel)
  | completed blocks hids hok hn =>
    simp only [List.mem_append] at hmem
    rcases hmem with hm | hm
    · exact absurd hm hprep
    · exact absurd hm (hblk _ r err herr hnotdel)
  | finalized blocks e hids hok hn =>
    simp only [List.mem_append, List.mem_singleton] at hmem
    rcases hmem with (hm | hm) | hm
    · exact absurd hm hprep
    · exact absurd hm (hblk blocks r err herr hnotdel)
    · rw [hm] at hcall; simp [finalRename] at hcall

/-- Instance at a run in which the fetch of the documents of tag 5 is answered with
`503`. -/
theorem fetch_failure_aborts_witness :
    events (exampleModel .EntityTags (.ok ⟨204, ""⟩) (.ok ⟨200, ""⟩) (.ok ⟨503, "down"⟩) "Foo")
        () =
      [.progress ⟨1, 3, ⟨"merge.status_get_docs", [.int 1, .int 1]⟩⟩] ++
      .call ⟨.GetDocumentsByTag 5, some ⟨"errore API: 503 - down"⟩, []⟩ :: [] ∧
    ∃ (blocks : List Block) (d : Int) (rest : List Int),
      [5] = blocks.map Block.dup ++ d :: rest ∧
      callsOf [.progress ⟨1, 3, ⟨"merge.status_get_docs", [.int 1, .int 1]⟩⟩] =
        prepareCalls
          (exampleModel .EntityTags (.ok ⟨204, ""⟩) (.ok ⟨200, ""⟩) (.ok ⟨503, "down"⟩) "Foo")
          ⟨7, [5], true⟩ ++ blocksCalls .EntityTags 7 blocks ∧
      (∀ b ∈ blocks, b.dup ≠ d) ∧
      (⟨.GetDocumentsByTag 5, some ⟨"errore API: 503 - down"⟩, []⟩ : CallRecord) =
        ⟨fetchCall .EntityTags d, some ⟨"errore API: 503 - down"⟩, []⟩ ∧
      (∀ r' ∈ calls
          (exampleModel .EntityTags (.ok ⟨204, ""⟩) (.ok ⟨200, ""⟩) (.ok ⟨503, "down"⟩) "Foo")
          (), r'.call ≠ deleteCall .EntityTags d) ∧
      outcome
          (exampleModel .EntityTags (.ok ⟨204, ""⟩) (.ok ⟨200, ""⟩) (.ok ⟨503, "down"⟩) "Foo")
          () =
        ⟨some ⟨"merge.error_get_docs", [.err ⟨"errore API: 503 - down"⟩]⟩⟩ :=
  ⟨by decide,
    (fetch_failure_aborts
      (exampleModel .EntityTags (.ok ⟨204, ""⟩) (.ok ⟨200, ""⟩) (.ok ⟨503, "down"⟩) "Foo") ()
      ⟨7, [5], true⟩ rfl [.progress ⟨1, 3, ⟨"merge.status_get_docs", [.int 1, .int 1]⟩⟩]
      ⟨.GetDocumentsByTag 5, some ⟨"errore API: 503 - down"⟩, []⟩ []
      ⟨"errore API: 503 - down"⟩ (by decide) rfl rfl).2⟩

/-! ### Deletes -/

theorem containsChars_append (sub : List Char) :
    ∀ (a b : List Char), containsChars (a ++ sub ++ b) sub = true := by
  intro a
  induction a with
  | nil =>
    intro b
    simp only [List.nil_append]
    cases h : sub ++ b with
    | nil =>
      have : sub = [] := (List.append_eq_nil.1 h).1
      simp [containsChars, this]
    | cons c cs =>
      unfold containsChars
      rw [← h]
      have : sub.isPrefixOf (sub ++ b) = true :=
        List.isPrefixOf_iff_prefix.2 (List.prefix_append sub b)
      rw [this]; rfl
  | cons x a ih =>
    intro b
    simp only [List.cons_append]
    unfold containsChars
    have := ih b
    simp only [List.append_assoc] at this
    simp [this]

theorem deleteAborts_notFound (what body : String) :
    deleteAborts (some (apiError what ⟨404, body⟩)) = none := by
  have h404 : fmtInt 404 = "404" := by decide
  have hc : stringsContains (apiError what ⟨404, body⟩).Error "404" = true := by
    unfold stringsContains apiError GoError.Error
    simp only [h404, String.toList, String.data_append]
    have := containsChars_append ("404" : String).data (what.data ++ (": " : String).data)
      ((" - " : String).data ++ body.data)
    simpa [List.append_assoc] using this
  simp [deleteAborts, hc]

/-- C4, evaluated at two failing inputs. A `DELETE` answered `500` with the body
`"upstream 404"`, and a `DELETE` that fails in the transport with a text that
holds `404`, are errors that do not come from a `404` response; in both runs the
error is recorded for the delete of tag 7, yet the run goes on to the final
rename and returns the success outcome. -/
theorem delete_error_with_404_in_text_swallowed :
    (calls (exampleModel .EntityTags (.ok ⟨500, "upstream 404"⟩) (.ok ⟨200, ""⟩)
        (.ok ⟨200, "P1"⟩) "Bar") () =
      [⟨.UpdateTag 5 "__MERGING_5_Bar", none, []⟩,
        ⟨.GetDocumentsByTag 7, none, []⟩,
        ⟨.DeleteTag 7, some ⟨"errore nell'eliminazione del tag: 500 - upstream 404"⟩, []⟩,
        ⟨.UpdateTag 5 "Bar", none, []⟩] ∧
      outcome (exampleModel .EntityTags (.ok ⟨500, "upstream 404"⟩) (.ok ⟨200, ""⟩)
        (.ok ⟨200, "P1"⟩) "Bar") () = ⟨none⟩) ∧
    (calls (exampleModel .EntityTags (.error ⟨"dial tcp 10.0.0.7:4040: connection refused"⟩)
        (.ok ⟨200, ""⟩) (.ok ⟨200, "P1"⟩) "Bar") () =
      [⟨.UpdateTag 5 "__MERGING_5_Bar", none, []⟩,
        ⟨.GetDocumentsByTag 7, none, []⟩,
        ⟨.DeleteTag 7, some ⟨"dial tcp 10.0.0.7:4040: connection refused"⟩, []⟩,
        ⟨.UpdateTag 5 "Bar", none, []⟩] ∧
      outcome (exampleModel .EntityTags (.error ⟨"dial tcp 10.0.0.7:4040: connection refused"⟩)
        (.ok ⟨200, ""⟩) (.ok ⟨200, "P1"⟩) "Bar") () = ⟨none⟩) := by
  decide

/-- C2, evaluated at a failing input. The service holds two documents that
reference tag 5 and answers the listing in two pages, the first with a non-null
`next` link. `GetDocumentsByTag 5` returns the first page only, although the
complete result set has both documents; the run that merges tag 5 into tag 7
then reassigns document 10, never document 11, and deletes tag 5. -/
theorem getDocuments_reads_first_page_only :
    ((exampleClient (.ok ⟨204, ""⟩) (.ok ⟨200, ""⟩) (.ok ⟨200, "P1"⟩)).GetDocumentsByTag 5 ()).1 =
      .ok [⟨10, "a", none, none, [5]⟩] ∧
    (completeResultSet (exampleClient (.ok ⟨204, ""⟩) (.ok ⟨200, ""⟩) (.ok ⟨200, "P1"⟩)) 2
      "http://h/api/documents/?tags__id__in=5&page_size=100" ()).1 =
      .ok [⟨10, "a", none, none, [5]⟩, ⟨11, "b", none, none, [5]⟩] ∧
    calls (healthyModel .EntityTags "Foo") () =
      [⟨.GetDocumentsByTag 5, none, [⟨10, "a", none, none, [5]⟩]⟩,
        ⟨.UpdateDocumentTags 10 5 7, none, []⟩, ⟨.DeleteTag 5, none, []⟩] ∧
    outcome (healthyModel .EntityTags "Foo") () = ⟨none⟩ := by
  refine ⟨rfl, rfl, ?_, ?_⟩ <;> decide

/-! ### Validation and the invariant of the plan -/

theorem mergePlan_ok (m : ListModel σ) (p : MergePlan) (hp : mergePlan m = .ok p) :
    m.mergeInput ≠ "" ∧ ∃ ids, collectSelected m = .ok ids ∧ 2 ≤ ids.length ∧
      p = planMerge m m.mergeInput ids := by
  unfold mergePlan at hp
  by_cases hname : m.mergeInput = ""
  · simp [hname] at hp
  · simp only [hname, if_false] at hp
    refine ⟨hname, ?_⟩
    cases hsel : collectSelected m with
    | error e => rw [hsel] at hp; cases hp
    | ok ids =>
      rw [hsel] at hp
      simp only at hp
      by_cases hlen : ids.length < 2
      · rw [if_pos hlen] at hp; cases hp
      · rw [if_neg hlen] at hp
        cases hp
        exact ⟨ids, rfl, by omega, rfl⟩

theorem mergePlan_of_valid (m : ListModel σ) (ids : List Int) (hname : m.mergeInput ≠ "")
    (hsel : collectSelected m = .ok ids) (h2 : 2 ≤ ids.length) :
    mergePlan m = .ok (planMerge m m.mergeInput ids) := by
  unfold mergePlan
  simp only [hname, if_false, hsel]
  rw [if_neg (by omega)]

theorem selectedIDSet_card (m : ListModel σ) (ids : List Int)
    (hsel : collectSelected m = .ok ids) : (selectedIDSet m).card = ids.length := by
  obtain ⟨hnd, hmem⟩ := collectSelected_spec m ids hsel
  rw [← List.toFinset_card_of_nodup hnd]
  congr 1
  ext id
  simp only [selectedIDSet, List.mem_toFinset, List.mem_map, List.mem_filter]
  rw [hmem id]
  constructor
  · rintro ⟨it, ⟨hit, hs⟩, hid⟩
    exact ⟨it, hit, hid, hid ▸ hs⟩
  · rintro ⟨it, hit, hid, hs⟩
    exact ⟨it, ⟨hit, hid ▸ hs⟩, hid⟩

theorem mem_selectedIDSet (m : ListModel σ) (id : Int) :
    id ∈ selectedIDSet m ↔ ∃ it ∈ itemsToCheck m, it.ID = id ∧ m.selectedMap id = true := by
  simp only [selectedIDSet, List.mem_toFinset, List.mem_map, List.mem_filter]
  constructor
  · rintro ⟨it, ⟨hit, hs⟩, hid⟩
    exact ⟨it, hit, hid, hid ▸ hs⟩
  · rintro ⟨it, hit, hid, hs⟩
    exact ⟨it, ⟨hit, hid ▸ hs⟩, hid⟩

theorem collectSelected_cases (m : ListModel σ) :
    (m.mergeMode = .ModeSemiAutomatic ∧ m.currentGroup = none ∧
      collectSelected m = .error ⟨m.localizer.T "merge.error_no_group", []⟩) ∨
    (∃ ids, collectSelected m = .ok ids) := by
  unfold collectSelected
  cases m.mergeMode with
  | ModeManual => exact Or.inr ⟨_, rfl⟩
  | ModeSemiAutomatic =>
    cases m.currentGroup with
    | none => exact Or.inl ⟨rfl, rfl, rfl⟩
    | some g => exact Or.inr ⟨_, rfl⟩

theorem events_ne_nil_of_plan (m : ListModel σ) (s : σ) (p : MergePlan)
    (hp : mergePlan m = .ok p) (hlen : 1 ≤ p.toDeleteIDs.length) : events m s ≠ [] := by
  unfold events
  rw [executeMerge_eq_runPlan m p s hp]
  rcases runPlan_cases m p s with ⟨_, h⟩ | ⟨_, _, _, _, h⟩ | ⟨_, _, _, _, _, h⟩ |
    ⟨_, _, _, _, _, _, _, h⟩
  · rw [h]
    simp only
    cases hids : p.toDeleteIDs with
    | nil => rw [hids] at hlen; simp at hlen
    | cons d rest =>
      rcases migrate_cons m p.mainID (d :: rest).length (totalOps p) 0 d rest 0 s with
        ⟨_, _, _, h'⟩ | ⟨_, _, _, _, _, _, _, _, h'⟩ |
        ⟨_, _, _, _, _, _, _, _, _, _, h'⟩ | ⟨_, _, _, _, _, _, _, _, _, h'⟩
      · rw [h']; simp
      · rw [h']; simp [iterationHead]
      · rw [h']; simp [iterationEvents, iterationHead]
      · rw [h']; simp [iterationEvents, iterationHead]
  · rw [h]; simp
  · rw [h]; simp
  · rw [h]; simp

theorem plan_invariant_aux (m : ListModel σ) (p : MergePlan) (hp : mergePlan m = .ok p) :
    1 ≤ p.toDeleteIDs.length ∧ p.mainID ∉ p.toDeleteIDs ∧
    ∀ id, (id = p.mainID ∨ id ∈ p.toDeleteIDs) ↔ id ∈ selectedIDSet m := by
  obtain ⟨_, ids, hsel, h2, hplan⟩ := mergePlan_ok m p hp
  obtain ⟨hnd, hmem⟩ := collectSelected_spec m ids hsel
  have hset : ∀ id, id ∈ selectedIDSet m ↔ id ∈ ids := by
    intro id; rw [mem_selectedIDSet, hmem]
  subst hplan
  unfold planMerge
  cases hfind : findNamed m.selectedMap m.mergeInput (itemsToCheck m) with
  | none =>
    simp only
    cases ids with
    | nil => simp at h2
    | cons a t =>
      simp only [List.headD_cons, List.tail_cons]
      refine ⟨by simp at h2; omega, (List.nodup_cons.1 hnd).1, ?_⟩
      intro id; rw [hset]; simp
  | some mainID =>
    simp only
    obtain ⟨it, hit, hs, _, hid⟩ := findNamed_some _ _ _ _ hfind
    have hmain : mainID ∈ ids := (hmem mainID).2 ⟨it, hit, hid.symm, hid ▸ hs⟩
    refine ⟨?_, by simp [List.mem_filter], ?_⟩
    · -- some selected ID differs from mainID
      have hex : ∃ x ∈ ids, x ≠ mainID := by
        by_contra hcon
        push_neg at hcon
        have hall : ∀ x ∈ ids, x = mainID := hcon
        cases ids with
        | nil => simp at h2
        | cons a t =>
          cases t with
          | nil => simp at h2
          | cons b t' =>
            have ha := hall a (by simp)
            have hb := hall b (by simp)
            have := (List.nodup_cons.1 hnd).1
            apply this
            rw [ha, hb]; simp
      obtain ⟨x, hx, hne⟩ := hex
      have : x ∈ ids.filter (fun id => decide (id ≠ mainID)) := by
        simp [List.mem_filter, hx, hne]
      exact List.length_pos_of_mem this
    · intro id
      rw [hset]
      simp only [List.mem_filter, decide_eq_true_eq]
      constructor
      · rintro (rfl | ⟨h, _⟩)
        · exact hmain
        · exact h
      · intro h
        by_cases hid' : id = mainID
        · exact Or.inl hid'
        · exact Or.inr ⟨h, hid'⟩

/-- C11. Validation. If the final name is empty, or fewer than two distinct
IDs are selected, or the mode is semi-automatic and there is no current group,
`executeMerge` returns a failure outcome, emits no event at all (no progress
message, no client call) and leaves the service as it was. With a non-empty
final name, at least two distinct selected IDs and, in semi-automatic mode, a
current group, validation passes: a plan is computed and the run goes on to its
first progress message. -/
theorem validation (m : ListModel σ) (s : σ) :
    (m.mergeInput = "" →
      executeMerge m s = (⟨some ⟨m.localizer.T "merge.error_empty_name", []⟩⟩, s, [])) ∧
    ((selectedIDSet m).card < 2 → ∃ e, executeMerge m s = (⟨some e⟩, s, [])) ∧
    (m.mergeMode = .ModeSemiAutomatic → m.currentGroup = none →
      ∃ e, executeMerge m s = (⟨some e⟩, s, [])) ∧
    (m.mergeInput ≠ "" → 2 ≤ (selectedIDSet m).card →
      (m.mergeMode = .ModeSemiAutomatic → m.currentGroup ≠ none) →
      ∃ p, mergePlan m = .ok p ∧ executeMerge m s = runPlan m p s ∧ events m s ≠ []) := by
  have hfail : ∀ e, mergePlan m = .error e → executeMerge m s = (⟨some e⟩, s, []) := by
    intro e he
    unfold executeMerge; rw [he]
  refine ⟨?_, ?_, ?_, ?_⟩
  · intro hname
    apply hfail
    unfold mergePlan
    simp [hname]
  · intro hcard
    cases hp : mergePlan m with
    | error e => exact ⟨e, hfail e hp⟩
    | ok p =>
      obtain ⟨_, ids, hsel, h2, _⟩ := mergePlan_ok m p hp
      rw [selectedIDSet_card m ids hsel] at hcard
      omega
  · intro hmode hgroup
    cases hp : mergePlan m with
    | error e => exact ⟨e, hfail e hp⟩
    | ok p =>
      obtain ⟨_, ids, hsel, _, _⟩ := mergePlan_ok m p hp
      unfold collectSelected at hsel
      rw [hmode, hgroup] at hsel
      cases hsel
  · intro hname hcard hgroup
    rcases collectSelected_cases m with ⟨hmode, hnone, _⟩ | ⟨ids, hsel⟩
    · exact absurd hnone (hgroup hmode)
    · rw [selectedIDSet_card m ids hsel] at hcard
      have hp := mergePlan_of_valid m ids hname hsel hcard
      refine ⟨_, hp, executeMerge_eq_runPlan m _ s hp, ?_⟩
      exact events_ne_nil_of_plan m s _ hp (plan_invariant_aux m _ hp).1

/-- Instance at four models: an empty final name; one selected ID; the
semi-automatic mode without a group; and the items 5 and 7 selected under the
final name `"Foo"`. -/
theorem validation_witness :
    executeMerge (healthyModel .EntityTags "") () =
      (⟨some ⟨"merge.error_empty_name", []⟩⟩, (), []) ∧
    (∃ e, executeMerge
      { healthyModel .EntityTags "Foo" with selectedMap := fun k => k = 5 } () =
        (⟨some e⟩, (), [])) ∧
    (∃ e, executeMerge
      { healthyModel .EntityTags "Foo" with mergeMode := .ModeSemiAutomatic } () =
        (⟨some e⟩, (), [])) ∧
    (∃ p, mergePlan (healthyModel .EntityTags "Foo") = .ok p ∧
      executeMerge (healthyModel .EntityTags "Foo") () =
        runPlan (healthyModel .EntityTags "Foo") p () ∧
      events (healthyModel .EntityTags "Foo") () ≠ []) :=
  ⟨(validation (healthyModel .EntityTags "") ()).1 rfl,
    (validation { healthyModel .EntityTags "Foo" with selectedMap := fun k => k = 5 }
      ()).2.1 (by decide),
    (validation { healthyModel .EntityTags "Foo" with mergeMode := .ModeSemiAutomatic }
      ()).2.2.1 rfl rfl,
    (validation (healthyModel .EntityTags "Foo") ()).2.2.2 (by decide) (by decide)
      (by decide)⟩

/-- C12. Plan invariant: whenever validation passes, the plan has at least one
duplicate to delete, `mainID` is not among `toDeleteIDs`, `toDeleteIDs` has no
repeated ID, the final name is not empty, and an ID is `mainID` or one of
`toDeleteIDs` exactly when it is a selected ID. -/
theorem plan_invariant (m : ListModel σ) (p : MergePlan) (hp : mergePlan m = .ok p) :
    1 ≤ p.toDeleteIDs.length ∧
    p.mainID ∉ p.toDeleteIDs ∧
    p.toDeleteIDs.Nodup ∧
    m.mergeInput ≠ "" ∧
    (∀ id, (id = p.mainID ∨ id ∈ p.toDeleteIDs) ↔ id ∈ selectedIDSet m) ∧
    (∀ id, id ∈ selectedIDSet m ↔
      ∃ it ∈ itemsToCheck m, it.ID = id ∧ m.selectedMap id = true) := by
  obtain ⟨h1, h2, h3⟩ := plan_invariant_aux m p hp
  exact ⟨h1, h2, plan_nodup m p hp, (mergePlan_ok m p hp).1, h3, mem_selectedIDSet m⟩

/-- Instance at the items 5 and 7 selected under the final name `"Foo"`. -/
theorem plan_invariant_witness :
    1 ≤ [(5 : Int)].length ∧
    (7 : Int) ∉ [(5 : Int)] ∧
    [(5 : Int)].Nodup ∧
    (healthyModel .EntityTags "Foo").mergeInput ≠ "" ∧
    (∀ id, (id = 7 ∨ id ∈ [(5 : Int)]) ↔ id ∈ selectedIDSet (healthyModel .EntityTags "Foo")) ∧
    (∀ id, id ∈ selectedIDSet (healthyModel .EntityTags "Foo") ↔
      ∃ it ∈ itemsToCheck (healthyModel .EntityTags "Foo"),
        it.ID = id ∧ (healthyModel .EntityTags "Foo").selectedMap id = true) :=
  plan_invariant (healthyModel .EntityTags "Foo") ⟨7, [5], true⟩ rfl

/-! ### Progress messages -/

theorem currentsOf_append (a b : List Event) :
    currentsOf (a ++ b) = currentsOf a ++ currentsOf b := by
  induction a with
  | nil => rfl
  | cons e a ih =>
    cases e with
    | progress msg => simp [currentsOf, ih]
    | call r => simpa [currentsOf] using ih

theorem mem_currentsOf (msg : mergeProgressMsg) :
    ∀ (evs : List Event), Event.progress msg ∈ evs → msg.current ∈ currentsOf evs := by
  intro evs
  induction evs with
  | nil => intro h; cases h
  | cons e evs ih =>
    intro h
    rcases List.mem_cons.1 h with h1 | h1
    · subst h1; simp [currentsOf]
    · cases e with
      | progress msg' => simp [currentsOf, ih h1]
      | call r => simpa [currentsOf] using ih h1

theorem currentsOf_okReassign (kind : EntityType) (d mainID : Int) (docs : List Document) :
    currentsOf (docs.map (fun doc => Event.call (okReassign kind d mainID doc))) = [] := by
  induction docs with
  | nil => rfl
  | cons doc docs ih => simpa [currentsOf] using ih

theorem currentsOf_iterationHead (m : ListModel σ) (n total idx cur : Nat) (d : Int)
    (docs : List Document) :
    currentsOf (iterationHead m n total idx cur d docs) =
      ((cur + 1 : Nat) : Int) :: (if docs.length > 0 then [((cur + 2 : Nat) : Int)] else []) := by
  unfold iterationHead evGetDocs evUpdateDocs
  by_cases h : docs.length > 0
  · simp only [h, if_true, currentsOf]
  · simp only [h, if_false, currentsOf]

theorem currentsOf_iterationEvents (m : ListModel σ) (mainID : Int) (n total idx cur : Nat)
    (d : Int) (docs : List Document) (err : Option GoError) :
    currentsOf (iterationEvents m mainID n total idx cur d docs err) =
      ((cur + 1 : Nat) : Int) :: (if docs.length > 0 then [((cur + 2 : Nat) : Int)] else []) ++
        [((cur + 3 : Nat) : Int)] := by
  unfold iterationEvents
  rw [currentsOf_append, currentsOf_append, currentsOf_iterationHead, currentsOf_okReassign]
  simp [currentsOf, evDelete]

theorem iterationHead_total (m : ListModel σ) (n total idx cur : Nat) (d : Int)
    (docs : List Document) (msg : mergeProgressMsg)
    (h : Event.progress msg ∈ iterationHead m n total idx cur d docs) :
    msg.total = (total : Int) := by
  unfold iterationHead evGetDocs evUpdateDocs at h
  by_cases hd : docs.length > 0
  · simp only [hd, if_true, List.mem_cons, List.not_mem_nil, or_false] at h
    rcases h with h | h | h
    · cases h; rfl
    · cases h
    · cases h; rfl
  · simp only [hd, if_false, List.mem_cons, List.not_mem_nil, or_false] at h
    rcases h with h | h
    · cases h; rfl
    · cases h

theorem iterationEvents_total (m : ListModel σ) (mainID : Int) (n total idx cur : Nat)
    (d : Int) (docs : List Document) (err : Option GoError) (msg : mergeProgressMsg)
    (h : Event.progress msg ∈ iterationEvents m mainID n total idx cur d docs err) :
    msg.total = (total : Int) := by
  unfold iterationEvents at h
  rcases List.mem_append.1 h with h | h
  · rcases List.mem_append.1 h with h | h
    · exact iterationHead_total m n total idx cur d docs msg h
    · obtain ⟨doc, _, hdoc⟩ := List.mem_map.1 h
      cases hdoc
  · simp only [List.mem_cons, List.not_mem_nil, or_false] at h
    rcases h with h | h
    · cases h; rfl
    · cases h

theorem migrate_total (m : ListModel σ) (mainID : Int) (n total : Nat) :
    ∀ (ids : List Int) (idx cur : Nat) (s : σ) (msg : mergeProgressMsg),
      Event.progress msg ∈ (migrate m mainID n total idx ids cur s).2.2.2 →
      msg.total = (total : Int) := by
  intro ids
  induction ids with
  | nil =>
    intro idx cur s msg h
    rw [migrate_nil] at h
    cases h
  | cons d rest ih =>
    intro idx cur s msg h
    rcases migrate_cons m mainID n total idx d rest cur s with
      ⟨err, s1, _, h'⟩ | ⟨s1, done, doc, later, err, s2, _, _, h'⟩ |
      ⟨docs, s1, s2, err, s3, e, _, _, _, _, h'⟩ | ⟨docs, s1, s2, err, s3, _, _, _, _, h'⟩
    · rw [h'] at h
      simp only [List.mem_cons, List.not_mem_nil, or_false] at h
      rcases h with h | h
      · unfold evGetDocs at h; cases h; rfl
      · cases h
    · rw [h'] at h
      rcases List.mem_append.1 h with h | h
      · exact iterationHead_total m n total idx cur d _ msg h
      · rcases List.mem_append.1 h with h | h
        · obtain ⟨doc', _, hdoc⟩ := List.mem_map.1 h
          cases hdoc
        · simp only [List.mem_singleton] at h
          cases h
    · rw [h'] at h
      exact iterationEvents_total m mainID n total idx cur d docs err msg h
    · rw [h'] at h
      rcases List.mem_append.1 h with h | h
      · exact iterationEvents_total m mainID n total idx cur d docs err msg h
      · exact ih (idx + 1) (cur + 3) s3 msg h

theorem migrate_currents (m : ListModel σ) (mainID : Int) (n total : Nat) :
    ∀ (ids : List Int) (idx cur : Nat) (s : σ),
      (∀ c ∈ currentsOf (migrate m mainID n total idx ids cur s).2.2.2,
        (cur : Int) < c ∧ c ≤ ((cur + 3 * ids.length : Nat) : Int)) ∧
      (currentsOf (migrate m mainID n total idx ids cur s).2.2.2).Pairwise (· < ·) ∧
      (ids ≠ [] → ∃ tl, currentsOf (migrate m mainID n total idx ids cur s).2.2.2 =
        ((cur + 1 : Nat) : Int) :: tl) ∧
      ((migrate m mainID n total idx ids cur s).1 = none →
        (migrate m mainID n total idx ids cur s).2.1 = cur + 3 * ids.length ∧
        (ids ≠ [] → ∃ init, currentsOf (migrate m mainID n total idx ids cur s).2.2.2 =
          init ++ [((cur + 3 * ids.length : Nat) : Int)])) := by
  intro ids
  induction ids with
  | nil =>
    intro idx cur s
    rw [migrate_nil]
    refine ⟨fun c hc => absurd hc (List.not_mem_nil _), List.Pairwise.nil,
      fun h => absurd rfl h, fun _ => ⟨(by simp), fun h => absurd rfl h⟩⟩
  | cons d rest ih =>
    intro idx cur s
    have hlen : (d :: rest).length = rest.length + 1 := rfl
    rcases migrate_cons m mainID n total idx d rest cur s with
      ⟨err, s1, _, h'⟩ | ⟨s1, done, doc, later, err, s2, _, _, h'⟩ |
      ⟨docs, s1, s2, err, s3, e, _, _, _, _, h'⟩ | ⟨docs, s1, s2, err, s3, _, _, _, _, h'⟩
    · rw [h']
      have hc : currentsOf [evGetDocs m n total idx cur,
          Event.call ⟨fetchCall m.entityType d, some err, []⟩] = [((cur + 1 : Nat) : Int)] := rfl
      simp only [hc]
      refine ⟨?_, List.pairwise_singleton _ _, fun _ => ⟨[], rfl⟩, fun h => by cases h⟩
      intro c hc'
      simp only [List.mem_singleton] at hc'
      subst hc'
      rw [hlen]; push_cast; omega
    · rw [h']
      have hc : currentsOf (iterationHead m n total idx cur d (done ++ doc :: later) ++
          (done.map (fun doc => Event.call (okReassign m.entityType d mainID doc)) ++
            [Event.call ⟨reassignCall m.entityType doc.ID d mainID, some err, []⟩])) =
          [((cur + 1 : Nat) : Int), ((cur + 2 : Nat) : Int)] := by
        rw [currentsOf_append, currentsOf_append, currentsOf_iterationHead,
          currentsOf_okReassign]
        simp [currentsOf]
      simp only [hc]
      refine ⟨?_, ?_, fun _ => ⟨_, rfl⟩, fun h => by cases h⟩
      · intro c hc'
        simp only [List.mem_cons, List.not_mem_nil, or_false] at hc'
        rw [hlen]
        rcases hc' with rfl | rfl <;> (push_cast; omega)
      · simp only [List.pairwise_cons, List.mem_singleton, forall_eq, List.not_mem_nil,
          false_implies, implies_true, List.Pairwise.nil, and_true]
        push_cast; omega
    · rw [h']
      simp only [currentsOf_iterationEvents]
      refine ⟨?_, ?_, fun _ => ⟨_, rfl⟩, fun h => by cases h⟩
      · intro c hc'
        rw [hlen]
        by_cases hd : docs.length > 0
        · simp only [hd, if_true, List.cons_append, List.nil_append, List.mem_cons,
            List.not_mem_nil, or_false] at hc'
          rcases hc' with rfl | rfl | rfl <;> (push_cast; omega)
        · simp only [hd, if_false, List.cons_append, List.nil_append, List.mem_cons,
            List.not_mem_nil, or_false] at hc'
          rcases hc' with rfl | rfl <;> (push_cast; omega)
      · by_cases hd : docs.length > 0
        · simp only [hd, if_true, List.cons_append, List.nil_append, List.pairwise_cons,
            List.mem_cons, List.not_mem_nil, or_false, forall_eq_or_imp, forall_eq,
            false_implies, implies_true, List.Pairwise.nil, and_true]
          push_cast; omega
        · simp only [hd, if_false, List.cons_append, List.nil_append, List.pairwise_cons,
            List.mem_cons, List.not_mem_nil, or_false, forall_eq,
            false_implies, implies_true, List.Pairwise.nil, and_true]
          push_cast; omega
    · obtain ⟨ih1, ih2, ih3, ih4⟩ := ih (idx + 1) (cur + 3) s3
      rw [h']
      simp only [currentsOf_append, currentsOf_iterationEvents]
      have hfirst : ∀ c ∈ (((cur + 1 : Nat) : Int) ::
          (if docs.length > 0 then [((cur + 2 : Nat) : Int)] else []) ++
            [((cur + 3 : Nat) : Int)]), (cur : Int) < c ∧ c ≤ ((cur + 3 : Nat) : Int) := by
        intro c hc'
        by_cases hd : docs.length > 0
        · simp only [hd, if_true, List.cons_append, List.nil_append, List.mem_cons,
            List.not_mem_nil, or_false] at hc'
          rcases hc' with rfl | rfl | rfl <;> (push_cast; omega)
        · simp only [hd, if_false, List.cons_append, List.nil_append, List.mem_cons,
            List.not_mem_nil, or_false] at hc'
          rcases hc' with rfl | rfl <;> (push_cast; omega)
      have hpw : (((cur + 1 : Nat) : Int) ::
          (if docs.length > 0 then [((cur + 2 : Nat) : Int)] else []) ++
            [((cur + 3 : Nat) : Int)]).Pairwise (· < ·) := by
        by_cases hd : docs.length > 0
        · simp only [hd, if_true, List.cons_append, List.nil_append, List.pairwise_cons,
            List.mem_cons, List.not_mem_nil, or_false, forall_eq_or_imp, forall_eq,
            false_implies, implies_true, List.Pairwise.nil, and_true]
          push_cast; omega
        · simp only [hd, if_false, List.cons_append, List.nil_append, List.pairwise_cons,
            List.mem_cons, List.not_mem_nil, or_false, forall_eq,
            false_implies, implies_true, List.Pairwise.nil, and_true]
          push_cast; omega
      refine ⟨?_, ?_, fun _ => ⟨_, rfl⟩, ?_⟩
      · intro c hc'
        rw [hlen]
        rcases List.mem_append.1 hc' with hc' | hc'
        · have := hfirst c hc'
          push_cast at this ⊢; omega
        · have := ih1 c hc'
          push_cast at this ⊢; omega
      · rw [List.pairwise_append]
        refine ⟨hpw, ih2, ?_⟩
        intro a ha b hb
        have h1 := hfirst a ha
        have h2 := ih1 b hb
        push_cast at h1 h2; omega
      · intro hnone
        obtain ⟨hcount, hlast⟩ := ih4 hnone
        refine ⟨by rw [hcount, hlen]; omega, fun _ => ?_⟩
        by_cases hrest : rest = []
        · subst hrest
          refine ⟨((cur + 1 : Nat) : Int) ::
            (if docs.length > 0 then [((cur + 2 : Nat) : Int)] else []), ?_⟩
          rw [migrate_nil]
          simp [currentsOf]
        · obtain ⟨init, hinit⟩ := hlast hrest
          refine ⟨(((cur + 1 : Nat) : Int) ::
            (if docs.length > 0 then [((cur + 2 : Nat) : Int)] else []) ++
              [((cur + 3 : Nat) : Int)]) ++ init, ?_⟩
          rw [hinit, hlen]
          have : cur + 3 + 3 * rest.length = cur + 3 * (rest.length + 1) := by omega
          rw [this]
          simp

theorem totalOps_eq (p : MergePlan) :
    totalOps p = (if p.needsRename then 1 else 0) + 3 * p.toDeleteIDs.length +
      (if p.needsRename then 1 else 0) := by
  unfold totalOps MergePlan.needsRename
  omega

theorem run_progress (m : ListModel σ) (p : MergePlan) (s : σ) (hp : mergePlan m = .ok p)
    (hlen : 1 ≤ p.toDeleteIDs.length) :
    (∀ msg, Event.progress msg ∈ events m s → msg.total = (totalOps p : Int)) ∧
    (∀ c ∈ currentsOf (events m s), 1 ≤ c ∧ c ≤ (totalOps p : Int)) ∧
    (currentsOf (events m s)).Pairwise (· < ·) ∧
    (∃ tl, currentsOf (events m s) = 1 :: tl) ∧
    ((outcome m s).err = none →
      ∃ init, currentsOf (events m s) = init ++ [(totalOps p : Int)]) := by
  have hne : p.toDeleteIDs ≠ [] := by
    intro h; rw [h] at hlen; simp at hlen
  have htot := totalOps_eq p
  unfold events outcome
  rw [executeMerge_eq_runPlan m p s hp]
  rcases runPlan_cases m p s with ⟨hn, h⟩ | ⟨hn, err, s1, _, h⟩ | ⟨hn, s1, e, _, hm, h⟩ |
    ⟨hn, s1, err, s3, _, hm, _, h⟩
  · obtain ⟨h1, h2, h3, h4⟩ :=
      migrate_currents m p.mainID p.toDeleteIDs.length (totalOps p) p.toDeleteIDs 0 0 s
    rw [h]
    simp only
    rw [hn] at htot
    simp only [Bool.false_eq_true, if_false, Nat.zero_add, Nat.add_zero] at htot
    refine ⟨fun msg hmsg => migrate_total m p.mainID _ _ _ 0 0 s msg hmsg, ?_, h2, ?_, ?_⟩
    · intro c hc
      have := h1 c hc
      rw [htot]
      push_cast at this ⊢; omega
    · obtain ⟨tl, htl⟩ := h3 hne
      exact ⟨tl, by rw [htl]; simp⟩
    · intro hnone
      obtain ⟨init, hinit⟩ := (h4 hnone).2 hne
      refine ⟨init, ?_⟩
      rw [hinit, htot]
      simp
  · rw [h]
    have hc : currentsOf [evPrepare m p, Event.call (tempRename m p (some err))] = [1] := rfl
    simp only [hc]
    rw [hn] at htot
    simp only [if_true] at htot
    refine ⟨?_, ?_, List.pairwise_singleton _ _, ⟨[], rfl⟩, fun hnone => by cases hnone⟩
    · intro msg hmsg
      simp only [List.mem_cons, List.not_mem_nil, or_false] at hmsg
      rcases hmsg with hmsg | hmsg
      · unfold evPrepare at hmsg; cases hmsg; rfl
      · cases hmsg
    · intro c hc'
      simp only [List.mem_singleton] at hc'
      subst hc'
      exact ⟨le_refl 1, by rw [htot]; push_cast; omega⟩
  · obtain ⟨h1, h2, h3, h4⟩ :=
      migrate_currents m p.mainID p.toDeleteIDs.length (totalOps p) p.toDeleteIDs 0 1 s1
    rw [h]
    have hc : ∀ evs, currentsOf (evPrepare m p :: Event.call (tempRename m p none) :: evs) =
        1 :: currentsOf evs := fun _ => rfl
    simp only [hc]
    rw [hn] at htot
    simp only [if_true] at htot
    refine ⟨?_, ?_, ?_, ⟨_, rfl⟩, fun hnone => by cases hnone⟩
    · intro msg hmsg
      simp only [List.mem_cons] at hmsg
      rcases hmsg with hmsg | hmsg | hmsg
      · unfold evPrepare at hmsg; cases hmsg; rfl
      · cases hmsg
      · exact migrate_total m p.mainID _ _ _ 0 1 s1 msg hmsg
    · intro c hc'
      rcases List.mem_cons.1 hc' with rfl | hc'
      · exact ⟨le_refl 1, by rw [htot]; push_cast; omega⟩
      · have := h1 c hc'
        rw [htot]
        push_cast at this ⊢; omega
    · rw [List.pairwise_cons]
      refine ⟨fun c hc' => ?_, h2⟩
      have := h1 c hc'
      push_cast at this; omega
  · obtain ⟨h1, h2, h3, h4⟩ :=
      migrate_currents m p.mainID p.toDeleteIDs.length (totalOps p) p.toDeleteIDs 0 1 s1
    obtain ⟨hcount, _⟩ := h4 hm
    rw [h]
    have hc : currentsOf (evPrepare m p :: Event.call (tempRename m p none) ::
        (migrate m p.mainID p.toDeleteIDs.length (totalOps p) 0 p.toDeleteIDs 1 s1).2.2.2 ++
        [evFinalName m p
            (migrate m p.mainID p.toDeleteIDs.length (totalOps p) 0 p.toDeleteIDs 1 s1).2.1,
          Event.call (finalRename m p err)]) =
        1 :: (currentsOf
          (migrate m p.mainID p.toDeleteIDs.length (totalOps p) 0 p.toDeleteIDs 1 s1).2.2.2 ++
          [(totalOps p : Int)]) := by
      show currentsOf (_ :: _ :: (_ ++ [_, _])) = _
      rw [hcount]
      show (1 : Int) :: currentsOf (_ ++ [_, _]) = _
      rw [currentsOf_append]
      rw [hn] at htot
      simp only [if_true] at htot
      simp only [currentsOf, evFinalName, htot]
    simp only [hc]
    rw [hn] at htot
    simp only [if_true] at htot
    refine ⟨?_, ?_, ?_, ⟨_, rfl⟩, fun _ => ⟨1 :: currentsOf _, rfl⟩⟩
    · intro msg hmsg
      simp only [List.mem_cons, List.mem_append, List.not_mem_nil, or_false] at hmsg
      rcases hmsg with (hmsg | hmsg | hmsg) | hmsg | hmsg
      · unfold evPrepare at hmsg; cases hmsg; rfl
      · cases hmsg
      · exact migrate_total m p.mainID _ _ _ 0 1 s1 msg hmsg
      · unfold evFinalName at hmsg; cases hmsg; rfl
      · cases hmsg
    · intro c hc'
      simp only [List.mem_cons, List.mem_append, List.not_mem_nil, or_false] at hc'
      rcases hc' with rfl | hc' | rfl
      · exact ⟨le_refl 1, by rw [htot]; push_cast; omega⟩
      · have := h1 c hc'
        rw [htot]
        push_cast at this ⊢; omega
      · rw [htot]; push_cast; omega
    · rw [List.pairwise_cons, List.pairwise_append]
      refine ⟨fun c hc' => ?_, h2, List.pairwise_singleton _ _, fun a ha b hb => ?_⟩
      · simp only [List.mem_append, List.mem_singleton] at hc'
        rcases hc' with hc' | rfl
        · have := h1 c hc'
          push_cast at this; omega
        · rw [htot]; push_cast; omega
      · simp only [List.mem_singleton] at hb
        subst hb
        have := h1 a ha
        rw [htot]
        push_cast at this ⊢; omega

theorem events_of_invalid (m : ListModel σ) (s : σ) (e : Formatted)
    (h : mergePlan m = .error e) : events m s = [] ∧ outcome m s = ⟨some e⟩ := by
  unfold events outcome executeMerge
  rw [h]
  exact ⟨rfl, rfl⟩

/-- C13. Every progress message of a run carries the same total: the run has
a plan, and the total of the message is
`(needsRename ? 1 : 0) + 3 * |toDeleteIDs| + (needsRename ? 1 : 0)` for that plan,
whatever the service answers and however many documents it returns. -/
theorem progress_total (m : ListModel σ) (s : σ) (msg : mergeProgressMsg)
    (h : Event.progress msg ∈ events m s) :
    ∃ p, mergePlan m = .ok p ∧
      msg.total = (((if p.needsRename then 1 else 0) + 3 * p.toDeleteIDs.length +
        (if p.needsRename then 1 else 0) : Nat) : Int) := by
  cases hp : mergePlan m with
  | error e =>
    rw [(events_of_invalid m s e hp).1] at h
    cases h
  | ok p =>
    refine ⟨p, rfl, ?_⟩
    rw [← totalOps_eq p]
    exact (run_progress m p s hp (plan_invariant_aux m p hp).1).1 msg h

/-- Instance at the first progress message of the run that merges the tags 5
and 7 under the new name `"Bar"`: total 5. -/
theorem progress_total_witness :
    Event.progress ⟨1, 5, ⟨"merge.status_prepare", []⟩⟩ ∈
      events (healthyModel .EntityTags "Bar") () ∧
    ∃ p, mergePlan (healthyModel .EntityTags "Bar") = .ok p ∧
      (5 : Int) = (((if p.needsRename then 1 else 0) + 3 * p.toDeleteIDs.length +
        (if p.needsRename then 1 else 0) : Nat) : Int) :=
  ⟨by decide,
    progress_total (healthyModel .EntityTags "Bar") ()
      ⟨1, 5, ⟨"merge.status_prepare", []⟩⟩ (by decide)⟩

/-- C14. Progress invariant: in every run, whatever its outcome and whatever the
service answers, every progress message satisfies `0 ≤ current ≤ total`, and the
values of `current` are non-decreasing along the sequence of the messages. -/
theorem progress_invariant (m : ListModel σ) (s : σ) :
    (∀ msg, Event.progress msg ∈ events m s →
      0 ≤ msg.current ∧ msg.current ≤ msg.total) ∧
    (currentsOf (events m s)).Pairwise (· ≤ ·) := by
  cases hp : mergePlan m with
  | error e =>
    rw [(events_of_invalid m s e hp).1]
    exact ⟨fun msg h => absurd h (List.not_mem_nil _), List.Pairwise.nil⟩
  | ok p =>
    obtain ⟨h1, h2, h3, _, _⟩ := run_progress m p s hp (plan_invariant_aux m p hp).1
    constructor
    · intro msg hmsg
      have hc := h2 msg.current (mem_currentsOf msg _ hmsg)
      rw [h1 msg hmsg]
      exact ⟨by omega, hc.2⟩
    · exact h3.imp (fun hab => le_of_lt hab)

/-- C15. On every successful run the values of `current` of the progress
messages strictly increase, the first is 1 and the last is the total
`(needsRename ? 1 : 0) + 3 * |toDeleteIDs| + (needsRename ? 1 : 0)`, which every
message carries; for a plan with a rename and two duplicates the total is 8, so
`current` goes from 1 to 8. -/
theorem successful_run_progress (m : ListModel σ) (s : σ)
    (hok : outcome m s = ⟨none⟩) :
    ∃ p, mergePlan m = .ok p ∧
      (currentsOf (events m s)).Pairwise (· < ·) ∧
      (currentsOf (events m s)).head? = some 1 ∧
      (currentsOf (events m s)).getLast? =
        some (((if p.needsRename then 1 else 0) + 3 * p.toDeleteIDs.length +
          (if p.needsRename then 1 else 0) : Nat) : Int) ∧
      (∀ msg, Event.progress msg ∈ events m s →
        msg.total = (((if p.needsRename then 1 else 0) + 3 * p.toDeleteIDs.length +
          (if p.needsRename then 1 else 0) : Nat) : Int)) ∧
      (p.needsRename = true → p.toDeleteIDs.length = 2 →
        (currentsOf (events m s)).head? = some 1 ∧
        (currentsOf (events m s)).getLast? = some 8 ∧
        ∀ msg, Event.progress msg ∈ events m s → msg.total = 8) := by
  cases hp : mergePlan m with
  | error e =>
    rw [(events_of_invalid m s e hp).2] at hok
    cases hok
  | ok p =>
    obtain ⟨h1, _, h3, ⟨tl, htl⟩, h5⟩ :=
      run_progress m p s hp (plan_invariant_aux m p hp).1
    obtain ⟨init, hinit⟩ := h5 (by rw [hok])
    have hhead : (currentsOf (events m s)).head? = some 1 := by rw [htl]; rfl
    have hlast : (currentsOf (events m s)).getLast? = some (totalOps p : Int) := by
      rw [hinit]; simp
    refine ⟨p, rfl, h3, hhead, ?_, ?_, ?_⟩
    · rw [← totalOps_eq p]; exact hlast
    · rw [← totalOps_eq p]; exact h1
    · intro hn h2
      have h8 : totalOps p = 8 := by
        rw [totalOps_eq p, hn, h2]; rfl
      rw [h8] at hlast h1
      exact ⟨hhead, hlast, h1⟩

/-- Instance at a successful run with a rename and two duplicates, each with
three documents: `current` takes the values 1 to 8. -/
theorem successful_run_progress_witness :
    currentsOf (events eightStepModel 0) = [1, 2, 3, 4, 5, 6, 7, 8] ∧
    ∃ p, mergePlan eightStepModel = .ok p ∧
      (currentsOf (events eightStepModel 0)).Pairwise (· < ·) ∧
      (currentsOf (events eightStepModel 0)).head? = some 1 ∧
      (currentsOf (events eightStepModel 0)).getLast? =
        some (((if p.needsRename then 1 else 0) + 3 * p.toDeleteIDs.length +
          (if p.needsRename then 1 else 0) : Nat) : Int) ∧
      (∀ msg, Event.progress msg ∈ events eightStepModel 0 →
        msg.total = (((if p.needsRename then 1 else 0) + 3 * p.toDeleteIDs.length +
          (if p.needsRename then 1 else 0) : Nat) : Int)) ∧
      (p.needsRename = true → p.toDeleteIDs.length = 2 →
        (currentsOf (events eightStepModel 0)).head? = some 1 ∧
        (currentsOf (events eightStepModel 0)).getLast? = some 8 ∧
        ∀ msg, Event.progress msg ∈ events eightStepModel 0 → msg.total = 8) :=
  ⟨by decide, successful_run_progress eightStepModel 0 (by decide)⟩

/-! ### The tag list of a reassignment -/

/-- C16. Tag reassignment: when the document is fetched, `UpdateDocumentTags`
sends, in its `PATCH`, the JSON of the list `replaceTag doc.Tags oldTagID newTagID`;
that list has the length of the document's list, holds at every position
`newTagID` where the document's list holds `oldTagID` and the document's entry
elsewhere, and does not contain `oldTagID` when `oldTagID` differs from
`newTagID`. -/
theorem tag_reassignment (c : Client σ) (docID oldTagID newTagID : Int) (s s1 : σ)
    (doc : Document) (hget : c.getDocument docID s = (.ok doc, s1)) :
    c.UpdateDocumentTags docID oldTagID newTagID s =
      c.patch ("/api/documents/" ++ fmtInt docID ++ "/")
        ("\x7b\"tags\": " ++
          c.json.marshalInts (replaceTag doc.Tags oldTagID newTagID) ++ "\x7d")
        "errore nell'aggiornamento del documento" s1 ∧
    (replaceTag doc.Tags oldTagID newTagID).length = doc.Tags.length ∧
    (∀ i : Nat, (replaceTag doc.Tags oldTagID newTagID)[i]? =
      (doc.Tags[i]?).map (fun tagID => if tagID = oldTagID then newTagID else tagID)) ∧
    (oldTagID ≠ newTagID → oldTagID ∉ replaceTag doc.Tags oldTagID newTagID) := by
  refine ⟨?_, ?_, ?_, ?_⟩
  · unfold Client.UpdateDocumentTags
    rw [hget]
  · simp [replaceTag]
  · intro i
    simp [replaceTag]
  · intro hne hmem
    unfold replaceTag at hmem
    obtain ⟨t, _, ht⟩ := List.mem_map.1 hmem
    by_cases h : t = oldTagID
    · rw [if_pos h] at ht
      exact hne ht.symm
    · rw [if_neg h] at ht
      exact h ht

/-- Instance at document 10 of the example service, whose tag list is `[5]`,
with the tag 5 replaced by the tag 7. -/
theorem tag_reassignment_witness :
    replaceTag [5] 5 7 = [7] ∧
    ((exampleClient (.ok ⟨204, ""⟩) (.ok ⟨200, ""⟩) (.ok ⟨200, "P1"⟩)).UpdateDocumentTags
        10 5 7 () =
      (exampleClient (.ok ⟨204, ""⟩) (.ok ⟨200, ""⟩) (.ok ⟨200, "P1"⟩)).patch
        ("/api/documents/" ++ fmtInt 10 ++ "/")
        ("\x7b\"tags\": " ++
          (exampleClient (.ok ⟨204, ""⟩) (.ok ⟨200, ""⟩) (.ok ⟨200, "P1"⟩)).json.marshalInts
            (replaceTag [5] 5 7) ++ "\x7d")
        "errore nell'aggiornamento del documento" () ∧
    (replaceTag [5] 5 7).length = [(5 : Int)].length ∧
    (∀ i : Nat, (replaceTag [5] 5 7)[i]? =
      ([(5 : Int)][i]?).map (fun tagID => if tagID = 5 then 7 else tagID)) ∧
    ((5 : Int) ≠ 7 → (5 : Int) ∉ replaceTag [5] 5 7)) :=
  ⟨by decide,
    tag_reassignment (exampleClient (.ok ⟨204, ""⟩) (.ok ⟨200, ""⟩) (.ok ⟨200, "P1"⟩))
      10 5 7 () () ⟨10, "a", none, none, [5]⟩ rfl⟩

/-! ### The threshold of the clustering -/

theorem clampThreshold_zero : clampThreshold (.fin 0) = .fin 0 := by
  simp [clampThreshold, Float64.lt, Float64.gt]

theorem clampThreshold_one : clampThreshold (.fin 1) = .fin 1 := by
  simp [clampThreshold, Float64.lt, Float64.gt]

theorem clampThreshold_below (t : Float64) (h : t.lt (.fin 0) = true) :
    clampThreshold t = .fin 0 := by
  unfold clampThreshold
  simp only [h, if_true]
  simp [Float64.lt, Float64.gt]

theorem clampThreshold_above (t : Float64) (h : t.gt (.fin 1) = true) :
    clampThreshold t = .fin 1 := by
  unfold Float64.gt at h
  cases t with
  | nan => simp [Float64.lt] at h
  | negInf => simp [Float64.lt] at h
  | posInf => simp [clampThreshold, Float64.lt, Float64.gt]
  | fin q =>
    have hq : (1 : ℚ) < q := by simpa [Float64.lt] using h
    have hq0 : ¬ q < 0 := by linarith
    simp [clampThreshold, Float64.lt, Float64.gt, hq, hq0]

/-- C20. Threshold clamping: with any threshold below 0, `FindSimilarGroups`
returns what it returns with the threshold 0, and with any threshold above 1
what it returns with the threshold 1. -/
theorem threshold_clamping (u : Unicode) (items : List SimilarItem) (t : Float64) :
    (t.lt (.fin 0) = true →
      FindSimilarGroups u items t = FindSimilarGroups u items (.fin 0)) ∧
    (t.gt (.fin 1) = true →
      FindSimilarGroups u items t = FindSimilarGroups u items (.fin 1)) := by
  constructor
  · intro h
    unfold FindSimilarGroups
    rw [clampThreshold_below t h, clampThreshold_zero]
  · intro h
    unfold FindSimilarGroups
    rw [clampThreshold_above t h, clampThreshold_one]

/-- Instance at the thresholds `-1` and `2` on the items of the example. -/
theorem threshold_clamping_witness :
    FindSimilarGroups asciiUnicode exampleItems (.fin (-1)) =
      FindSimilarGroups asciiUnicode exampleItems (.fin 0) ∧
    FindSimilarGroups asciiUnicode exampleItems (.fin 2) =
      FindSimilarGroups asciiUnicode exampleItems (.fin 1) :=
  ⟨(threshold_clamping asciiUnicode exampleItems (.fin (-1))).1 (by decide!),
    (threshold_clamping asciiUnicode exampleItems (.fin 2)).2 (by decide!)⟩

/-! ### The groups of `FindSimilarGroups` -/

theorem groupIDs_append (gs : List SimilarityGroup) (g : SimilarityGroup) :
    groupIDs (gs ++ [g]) = groupIDs gs ++ g.Items.map SimilarItem.ID := by
  simp [groupIDs, List.flatMap_append]

theorem absorb_used (u : Unicode) (rep : SimilarItem) (t : Float64) (item : SimilarItem)
    (rest acc : List SimilarItem) (used : Int → Bool) (h : used item.ID = true) :
    absorb u rep t (item :: rest) acc used = absorb u rep t rest acc used := by
  rw [absorb, if_pos h]

theorem absorb_take (u : Unicode) (rep : SimilarItem) (t : Float64) (item : SimilarItem)
    (rest acc : List SimilarItem) (used : Int → Bool) (h : used item.ID = false)
    (hs : (CalculateSimilarity u rep.Name item.Name).ge t = true) :
    absorb u rep t (item :: rest) acc used =
      absorb u rep t rest (acc ++ [item]) (fun k => if k = item.ID then true else used k) := by
  rw [absorb, if_neg (by simp [h]), if_pos hs]

theorem absorb_skip (u : Unicode) (rep : SimilarItem) (t : Float64) (item : SimilarItem)
    (rest acc : List SimilarItem) (used : Int → Bool) (h : used item.ID = false)
    (hs : (CalculateSimilarity u rep.Name item.Name).ge t = false) :
    absorb u rep t (item :: rest) acc used = absorb u rep t rest acc used := by
  rw [absorb, if_neg (by simp [h]), if_neg (by simp [hs])]

/-- The inner loop appends to the group a sublist of the items it scans: items
that were unused, with pairwise different IDs, each similar enough to the
representative; and it marks exactly their IDs as used. -/
theorem absorb_spec (u : Unicode) (rep : SimilarItem) (t : Float64) :
    ∀ (rest acc : List SimilarItem) (used : Int → Bool),
      ∃ A : List SimilarItem,
        (absorb u rep t rest acc used).1 = acc ++ A ∧
        A.Sublist rest ∧
        (A.map SimilarItem.ID).Nodup ∧
        (∀ a ∈ A, used a.ID = false) ∧
        (∀ a ∈ A, (CalculateSimilarity u rep.Name a.Name).ge t = true) ∧
        (∀ k, (absorb u rep t rest acc used).2 k =
          (used k || decide (k ∈ A.map SimilarItem.ID))) := by
  intro rest
  induction rest with
  | nil =>
    intro acc used
    exact ⟨[], by simp [absorb], List.Sublist.refl _, List.nodup_nil,
      fun a ha => absurd ha (List.not_mem_nil _),
      fun a ha => absurd ha (List.not_mem_nil _), fun k => by simp [absorb]⟩
  | cons item rest ih =>
    intro acc used
    by_cases hu : used item.ID = true
    · rw [absorb_used u rep t item rest acc used hu]
      obtain ⟨A, h1, h2, h3, h4, h5, h6⟩ := ih acc used
      exact ⟨A, h1, List.Sublist.cons _ h2, h3, h4, h5, h6⟩
    · have hu' : used item.ID = false := by simpa using hu
      by_cases hs : (CalculateSimilarity u rep.Name item.Name).ge t = true
      · rw [absorb_take u rep t item rest acc used hu' hs]
        obtain ⟨A, h1, h2, h3, h4, h5, h6⟩ :=
          ih (acc ++ [item]) (fun k => if k = item.ID then true else used k)
        have hne : ∀ a ∈ A, a.ID ≠ item.ID := by
          intro a ha he
          have := h4 a ha
          simp [he] at this
        have hfresh : ∀ a ∈ A, used a.ID = false := by
          intro a ha
          have := h4 a ha
          simpa [hne a ha] using this
        refine ⟨item :: A, ?_, List.Sublist.cons₂ _ h2, ?_, ?_, ?_, ?_⟩
        · rw [h1]; simp
        · rw [List.map_cons, List.nodup_cons]
          refine ⟨?_, h3⟩
          intro hmem
          obtain ⟨a, ha, he⟩ := List.mem_map.1 hmem
          exact hne a ha he
        · intro a ha
          rcases List.mem_cons.1 ha with h | h
          · rw [h]; exact hu'
          · exact hfresh a h
        · intro a ha
          rcases List.mem_cons.1 ha with h | h
          · rw [h]; exact hs
          · exact h5 a h
        · intro k
          rw [h6 k]
          by_cases hk : k = item.ID
          · simp [hk]
          · simp [hk]
      · have hs' : (CalculateSimilarity u rep.Name item.Name).ge t = false := by simpa using hs
        rw [absorb_skip u rep t item rest acc used hu' hs']
        obtain ⟨A, h1, h2, h3, h4, h5, h6⟩ := ih acc used
        exact ⟨A, h1, List.Sublist.cons _ h2, h3, h4, h5, h6⟩

theorem findGroups_used (u : Unicode) (t : Float64) (item : SimilarItem)
    (rest : List SimilarItem) (used : Int → Bool) (groups : List SimilarityGroup)
    (h : used item.ID = true) :
    findGroups u t (item :: rest) used groups = findGroups u t rest used groups := by
  rw [findGroups, if_pos h]

theorem findGroups_keep (u : Unicode) (t : Float64) (item : SimilarItem)
    (rest : List SimilarItem) (used : Int → Bool) (groups : List SimilarityGroup)
    (h : used item.ID = false)
    (hl : (absorb u item t rest [item]
      (fun k => if k = item.ID then true else used k)).1.length > 1) :
    findGroups u t (item :: rest) used groups =
      findGroups u t rest
        (absorb u item t rest [item] (fun k => if k = item.ID then true else used k)).2
        (groups ++ [⟨item.Name,
          (absorb u item t rest [item] (fun k => if k = item.ID then true else used k)).1⟩]) := by
  rw [findGroups, if_neg (by simp [h])]
  simp only [hl, if_true]

theorem findGroups_drop (u : Unicode) (t : Float64) (item : SimilarItem)
    (rest : List SimilarItem) (used : Int → Bool) (groups : List SimilarityGroup)
    (h : used item.ID = false)
    (hl : ¬ (absorb u item t rest [item]
      (fun k => if k = item.ID then true else used k)).1.length > 1) :
    findGroups u t (item :: rest) used groups =
      findGroups u t rest
        (absorb u item t rest [item] (fun k => if k = item.ID then true else used k)).2
        groups := by
  rw [findGroups, if_neg (by simp [h])]
  simp only [hl, if_false]

/-- The invariant of the outer loop: the groups collected so far have two items
or more and pairwise different IDs, all marked as used; every group added was
opened by an item of the list and filled from the items after it. -/
theorem findGroups_spec (u : Unicode) (t : Float64) :
    ∀ (items : List SimilarItem) (used : Int → Bool) (groups : List SimilarityGroup),
      (∀ k ∈ groupIDs groups, used k = true) →
      (groupIDs groups).Nodup →
      (∀ g ∈ groups, 2 ≤ g.Items.length) →
      (∀ g ∈ findGroups u t items used groups, 2 ≤ g.Items.length) ∧
      (groupIDs (findGroups u t items used groups)).Nodup ∧
      (∀ g ∈ findGroups u t items used groups, g ∈ groups ∨
        ∃ pre first rest others, items = pre ++ first :: rest ∧
          g.Representative = first.Name ∧ g.Items = first :: others ∧
          others.Sublist rest ∧
          ∀ m ∈ others, (CalculateSimilarity u first.Name m.Name).ge t = true) := by
  intro items
  induction items with
  | nil =>
    intro used groups _ h2 h3
    simp only [findGroups]
    exact ⟨h3, h2, fun g hg => Or.inl hg⟩
  | cons item rest ih =>
    intro used groups h1 h2 h3
    by_cases hu : used item.ID = true
    · rw [findGroups_used u t item rest used groups hu]
      obtain ⟨a, b, c⟩ := ih used groups h1 h2 h3
      refine ⟨a, b, fun g hg => ?_⟩
      rcases c g hg with h | ⟨pre, first, rest1, others, e1, e2, e3, e4, e5⟩
      · exact Or.inl h
      · exact Or.inr ⟨item :: pre, first, rest1, others, by rw [e1]; rfl, e2, e3, e4, e5⟩
    · have hu' : used item.ID = false := by simpa using hu
      obtain ⟨A, hA1, hA2, hA3, hA4, hA5, hA6⟩ :=
        absorb_spec u item t rest [item] (fun k => if k = item.ID then true else used k)
      have hne : ∀ a ∈ A, a.ID ≠ item.ID := by
        intro a ha he
        have := hA4 a ha
        simp [he] at this
      have hfresh : ∀ a ∈ A, used a.ID = false := by
        intro a ha
        have := hA4 a ha
        simpa [hne a ha] using this
      have hmono : ∀ k, used k = true →
          (absorb u item t rest [item] (fun k => if k = item.ID then true else used k)).2 k
            = true := by
        intro k hk
        rw [hA6 k]
        by_cases hki : k = item.ID
        · simp [hki]
        · simp [hki, hk]
      have hformed : ∀ g, g = (⟨item.Name,
            (absorb u item t rest [item] (fun k => if k = item.ID then true else used k)).1⟩ :
              SimilarityGroup) →
          ∃ pre first rest1 others, item :: rest = pre ++ first :: rest1 ∧
            g.Representative = first.Name ∧ g.Items = first :: others ∧
            others.Sublist rest1 ∧
            ∀ m ∈ others, (CalculateSimilarity u first.Name m.Name).ge t = true := by
        intro g hg
        exact ⟨[], item, rest, A, rfl, by rw [hg], by rw [hg, hA1]; rfl, hA2, hA5⟩
      have hlift : ∀ g : SimilarityGroup,
          (∃ pre first rest1 others, rest = pre ++ first :: rest1 ∧
            g.Representative = first.Name ∧ g.Items = first :: others ∧
            others.Sublist rest1 ∧
            ∀ m ∈ others, (CalculateSimilarity u first.Name m.Name).ge t = true) →
          ∃ pre first rest1 others, item :: rest = pre ++ first :: rest1 ∧
            g.Representative = first.Name ∧ g.Items = first :: others ∧
            others.Sublist rest1 ∧
            ∀ m ∈ others, (CalculateSimilarity u first.Name m.Name).ge t = true := by
        rintro g ⟨pre, first, rest1, others, e1, e2, e3, e4, e5⟩
        exact ⟨item :: pre, first, rest1, others, by rw [e1]; rfl, e2, e3, e4, e5⟩
      by_cases hl : (absorb u item t rest [item]
          (fun k => if k = item.ID then true else used k)).1.length > 1
      · rw [findGroups_keep u t item rest used groups hu' hl]
        have hids : groupIDs (groups ++ [⟨item.Name,
            (absorb u item t rest [item] (fun k => if k = item.ID then true else used k)).1⟩])
            = groupIDs groups ++ (item.ID :: A.map SimilarItem.ID) := by
          rw [groupIDs_append, hA1]; rfl
        have i1 : ∀ k ∈ groupIDs (groups ++ [⟨item.Name,
            (absorb u item t rest [item] (fun k => if k = item.ID then true else used k)).1⟩]),
            (absorb u item t rest [item] (fun k => if k = item.ID then true else used k)).2 k
              = true := by
          intro k hk
          rw [hids] at hk
          rcases List.mem_append.1 hk with h | h
          · exact hmono k (h1 k h)
          · rw [hA6 k]
            rcases List.mem_cons.1 h with h | h
            · simp [h]
            · simp [h]
        have i2 : (groupIDs (groups ++ [⟨item.Name,
            (absorb u item t rest [item] (fun k => if k = item.ID then true else used k)).1⟩])).Nodup := by
          rw [hids, List.nodup_append]
          refine ⟨h2, ?_, ?_⟩
          · rw [List.nodup_cons]
            refine ⟨?_, hA3⟩
            intro hmem
            obtain ⟨a, ha, he⟩ := List.mem_map.1 hmem
            exact hne a ha he
          · intro k hk1 hk2
            have hk := h1 k hk1
            rcases List.mem_cons.1 hk2 with h | h
            · rw [h, hu'] at hk; exact Bool.noConfusion hk
            · obtain ⟨a, ha, he⟩ := List.mem_map.1 h
              rw [← he, hfresh a ha] at hk; exact Bool.noConfusion hk
        have i3 : ∀ g ∈ groups ++ [⟨item.Name,
            (absorb u item t rest [item] (fun k => if k = item.ID then true else used k)).1⟩],
            2 ≤ g.Items.length := by
          intro g hg
          rcases List.mem_append.1 hg with h | h
          · exact h3 g h
          · rw [List.mem_singleton.1 h]; exact hl
        obtain ⟨a, b, c⟩ := ih _ _ i1 i2 i3
        refine ⟨a, b, fun g hg => ?_⟩
        rcases c g hg with h | h
        · rcases List.mem_append.1 h with h | h
          · exact Or.inl h
          · exact Or.inr (hformed g (List.mem_singleton.1 h))
        · exact Or.inr (hlift g h)
      · rw [findGroups_drop u t item rest used groups hu' hl]
        obtain ⟨a, b, c⟩ := ih _ groups (fun k hk => hmono k (h1 k hk)) h2 h3
        refine ⟨a, b, fun g hg => ?_⟩
        rcases c g hg with h | h
        · exact Or.inl h
        · exact Or.inr (hlift g h)

/-- C17. For every item list and every threshold, every group that
`FindSimilarGroups` returns has at least 2 items, and the IDs of the items of
all returned groups, listed group after group, are pairwise different: no ID
occurs in two groups, nor twice in one group. -/
theorem groups_invariant (u : Unicode) (items : List SimilarItem) (threshold : Float64) :
    (∀ g ∈ FindSimilarGroups u items threshold, 2 ≤ g.Items.length) ∧
    ((FindSimilarGroups u items threshold).flatMap
      (fun g => g.Items.map SimilarItem.ID)).Nodup := by
  obtain ⟨a, b, _⟩ := findGroups_spec u (clampThreshold threshold) items (fun _ => false) []
    (fun k hk => absurd hk (List.not_mem_nil _)) List.nodup_nil
    (fun g hg => absurd hg (List.not_mem_nil _))
  exact ⟨a, b⟩

/-- C18. In every group that `FindSimilarGroups` returns, the representative is
the name of the group's first item; the other members are a sublist of the
input after that first item; and every other member `m` has
`CalculateSimilarity(representative, m.Name) >=` the clamped threshold. -/
theorem group_members (u : Unicode) (items : List SimilarItem) (threshold : Float64)
    (g : SimilarityGroup) (hg : g ∈ FindSimilarGroups u items threshold) :
    ∃ pre first rest others, items = pre ++ first :: rest ∧
      g.Representative = first.Name ∧ g.Items = first :: others ∧
      others.Sublist rest ∧
      ∀ m ∈ others,
        (CalculateSimilarity u g.Representative m.Name).ge (clampThreshold threshold) = true := by
  obtain ⟨_, _, c⟩ := findGroups_spec u (clampThreshold threshold) items (fun _ => false) []
    (fun k hk => absurd hk (List.not_mem_nil _)) List.nodup_nil
    (fun g hg => absurd hg (List.not_mem_nil _))
  rcases c g hg with h | ⟨pre, first, rest, others, e1, e2, e3, e4, e5⟩
  · exact absurd h (List.not_mem_nil _)
  · exact ⟨pre, first, rest, others, e1, e2, e3, e4, by rw [e2]; exact e5⟩

/-- Instance at the group of the three spellings of Amazon in the example of
the specification, at the threshold 0.7. -/
theorem group_members_witness :
    (⟨"Amazon", [⟨1, "Amazon"⟩, ⟨2, "amazon "⟩, ⟨3, "Amaz0n"⟩]⟩ : SimilarityGroup) ∈
      FindSimilarGroups asciiUnicode exampleItems threshold07 ∧
    ∃ pre first rest others, exampleItems = pre ++ first :: rest ∧
      "Amazon" = first.Name ∧
      [(⟨1, "Amazon"⟩ : SimilarItem), ⟨2, "amazon "⟩, ⟨3, "Amaz0n"⟩] = first :: others ∧
      others.Sublist rest ∧
      ∀ m ∈ others,
        (CalculateSimilarity asciiUnicode "Amazon" m.Name).ge (clampThreshold threshold07)
          = true :=
  ⟨by decide!,
    group_members asciiUnicode exampleItems threshold07
      ⟨"Amazon", [⟨1, "Amazon"⟩, ⟨2, "amazon "⟩, ⟨3, "Amaz0n"⟩]⟩ (by decide!)⟩

/-! ### `FindSimilarGroups` against the first-match clustering -/

/-- The reference clustering, started with an open group `g` in front: `g` takes
every later item that is similar enough to its representative, and the other
items are clustered among the groups behind it. -/
theorem foldl_assignFirstMatch_cons (u : Unicode) (t : Float64) :
    ∀ (l : List SimilarItem) (g : SimilarityGroup) (gs : List SimilarityGroup),
      l.foldl (fun gs item => assignFirstMatch u t item gs) (g :: gs) =
        ⟨g.Representative, g.Items ++ l.filter
          (fun it => (CalculateSimilarity u g.Representative it.Name).ge t)⟩ ::
        (l.filter (fun it => !(CalculateSimilarity u g.Representative it.Name).ge t)).foldl
          (fun gs item => assignFirstMatch u t item gs) gs := by
  intro l
  induction l with
  | nil => intro g gs; simp
  | cons x l ih =>
    intro g gs
    by_cases hs : (CalculateSimilarity u g.Representative x.Name).ge t = true
    · rw [List.foldl_cons, assignFirstMatch, if_pos hs, ih]
      simp [List.filter_cons, hs]
    · have hs' : (CalculateSimilarity u g.Representative x.Name).ge t = false := by
        simpa using hs
      rw [List.foldl_cons, assignFirstMatch, if_neg hs, ih]
      simp [List.filter_cons, hs']

/-- On items with pairwise different IDs the inner loop appends exactly the
unused items that are similar enough to the representative, and marks exactly
their IDs. -/
theorem absorb_eq (u : Unicode) (rep : SimilarItem) (t : Float64) :
    ∀ (rest acc : List SimilarItem) (used : Int → Bool),
      (rest.map SimilarItem.ID).Nodup →
      absorb u rep t rest acc used =
        (acc ++ rest.filter
            (fun it => !used it.ID && (CalculateSimilarity u rep.Name it.Name).ge t),
          fun k => used k || decide (k ∈ (rest.filter
            (fun it => !used it.ID && (CalculateSimilarity u rep.Name it.Name).ge t)).map
              SimilarItem.ID)) := by
  intro rest
  induction rest with
  | nil => intro acc used _; simp [absorb]
  | cons item rest ih =>
    intro acc used hnd
    rw [List.map_cons, List.nodup_cons] at hnd
    obtain ⟨hni, hnd⟩ := hnd
    have hne : ∀ it ∈ rest, it.ID ≠ item.ID := by
      intro it hit he
      exact hni (List.mem_map.2 ⟨it, hit, he⟩)
    by_cases hu : used item.ID = true
    · have hfl : (item :: rest).filter (fun it => !used it.ID &&
            (CalculateSimilarity u rep.Name it.Name).ge t) =
          rest.filter (fun it => !used it.ID &&
            (CalculateSimilarity u rep.Name it.Name).ge t) := by
        simp [List.filter_cons, hu]
      rw [absorb_used u rep t item rest acc used hu, ih acc used hnd, hfl]
    · have hu' : used item.ID = false := by simpa using hu
      by_cases hs : (CalculateSimilarity u rep.Name item.Name).ge t = true
      · have hfl : (item :: rest).filter (fun it => !used it.ID &&
              (CalculateSimilarity u rep.Name it.Name).ge t) =
            item :: rest.filter (fun it => !used it.ID &&
              (CalculateSimilarity u rep.Name it.Name).ge t) := by
          simp [List.filter_cons, hu', hs]
        rw [absorb_take u rep t item rest acc used hu' hs, ih _ _ hnd]
        have hf : rest.filter (fun it => !(if it.ID = item.ID then true else used it.ID) &&
              (CalculateSimilarity u rep.Name it.Name).ge t) =
            rest.filter (fun it => !used it.ID &&
              (CalculateSimilarity u rep.Name it.Name).ge t) := by
          apply List.filter_congr
          intro it hit
          simp [hne it hit]
        rw [hf, hfl]
        refine Prod.ext ?_ ?_
        · simp
        · funext k
          by_cases hk : k = item.ID
          · simp [hk]
          · have hb : (k == item.ID) = false := by simpa using hk
            simp [hk, hb]
      · have hs' : (CalculateSimilarity u rep.Name item.Name).ge t = false := by simpa using hs
        have hfl : (item :: rest).filter (fun it => !used it.ID &&
              (CalculateSimilarity u rep.Name it.Name).ge t) =
            rest.filter (fun it => !used it.ID &&
              (CalculateSimilarity u rep.Name it.Name).ge t) := by
          simp [List.filter_cons, hu', hs']
        rw [absorb_skip u rep t item rest acc used hu' hs', ih acc used hnd, hfl]

/-- The outer loop, on items with pairwise different IDs: it appends to the
groups collected so far the groups that the reference clustering forms on the
items that are not yet used. -/
theorem findGroups_eq (u : Unicode) (t : Float64) :
    ∀ (l : List SimilarItem) (used : Int → Bool) (groups : List SimilarityGroup),
      (l.map SimilarItem.ID).Nodup →
      findGroups u t l used groups =
        groups ++ (((l.filter (fun it => !used it.ID)).foldl
          (fun gs item => assignFirstMatch u t item gs) []).filter
            (fun g => decide (g.Items.length > 1))) := by
  intro l
  induction l with
  | nil => intro used groups _; simp [findGroups]
  | cons item rest ih =>
    intro used groups hnd
    rw [List.map_cons, List.nodup_cons] at hnd
    obtain ⟨hni, hnd⟩ := hnd
    have hne : ∀ it ∈ rest, it.ID ≠ item.ID := by
      intro it hit he
      exact hni (List.mem_map.2 ⟨it, hit, he⟩)
    have hinj : ∀ a ∈ rest, ∀ b ∈ rest, a.ID = b.ID → a = b :=
      fun a ha b hb he => List.inj_on_of_nodup_map hnd ha hb he
    by_cases hu : used item.ID = true
    · rw [findGroups_used u t item rest used groups hu, ih used groups hnd]
      simp [List.filter_cons, hu]
    · have hu' : used item.ID = false := by simpa using hu
      have hab := absorb_eq u item t rest [item]
        (fun k => if k = item.ID then true else used k) hnd
      have hf : rest.filter (fun it => !(if it.ID = item.ID then true else used it.ID) &&
            (CalculateSimilarity u item.Name it.Name).ge t) =
          (rest.filter (fun it => !used it.ID)).filter
            (fun it => (CalculateSimilarity u item.Name it.Name).ge t) := by
        rw [List.filter_filter]
        apply List.filter_congr
        intro it hit
        simp [hne it hit, Bool.and_comm]
      rw [hf] at hab
      have hrest : rest.filter (fun it =>
            !(absorb u item t rest [item] (fun k => if k = item.ID then true else used k)).2
              it.ID) =
          (rest.filter (fun it => !used it.ID)).filter
            (fun it => !(CalculateSimilarity u item.Name it.Name).ge t) := by
        rw [List.filter_filter, hab]
        apply List.filter_congr
        intro it hit
        have hmem : (it.ID ∈ ((rest.filter (fun it => !used it.ID)).filter
              (fun it => (CalculateSimilarity u item.Name it.Name).ge t)).map SimilarItem.ID) ↔
            (used it.ID = false ∧ (CalculateSimilarity u item.Name it.Name).ge t = true) := by
          constructor
          · intro h
            obtain ⟨a, ha, he⟩ := List.mem_map.1 h
            have ha1 := List.mem_filter.1 ha
            have ha2 := List.mem_filter.1 ha1.1
            have := hinj a ha2.1 it hit he
            subst this
            exact ⟨by simpa using ha2.2, ha1.2⟩
          · rintro ⟨h1, h2⟩
            exact List.mem_map.2 ⟨it, List.mem_filter.2
              ⟨List.mem_filter.2 ⟨hit, by simp [h1]⟩, h2⟩, rfl⟩
        have hd : decide (it.ID ∈ ((rest.filter (fun it => !used it.ID)).filter
              (fun it => (CalculateSimilarity u item.Name it.Name).ge t)).map SimilarItem.ID) =
            (!used it.ID && (CalculateSimilarity u item.Name it.Name).ge t) := by
          by_cases hx : it.ID ∈ ((rest.filter (fun it => !used it.ID)).filter
              (fun it => (CalculateSimilarity u item.Name it.Name).ge t)).map SimilarItem.ID
          · obtain ⟨a, b⟩ := hmem.1 hx
            rw [decide_eq_true hx, a, b]
            rfl
          · rw [decide_eq_false hx]
            cases hui : used it.ID
            · cases hsi : (CalculateSimilarity u item.Name it.Name).ge t
              · rfl
              · exact absurd (hmem.2 ⟨hui, hsi⟩) hx
            · rfl
        dsimp only
        rw [hd]
        cases hui : used it.ID <;>
          cases hsi : (CalculateSimilarity u item.Name it.Name).ge t <;>
          simp [hne it hit]
      have hfold : ((item :: rest).filter (fun it => !used it.ID)).foldl
            (fun gs item => assignFirstMatch u t item gs) [] =
          ⟨item.Name, (absorb u item t rest [item]
              (fun k => if k = item.ID then true else used k)).1⟩ ::
            (rest.filter (fun it =>
              !(absorb u item t rest [item] (fun k => if k = item.ID then true else used k)).2
                it.ID)).foldl (fun gs item => assignFirstMatch u t item gs) [] := by
        rw [hrest]
        rw [List.filter_cons, if_pos (by simp [hu']), List.foldl_cons, assignFirstMatch,
          foldl_assignFirstMatch_cons, hab]
      rw [hfold]
      by_cases hl : (absorb u item t rest [item]
          (fun k => if k = item.ID then true else used k)).1.length > 1
      · rw [findGroups_keep u t item rest used groups hu' hl, ih _ _ hnd,
          List.filter_cons, if_pos (by simpa using hl)]
        simp
      · rw [findGroups_drop u t item rest used groups hu' hl, ih _ _ hnd,
          List.filter_cons, if_neg (by simpa using hl)]

/-- The outer loop keeps the input order: the groups it adds are opened by
items of the list in the order of the list, and the items of each added group
are a sublist of the list. -/
theorem findGroups_order (u : Unicode) (t : Float64) :
    ∀ (l : List SimilarItem) (used : Int → Bool) (groups : List SimilarityGroup),
      ∃ added : List SimilarityGroup,
        findGroups u t l used groups = groups ++ added ∧
        (added.flatMap (fun g => g.Items.take 1)).Sublist l ∧
        ∀ g ∈ added, g.Items.Sublist l := by
  intro l
  induction l with
  | nil =>
    intro used groups
    exact ⟨[], by simp [findGroups], by simp, fun g hg => absurd hg (List.not_mem_nil _)⟩
  | cons item rest ih =>
    intro used groups
    by_cases hu : used item.ID = true
    · rw [findGroups_used u t item rest used groups hu]
      obtain ⟨added, h1, h2, h3⟩ := ih used groups
      exact ⟨added, h1, List.Sublist.cons _ h2, fun g hg => List.Sublist.cons _ (h3 g hg)⟩
    · have hu' : used item.ID = false := by simpa using hu
      obtain ⟨A, hA1, hA2, _⟩ :=
        absorb_spec u item t rest [item] (fun k => if k = item.ID then true else used k)
      by_cases hl : (absorb u item t rest [item]
          (fun k => if k = item.ID then true else used k)).1.length > 1
      · rw [findGroups_keep u t item rest used groups hu' hl]
        obtain ⟨added, h1, h2, h3⟩ := ih
          (absorb u item t rest [item] (fun k => if k = item.ID then true else used k)).2
          (groups ++ [⟨item.Name,
            (absorb u item t rest [item] (fun k => if k = item.ID then true else used k)).1⟩])
        refine ⟨⟨item.Name,
            (absorb u item t rest [item] (fun k => if k = item.ID then true else used k)).1⟩ ::
              added, ?_, ?_, ?_⟩
        · rw [h1]; simp
        · rw [List.flatMap_cons, hA1]
          exact List.Sublist.cons₂ _ h2
        · intro g hg
          rcases List.mem_cons.1 hg with h | h
          · rw [h, hA1]
            exact List.Sublist.cons₂ _ hA2
          · exact List.Sublist.cons _ (h3 g h)
      · rw [findGroups_drop u t item rest used groups hu' hl]
        obtain ⟨added, h1, h2, h3⟩ := ih
          (absorb u item t rest [item] (fun k => if k = item.ID then true else used k)).2 groups
        exact ⟨added, h1, List.Sublist.cons _ h2, fun g hg => List.Sublist.cons _ (h3 g hg)⟩

/-- C19. First match wins and order is preserved: on every item list with
pairwise distinct IDs, `FindSimilarGroups` returns the groups of the first-match
clustering `firstMatchGroups` at the clamped threshold, in which every item,
taken in input order, joins the earliest open group whose representative is
similar enough to it, after the members the group already has, or opens a new
group after the open ones; the items of each returned group are a sublist of
the input, and so are the first items of the returned groups, group after
group. -/
theorem first_match_wins (u : Unicode) (items : List SimilarItem) (threshold : Float64)
    (hids : (items.map SimilarItem.ID).Nodup) :
    FindSimilarGroups u items threshold =
      firstMatchGroups u items (clampThreshold threshold) ∧
    (∀ g ∈ FindSimilarGroups u items threshold, g.Items.Sublist items) ∧
    ((FindSimilarGroups u items threshold).flatMap (fun g => g.Items.take 1)).Sublist items := by
  refine ⟨?_, ?_⟩
  · unfold FindSimilarGroups firstMatchGroups
    rw [findGroups_eq u (clampThreshold threshold) items (fun _ => false) [] hids]
    simp
  · obtain ⟨added, h1, h2, h3⟩ :=
      findGroups_order u (clampThreshold threshold) items (fun _ => false) []
    unfold FindSimilarGroups
    rw [h1]
    exact ⟨fun g hg => h3 g (by simpa using hg), by simpa using h2⟩

/-- Instance at the example of the specification, at the threshold 0.7: both
sides are the one group of the three spellings of Amazon. -/
theorem first_match_wins_witness :
    (exampleItems.map SimilarItem.ID).Nodup ∧
    firstMatchGroups asciiUnicode exampleItems (clampThreshold threshold07) =
      [⟨"Amazon", [⟨1, "Amazon"⟩, ⟨2, "amazon "⟩, ⟨3, "Amaz0n"⟩]⟩] ∧
    (FindSimilarGroups asciiUnicode exampleItems threshold07 =
      firstMatchGroups asciiUnicode exampleItems (clampThreshold threshold07) ∧
    (∀ g ∈ FindSimilarGroups asciiUnicode exampleItems threshold07,
      g.Items.Sublist exampleItems) ∧
    ((FindSimilarGroups asciiUnicode exampleItems threshold07).flatMap
      (fun g => g.Items.take 1)).Sublist exampleItems) :=
  ⟨by decide, by decide!, first_match_wins asciiUnicode exampleItems threshold07 (by decide)⟩

/-! ### `CalculateSimilarity` and `normalizeString` -/

theorem goBytes_eq_nil (s : String) (h : goBytes s = []) : s = "" := by
  obtain ⟨l⟩ := s
  cases l with
  | nil => rfl
  | cons c cs =>
    exfalso
    have hlen := congrArg List.length h
    simp only [goBytes, List.flatMap_cons, List.length_append, String.length_utf8EncodeChar,
      List.length_nil] at hlen
    have := Char.utf8Size_pos c
    omega

theorem goLen_eq_zero (s : String) (h : goLen s = 0) : s = "" := by
  apply goBytes_eq_nil
  unfold goLen at h
  exact List.length_eq_zero.1 (by exact_mod_cast h)

theorem goLen_nonneg (s : String) : 0 ≤ goLen s := by
  unfold goLen
  exact Int.natCast_nonneg _

/-- The longer of the two byte lengths, as `CalculateSimilarity` computes it. -/
theorem maxLen_eq (a b : String) :
    (if goLen b > goLen a then goLen b else goLen a) = max (goLen a) (goLen b) := by
  split_ifs with h
  · exact (max_eq_right (le_of_lt h)).symm
  · exact (max_eq_left (not_lt.1 h)).symm

theorem maxLen_pos (a b : String) (h : a ≠ b) : 0 < max (goLen a) (goLen b) := by
  by_contra hn
  have ha := goLen_nonneg a
  have hb := goLen_nonneg b
  have h0 : max (goLen a) (goLen b) = 0 :=
    le_antisymm (not_lt.1 hn) (le_trans ha (le_max_left _ _))
  have ha0 : goLen a = 0 := le_antisymm (h0 ▸ le_max_left _ _) ha
  have hb0 : goLen b = 0 := le_antisymm (h0 ▸ le_max_right _ _) hb
  exact h ((goLen_eq_zero a ha0).trans (goLen_eq_zero b hb0).symm)

theorem calculateSimilarity_of_eq (u : Unicode) (s1 s2 : String)
    (h : normalizeString u s1 = normalizeString u s2) :
    CalculateSimilarity u s1 s2 = .fin 1 := by
  unfold CalculateSimilarity
  simp only [h, if_true]

theorem calculateSimilarity_of_ne (u : Unicode) (s1 s2 : String)
    (h : normalizeString u s1 ≠ normalizeString u s2) :
    CalculateSimilarity u s1 s2 =
      .fin (round64 (1 - round64 (
        Float64.ofInt (levenshteinDistance u (normalizeString u s1) (normalizeString u s2)) /
        Float64.ofInt (max (goLen (normalizeString u s1)) (goLen (normalizeString u s2)))))) := by
  have hpos := maxLen_pos _ _ h
  unfold CalculateSimilarity
  simp only [h, if_false, maxLen_eq, ne_of_gt hpos]

/-- C21. `CalculateSimilarity(s1, s2)` is `1.0` when the normalized forms are
equal, in particular for `s1 = s2` and when both are empty; otherwise the longer
byte length is positive and the result is the `float64` value of
`1.0 - float64(levenshteinDistance(a, b)) / float64(max(len(a), len(b)))`. -/
theorem similarity_formula (u : Unicode) (s1 s2 : String) :
    (normalizeString u s1 = normalizeString u s2 → CalculateSimilarity u s1 s2 = .fin 1) ∧
    CalculateSimilarity u s1 s1 = .fin 1 ∧
    (normalizeString u s1 = "" → normalizeString u s2 = "" →
      CalculateSimilarity u s1 s2 = .fin 1) ∧
    (normalizeString u s1 ≠ normalizeString u s2 →
      0 < max (goLen (normalizeString u s1)) (goLen (normalizeString u s2)) ∧
      CalculateSimilarity u s1 s2 =
        .fin (round64 (1 - round64 (
          Float64.ofInt
              (levenshteinDistance u (normalizeString u s1) (normalizeString u s2)) /
            Float64.ofInt
              (max (goLen (normalizeString u s1)) (goLen (normalizeString u s2))))))) :=
  ⟨calculateSimilarity_of_eq u s1 s2, calculateSimilarity_of_eq u s1 s1 rfl,
    fun h1 h2 => calculateSimilarity_of_eq u s1 s2 (h1.trans h2.symm),
    fun h => ⟨maxLen_pos _ _ h, calculateSimilarity_of_ne u s1 s2 h⟩⟩

/-- C24. `normalizeString(s)` is the lower-cased trimmed string with exactly
the characters kept, in order, that are a letter, a digit or whitespace; every
character of the result is one of these. -/
theorem normalizeString_spec (u : Unicode) (s : String) :
    (normalizeString u s).data =
      (u.ToLower (u.TrimSpace s)).data.filter
        (fun r => u.IsLetter r || u.IsDigit r || u.IsSpace r) ∧
    (normalizeString u s).data.Sublist (u.ToLower (u.TrimSpace s)).data ∧
    (∀ r ∈ (normalizeString u s).data,
      u.IsLetter r = true ∨ u.IsDigit r = true ∨ u.IsSpace r = true) ∧
    (∀ r, (u.IsLetter r = true ∨ u.IsDigit r = true ∨ u.IsSpace r = true) →
      (normalizeString u s).data.count r = (u.ToLower (u.TrimSpace s)).data.count r) := by
  refine ⟨rfl, List.filter_sublist _, ?_, ?_⟩
  · intro r hr
    have := (List.mem_filter.1 hr).2
    simpa [Bool.or_eq_true, or_assoc] using this
  · intro r hr
    show List.count r (List.filter _ _) = _
    rw [List.count_filter]
    simpa [Bool.or_eq_true, or_assoc] using hr

/-- C25. On the items of the example with the threshold 0.7,
`FindSimilarGroups` returns exactly one group, with representative `"Amazon"`
and the items 1, 2, 3 in that order; the ID 4 is in no group. -/
theorem amazon_example :
    FindSimilarGroups asciiUnicode exampleItems threshold07 =
      [⟨"Amazon", [⟨1, "Amazon"⟩, ⟨2, "amazon "⟩, ⟨3, "Amaz0n"⟩]⟩] ∧
    (∀ g ∈ FindSimilarGroups asciiUnicode exampleItems threshold07,
      (4 : Int) ∉ g.Items.map SimilarItem.ID) := by
  have h : FindSimilarGroups asciiUnicode exampleItems threshold07 =
      [⟨"Amazon", [⟨1, "Amazon"⟩, ⟨2, "amazon "⟩, ⟨3, "Amaz0n"⟩]⟩] := by decide!
  refine ⟨h, ?_⟩
  rw [h]
  decide

/-- C27. Group membership can be non-transitive: at the threshold 0.7 the three
names of `chainItems` form one group, in which the second and the third item
have a similarity below the threshold. -/
theorem membership_not_transitive :
    ∃ (items : List SimilarItem) (t : Float64) (g : SimilarityGroup) (x y : SimilarItem),
      t.ge (.fin 0) = true ∧ (Float64.fin 1).ge t = true ∧
      g ∈ FindSimilarGroups asciiUnicode items t ∧ x ∈ g.Items ∧ y ∈ g.Items ∧
      (CalculateSimilarity asciiUnicode g.Representative x.Name).ge t = true ∧
      (CalculateSimilarity asciiUnicode g.Representative y.Name).ge t = true ∧
      (CalculateSimilarity asciiUnicode x.Name y.Name).lt t = true :=
  ⟨chainItems, threshold07, ⟨"abcdefghij", chainItems⟩, ⟨2, "abcdefghxy"⟩, ⟨3, "xycdefghij"⟩,
    by decide!, by decide!, by decide!, by decide, by decide, by decide!, by decide!,
    by decide!⟩

/-! ### Duplicates in the tag list of a reassignment -/

theorem replaceTag_count (tags : List Int) (oldTagID newTagID : Int)
    (hne : oldTagID ≠ newTagID) :
    (replaceTag tags oldTagID newTagID).count newTagID =
      tags.count oldTagID + tags.count newTagID := by
  induction tags with
  | nil => rfl
  | cons t ts ih =>
    unfold replaceTag at ih ⊢
    rw [List.map_cons, List.count_cons, List.count_cons, List.count_cons, ih]
    by_cases h1 : t = oldTagID
    · have h2 : ¬ t = newTagID := fun h => hne (h1.symm.trans h)
      simp [h1, hne]
      omega
    · by_cases h2 : t = newTagID
      · simp [h1, h2, Ne.symm hne]
        omega
      · simp [h1, h2]

/-- C28, as the code has it: when the document is fetched with a duplicate-free
tag list and `oldTagID` differs from `newTagID`, the list that
`UpdateDocumentTags` sends is duplicate-free if the document does not carry
`newTagID`; if it carries `newTagID` next to `oldTagID`, the sent list holds
`newTagID` twice. In both cases its members are the document's tags other than
`oldTagID`, and `newTagID` when the document carries `oldTagID`. -/
theorem tag_set_preserved (c : Client σ) (docID oldTagID newTagID : Int) (s s1 : σ)
    (doc : Document) (hget : c.getDocument docID s = (.ok doc, s1))
    (hnd : doc.Tags.Nodup) (hne : oldTagID ≠ newTagID) :
    c.UpdateDocumentTags docID oldTagID newTagID s =
      c.patch ("/api/documents/" ++ fmtInt docID ++ "/")
        ("\x7b\"tags\": " ++
          c.json.marshalInts (replaceTag doc.Tags oldTagID newTagID) ++ "\x7d")
        "errore nell'aggiornamento del documento" s1 ∧
    (newTagID ∉ doc.Tags → (replaceTag doc.Tags oldTagID newTagID).Nodup) ∧
    (oldTagID ∈ doc.Tags → newTagID ∈ doc.Tags →
      (replaceTag doc.Tags oldTagID newTagID).count newTagID = 2) ∧
    (∀ t, t ∈ replaceTag doc.Tags oldTagID newTagID ↔
      (t ∈ doc.Tags ∧ t ≠ oldTagID) ∨ (t = newTagID ∧ oldTagID ∈ doc.Tags)) := by
  refine ⟨?_, ?_, ?_, ?_⟩
  · unfold Client.UpdateDocumentTags
    rw [hget]
  · intro hnew
    unfold replaceTag
    refine List.Nodup.map_on ?_ hnd
    intro x hx y hy hxy
    by_cases h1 : x = oldTagID
    · by_cases h2 : y = oldTagID
      · rw [h1, h2]
      · rw [if_pos h1, if_neg h2] at hxy
        exact absurd (hxy ▸ hy) hnew
    · by_cases h2 : y = oldTagID
      · rw [if_neg h1, if_pos h2] at hxy
        exact absurd (hxy ▸ hx) hnew
      · rw [if_neg h1, if_neg h2] at hxy
        exact hxy
  · intro hold hnew
    rw [replaceTag_count doc.Tags oldTagID newTagID hne,
      List.count_eq_one_of_mem hnd hold, List.count_eq_one_of_mem hnd hnew]
  · intro t
    unfold replaceTag
    rw [List.mem_map]
    constructor
    · rintro ⟨a, ha, hat⟩
      by_cases h1 : a = oldTagID
      · rw [if_pos h1] at hat
        exact Or.inr ⟨hat.symm, h1 ▸ ha⟩
      · rw [if_neg h1] at hat
        exact Or.inl ⟨hat ▸ ha, hat ▸ h1⟩
    · rintro (⟨ht, hto⟩ | ⟨ht, ho⟩)
      · exact ⟨t, ht, if_neg hto⟩
      · exact ⟨oldTagID, ho, by rw [if_pos rfl, ht]⟩

/-- Instance at document 10 of the example service, whose tag list is `[5]`,
with the tag 5 replaced by the tag 7. -/
theorem tag_set_preserved_witness :
    ([5] : List Int).Nodup ∧ (5 : Int) ≠ 7 ∧ (7 : Int) ∉ ([5] : List Int) ∧
    ((exampleClient (.ok ⟨204, ""⟩) (.ok ⟨200, ""⟩) (.ok ⟨200, "P1"⟩)).UpdateDocumentTags
        10 5 7 () =
      (exampleClient (.ok ⟨204, ""⟩) (.ok ⟨200, ""⟩) (.ok ⟨200, "P1"⟩)).patch
        ("/api/documents/" ++ fmtInt 10 ++ "/")
        ("\x7b\"tags\": " ++
          (exampleClient (.ok ⟨204, ""⟩) (.ok ⟨200, ""⟩) (.ok ⟨200, "P1"⟩)).json.marshalInts
            (replaceTag [5] 5 7) ++ "\x7d")
        "errore nell'aggiornamento del documento" () ∧
    ((7 : Int) ∉ ([5] : List Int) → (replaceTag [5] 5 7).Nodup) ∧
    ((5 : Int) ∈ ([5] : List Int) → (7 : Int) ∈ ([5] : List Int) →
      (replaceTag [5] 5 7).count 7 = 2) ∧
    (∀ t, t ∈ replaceTag [5] 5 7 ↔
      (t ∈ ([5] : List Int) ∧ t ≠ 5) ∨ (t = 7 ∧ (5 : Int) ∈ ([5] : List Int)))) :=
  ⟨by decide, by decide, by decide,
    tag_set_preserved (exampleClient (.ok ⟨204, ""⟩) (.ok ⟨200, ""⟩) (.ok ⟨200, "P1"⟩))
      10 5 7 () () ⟨10, "a", none, none, [5]⟩ rfl (by decide) (by decide)⟩

/-- C28 fails as stated: on a document with the duplicate-free tag list
`[5, 7]`, `UpdateDocumentTags` with `oldTagID = 5` and `newTagID = 7` sends, after
the `GET` of the document, a `PATCH` with the body `{"tags": [7,7]}`, a list that
is not duplicate-free. -/
theorem tag_set_counterexample :
    recordingClient.getDocument 10 [] =
      (.ok ⟨10, "a", none, none, [5, 7]⟩,
        [⟨"GET", "http://h/api/documents/10/", none, "Token k", "application/json"⟩]) ∧
    ([5, 7] : List Int).Nodup ∧ (5 : Int) ≠ 7 ∧
    (recordingClient.UpdateDocumentTags 10 5 7 []).2 =
      [⟨"GET", "http://h/api/documents/10/", none, "Token k", "application/json"⟩,
        ⟨"PATCH", "http://h/api/documents/10/", some "\x7b\"tags\": [7,7]\x7d", "Token k",
          "application/json"⟩] ∧
    replaceTag [5, 7] 5 7 = [7, 7] ∧
    ¬ (replaceTag [5, 7] 5 7).Nodup := by
  refine ⟨by rfl, by decide, by decide, by decide, by decide, by decide⟩

/-! ### `levenshteinDistance` is the edit distance -/

section EditDistance

variable {α : Type} [DecidableEq α]

theorem editDistance_nil_left (ys : List α) : editDistance [] ys = ys.length := by
  rw [editDistance]

theorem editDistance_nil_right (xs : List α) : editDistance xs [] = xs.length := by
  cases xs with
  | nil => rw [editDistance]
  | cons x xs => rw [editDistance]

theorem editDistance_cons_cons (x y : α) (xs ys : List α) :
    editDistance (x :: xs) (y :: ys) =
      min (min (editDistance xs (y :: ys) + 1) (editDistance (x :: xs) ys + 1))
        (editDistance xs ys + (if x = y then 0 else 1)) := by
  rw [editDistance]

/-- The edit distance is symmetric. -/
theorem editDistance_comm (xs ys : List α) : editDistance xs ys = editDistance ys xs := by
  induction xs generalizing ys with
  | nil => rw [editDistance_nil_left, editDistance_nil_right]
  | cons x xs ihx =>
    induction ys with
    | nil => rw [editDistance_nil_left, editDistance_nil_right]
    | cons y ys ihy =>
      rw [editDistance_cons_cons, editDistance_cons_cons, ihx (y :: ys), ihy, ihx ys]
      have hc : (if x = y then 0 else 1 : Nat) = (if y = x then 0 else 1) := by
        by_cases h : x = y
        · rw [if_pos h, if_pos h.symm]
        · rw [if_neg h, if_neg (fun h1 => h h1.symm)]
      rw [hc]
      omega

/-- The edit distance is at most the length of the longer sequence. -/
theorem editDistance_le_max (xs ys : List α) :
    editDistance xs ys ≤ max xs.length ys.length := by
  induction xs generalizing ys with
  | nil => rw [editDistance_nil_left]; exact le_max_right _ _
  | cons x xs ihx =>
    cases ys with
    | nil => rw [editDistance_nil_right]; exact le_max_left _ _
    | cons y ys =>
      rw [editDistance_cons_cons]
      have h := ihx ys
      have hc : (if x = y then 0 else 1 : Nat) ≤ 1 := by split_ifs <;> omega
      simp only [List.length_cons]
      omega

/-- The reference definition is the Levenshtein distance of Mathlib with the
default costs. -/
theorem editDistance_eq_levenshtein (xs ys : List α) :
    editDistance xs ys = levenshtein Levenshtein.defaultCost xs ys := by
  induction xs generalizing ys with
  | nil =>
    rw [editDistance_nil_left]
    induction ys with
    | nil => simp
    | cons y ys ih =>
      rw [levenshtein_nil_cons, ← ih]
      simp [Levenshtein.defaultCost]
      omega
  | cons x xs ihx =>
    induction ys with
    | nil =>
      rw [editDistance_nil_right, levenshtein_cons_nil, ← ihx [], editDistance_nil_right]
      simp [Levenshtein.defaultCost]
      omega
    | cons y ys ihy =>
      rw [editDistance_cons_cons, levenshtein_cons_cons, ← ihx (y :: ys), ← ihy, ← ihx ys]
      simp only [Levenshtein.defaultCost]
      omega

/-- The recurrence of the dynamic programme, on the last elements: the edit
distance of two sequences extended by one element each. -/
theorem editDistance_snoc (xs ys : List α) (x y : α) :
    editDistance (xs ++ [x]) (ys ++ [y]) =
      min (min (editDistance xs (ys ++ [y]) + 1) (editDistance (xs ++ [x]) ys + 1))
        (editDistance xs ys + (if x = y then 0 else 1)) := by
  induction xs generalizing ys with
  | nil =>
    induction ys with
    | nil =>
      simp only [List.nil_append]
      rw [editDistance_cons_cons]
    | cons b ys ihy =>
      simp only [List.nil_append, List.cons_append] at ihy ⊢
      rw [editDistance_cons_cons, ihy, editDistance_cons_cons]
      simp only [editDistance_nil_left, editDistance_nil_right, List.length_cons,
        List.length_append, List.length_nil]
      omega
  | cons a xs ihx =>
    induction ys with
    | nil =>
      have h := ihx []
      simp only [List.nil_append, List.cons_append] at h ⊢
      rw [editDistance_cons_cons, h, editDistance_cons_cons]
      simp only [editDistance_nil_left, editDistance_nil_right, List.length_cons,
        List.length_append, List.length_nil]
      omega
    | cons b ys ihy =>
      have h1 := ihx (b :: ys)
      have h3 := ihx ys
      simp only [List.cons_append] at h1 h3 ihy ⊢
      rw [editDistance_cons_cons, h1, ihy, h3, editDistance_cons_cons a b xs (ys ++ [y]),
        editDistance_cons_cons a b (xs ++ [x]) ys, editDistance_cons_cons a b xs ys]
      generalize editDistance xs (b :: (ys ++ [y])) = e1
      generalize editDistance xs (b :: ys) = e2
      generalize editDistance (xs ++ [x]) (b :: ys) = e3
      generalize editDistance (a :: xs) (ys ++ [y]) = e4
      generalize editDistance (a :: (xs ++ [x])) ys = e5
      generalize editDistance (a :: xs) ys = e6
      generalize editDistance xs (ys ++ [y]) = e7
      generalize editDistance (xs ++ [x]) ys = e8
      generalize editDistance xs ys = e9
      generalize (if x = y then 0 else 1 : Nat) = cxy
      generalize (if a = b then 0 else 1 : Nat) = cab
      simp only [← min_add_add_right, min_assoc]
      simp only [add_assoc, add_comm, add_left_comm, min_comm, min_left_comm]

theorem min3_eq_min (a b c : Int) : min3 a b c = min (min a b) c := by
  unfold min3
  split_ifs <;> omega

theorem edRow_head_tail (p pre bs : List α) :
    edRow p pre bs = (editDistance p pre : Int) :: (edRow p pre bs).tail := by
  cases bs <;> rfl

theorem levRowFrom_cons (c b : α) (bs : List α) (diag up : Int) (above : List Int)
    (left : Int) :
    levRowFrom c (b :: bs) (diag :: up :: above) left =
      min3 (up + 1) (left + 1) (diag + (if c = b then 0 else 1)) ::
        levRowFrom c bs (up :: above)
          (min3 (up + 1) (left + 1) (diag + (if c = b then 0 else 1))) := by
  rw [levRowFrom]

/-- The cell that the inner loop writes is the edit distance of the two prefixes. -/
theorem cell_eq (p pre : List α) (c b : α) :
    min3 ((editDistance p (pre ++ [b]) : Int) + 1) ((editDistance (p ++ [c]) pre : Int) + 1)
        ((editDistance p pre : Int) + (if c = b then 0 else 1)) =
      (editDistance (p ++ [c]) (pre ++ [b]) : Int) := by
  rw [editDistance_snoc, min3_eq_min]
  by_cases h : c = b
  · simp only [h, if_true]
    push_cast
    rfl
  · simp only [h, if_false]
    push_cast
    rfl

/-- The inner loop turns the row of `p` into the row of `p ++ [c]`. -/
theorem levRowFrom_edRow (p : List α) (c : α) (bs pre : List α) :
    levRowFrom c bs (edRow p pre bs) (editDistance (p ++ [c]) pre : Int) =
      (edRow (p ++ [c]) pre bs).tail := by
  induction bs generalizing pre with
  | nil => rfl
  | cons b bs ih =>
    have h1 := edRow_head_tail p (pre ++ [b]) bs
    show levRowFrom c (b :: bs) ((editDistance p pre : Int) :: edRow p (pre ++ [b]) bs) _ =
      edRow (p ++ [c]) (pre ++ [b]) bs
    rw [h1, levRowFrom_cons, cell_eq, ← h1, ih (pre ++ [b])]
    exact (edRow_head_tail (p ++ [c]) (pre ++ [b]) bs).symm

theorem levRow_edRow (p : List α) (c : α) (s2 : List α) :
    levRow c s2 (edRow p [] s2) ((p.length : Int) + 1) = edRow (p ++ [c]) [] s2 := by
  have h0 : ((p.length : Int) + 1) = (editDistance (p ++ [c]) [] : Int) := by
    rw [editDistance_nil_right]
    simp
  unfold levRow
  rw [h0, levRowFrom_edRow]
  exact (edRow_head_tail (p ++ [c]) [] s2).symm

/-- The outer loop turns the row of `p` into the row of `p ++ cs`. -/
theorem levRows_edRow (s2 cs p : List α) :
    levRows s2 cs (edRow p [] s2) ((p.length : Int) + 1) = edRow (p ++ cs) [] s2 := by
  induction cs generalizing p with
  | nil => simp [levRows]
  | cons c cs ih =>
    show levRows s2 cs (levRow c s2 (edRow p [] s2) ((p.length : Int) + 1))
      ((p.length : Int) + 1 + 1) = _
    rw [levRow_edRow]
    have h := ih (p ++ [c])
    simp only [List.length_append, List.length_singleton, Nat.cast_add, Nat.cast_one,
      List.append_assoc, List.singleton_append] at h
    exact h

theorem edRow_nil (pre bs : List α) :
    edRow [] pre bs =
      (List.range (bs.length + 1)).map (fun j => ((pre.length + j : Nat) : Int)) := by
  induction bs generalizing pre with
  | nil => simp [edRow, editDistance_nil_left, List.range_succ]
  | cons b bs ih =>
    rw [edRow, ih, List.length_cons, List.range_succ_eq_map (bs.length + 1), List.map_cons,
      List.map_map, editDistance_nil_left]
    congr 1
    apply List.map_congr_left
    intro j _
    simp only [Function.comp, List.length_append, List.length_singleton]
    congr 1
    omega

theorem levRow0_eq (s2 : List α) : levRow0 s2.length = edRow [] [] s2 := by
  rw [edRow_nil]
  unfold levRow0
  generalize List.range (s2.length + 1) = l
  induction l with
  | nil => rfl
  | cons a l ih =>
    simp only [List.map_cons, List.length_nil, zero_add] at ih ⊢
    rw [← ih]
    rfl

theorem getLastD_edRow (p bs pre : List α) (d : Int) :
    (edRow p pre bs).getLastD d = (editDistance p (pre ++ bs) : Int) := by
  induction bs generalizing pre d with
  | nil => simp [edRow]
  | cons b bs ih =>
    rw [edRow, List.getLastD_cons, ih]
    simp

/-- The dynamic programme computes the edit distance. -/
theorem levMatrix_eq (s1 s2 : List α) : levMatrix s1 s2 = (editDistance s1 s2 : Int) := by
  unfold levMatrix
  split_ifs with h1 h2
  · rw [List.length_eq_zero.1 h1, editDistance_nil_left]
  · rw [List.length_eq_zero.1 h2, editDistance_nil_right]
  · rw [levRow0_eq]
    have h := levRows_edRow s2 s1 []
    simp only [List.length_nil, Nat.cast_zero, zero_add, List.nil_append] at h
    rw [h, getLastD_edRow]
    simp

end EditDistance

theorem levenshteinDistance_eq (u : Unicode) (s1 s2 : String) :
    levenshteinDistance u s1 s2 =
      (editDistance (goBytes (u.ToLower s1)) (goBytes (u.ToLower s2)) : Int) := by
  unfold levenshteinDistance
  rw [levMatrix_eq]

/-- C23. `levenshteinDistance(s1, s2)` is the edit distance of the lower-cased
strings, taken as sequences of bytes: the standard recursive definition with
unit costs, which is also the Levenshtein distance of Mathlib with the default
costs. -/
theorem levenshteinDistance_spec (u : Unicode) (s1 s2 : String) :
    levenshteinDistance u s1 s2 =
      (editDistance (goBytes (u.ToLower s1)) (goBytes (u.ToLower s2)) : Int) ∧
    levenshteinDistance u s1 s2 =
      ((levenshtein Levenshtein.defaultCost (goBytes (u.ToLower s1))
        (goBytes (u.ToLower s2)) : Nat) : Int) := by
  unfold levenshteinDistance
  rw [levMatrix_eq, editDistance_eq_levenshtein]
  exact ⟨rfl, rfl⟩

/-! ### Symmetry of `CalculateSimilarity` -/

theorem levenshteinDistance_comm (u : Unicode) (a b : String) :
    levenshteinDistance u a b = levenshteinDistance u b a := by
  unfold levenshteinDistance
  rw [levMatrix_eq, levMatrix_eq, editDistance_comm]

/-- C22. Similarity is symmetric: `CalculateSimilarity(a, b)` and
`CalculateSimilarity(b, a)` are the same `float64`, for all strings `a` and
`b`. -/
theorem similarity_symmetric (u : Unicode) (a b : String) :
    CalculateSimilarity u a b = CalculateSimilarity u b a := by
  by_cases h : normalizeString u a = normalizeString u b
  · rw [calculateSimilarity_of_eq u a b h, calculateSimilarity_of_eq u b a h.symm]
  · rw [calculateSimilarity_of_ne u a b h,
      calculateSimilarity_of_ne u b a (fun h1 => h h1.symm),
      levenshteinDistance_comm, max_comm]

/-! ### Rounding to `float64` -/

theorem pow2_eq (k : Int) : pow2 k = (2 : ℚ) ^ k := by
  unfold pow2
  split_ifs with h
  · obtain ⟨n, rfl⟩ := Int.eq_ofNat_of_zero_le h
    simp
  · obtain ⟨n, rfl⟩ := Int.exists_eq_neg_ofNat (le_of_lt (not_le.1 h))
    simp

theorem pow2_pos (k : Int) : 0 < pow2 k := by
  rw [pow2_eq]
  exact zpow_pos (by norm_num) k

theorem bitLengthAux_zero (fuel : Nat) : bitLengthAux fuel 0 = 0 := by
  cases fuel <;> simp [bitLengthAux]

theorem bitLengthAux_spec (fuel : Nat) :
    ∀ n : Nat, n ≤ fuel → 0 < n →
      ∃ b : Nat, bitLengthAux fuel n = b + 1 ∧ 2 ^ b ≤ n ∧ n < 2 ^ (b + 1) := by
  induction fuel with
  | zero => intro n h1 h2; omega
  | succ fuel ih =>
    intro n h1 h2
    have hn : n ≠ 0 := by omega
    rw [bitLengthAux, if_neg hn]
    by_cases h0 : n / 2 = 0
    · rw [h0, bitLengthAux_zero]
      refine ⟨0, rfl, ?_, ?_⟩ <;> omega
    · obtain ⟨b, hb, hlo, hhi⟩ := ih (n / 2) (by omega) (by omega)
      refine ⟨b + 1, by rw [hb], ?_, ?_⟩
      · rw [pow_succ]; omega
      · rw [pow_succ]; omega

theorem bitLength_spec (n : Nat) (hn : 0 < n) :
    ∃ b : Nat, bitLength n = b + 1 ∧ 2 ^ b ≤ n ∧ n < 2 ^ (b + 1) :=
  bitLengthAux_spec n n (le_refl n) hn

/-- The binary exponent is the exponent: `2 ^ e ≤ |x| < 2 ^ (e + 1)`. -/
theorem binaryExponent_spec (x : ℚ) (hx : x ≠ 0) :
    (2 : ℚ) ^ binaryExponent x ≤ |x| ∧ |x| < (2 : ℚ) ^ (binaryExponent x + 1) := by
  have hnum : 0 < x.num.natAbs := Int.natAbs_pos.2 (Rat.num_ne_zero.2 hx)
  have hden : 0 < x.den := x.den_pos
  obtain ⟨a, ha, halo, hahi⟩ := bitLength_spec _ hnum
  obtain ⟨b, hb, hblo, hbhi⟩ := bitLength_spec _ hden
  have habs : |x| = (x.num.natAbs : ℚ) / (x.den : ℚ) := by
    rw [Rat.abs_def, Rat.divInt_eq_div]
    simp only [Int.cast_natCast]
  have hD : (0 : ℚ) < (x.den : ℚ) := by exact_mod_cast hden
  have halo' : (2 : ℚ) ^ a ≤ (x.num.natAbs : ℚ) := by exact_mod_cast halo
  have hahi' : (x.num.natAbs : ℚ) < (2 : ℚ) ^ (a + 1) := by exact_mod_cast hahi
  have hblo' : (2 : ℚ) ^ b ≤ (x.den : ℚ) := by exact_mod_cast hblo
  have hbhi' : (x.den : ℚ) < (2 : ℚ) ^ (b + 1) := by exact_mod_cast hbhi
  have h2 : (2 : ℚ) ≠ 0 := by norm_num
  have hk : ((bitLength x.num.natAbs : Int) - (bitLength x.den : Int)) = (a : Int) - b := by
    rw [ha, hb]; push_cast; ring
  have hup : |x| < (2 : ℚ) ^ ((a : Int) - b + 1) := by
    rw [habs, div_lt_iff₀ hD]
    have e : (2 : ℚ) ^ ((a : Int) - b + 1) * (2 : ℚ) ^ b = (2 : ℚ) ^ (a + 1) := by
      rw [← zpow_natCast, ← zpow_natCast, ← zpow_add₀ h2]
      congr 1
      push_cast
      ring
    calc (x.num.natAbs : ℚ) < (2 : ℚ) ^ (a + 1) := hahi'
      _ = (2 : ℚ) ^ ((a : Int) - b + 1) * (2 : ℚ) ^ b := e.symm
      _ ≤ (2 : ℚ) ^ ((a : Int) - b + 1) * (x.den : ℚ) :=
        mul_le_mul_of_nonneg_left hblo' (le_of_lt (zpow_pos (by norm_num) _))
  have hlo : (2 : ℚ) ^ ((a : Int) - b - 1) < |x| := by
    rw [habs, lt_div_iff₀ hD]
    have e : (2 : ℚ) ^ ((a : Int) - b - 1) * (2 : ℚ) ^ (b + 1) = (2 : ℚ) ^ a := by
      rw [← zpow_natCast, ← zpow_natCast, ← zpow_add₀ h2]
      congr 1
      push_cast
      ring
    calc (2 : ℚ) ^ ((a : Int) - b - 1) * (x.den : ℚ)
        < (2 : ℚ) ^ ((a : Int) - b - 1) * (2 : ℚ) ^ (b + 1) :=
          mul_lt_mul_of_pos_left hbhi' (zpow_pos (by norm_num) _)
      _ = (2 : ℚ) ^ a := e
      _ ≤ (x.num.natAbs : ℚ) := halo'
  unfold binaryExponent
  simp only [hk, pow2_eq]
  split_ifs with h
  · exact ⟨h, hup⟩
  · refine ⟨le_of_lt hlo, ?_⟩
    rw [sub_add_cancel]
    exact not_le.1 h

theorem roundHalfEven_dist (x : ℚ) :
    (roundHalfEven x : ℚ) - x ≤ 1 / 2 ∧ x - (roundHalfEven x : ℚ) ≤ 1 / 2 := by
  have h1 := Int.floor_le x
  have h2 := Int.lt_floor_add_one x
  unfold roundHalfEven
  simp only
  split_ifs with c1 c2 c3
  · constructor <;> linarith
  · push_cast; constructor <;> linarith
  · have c4 := not_lt.1 c1
    have c5 := not_lt.1 c2
    constructor <;> linarith
  · have c4 := not_lt.1 c1
    have c5 := not_lt.1 c2
    push_cast; constructor <;> linarith

theorem roundHalfEven_intCast (n : Int) : roundHalfEven (n : ℚ) = n := by
  unfold roundHalfEven
  simp

theorem roundHalfEven_mono (x y : ℚ) (h : x ≤ y) : roundHalfEven x ≤ roundHalfEven y := by
  by_contra hc
  have hc1 : roundHalfEven y + 1 ≤ roundHalfEven x := by omega
  have hc2 : (roundHalfEven y : ℚ) + 1 ≤ (roundHalfEven x : ℚ) := by exact_mod_cast hc1
  have hx := (roundHalfEven_dist x).1
  have hy := (roundHalfEven_dist y).2
  have hxy : x = y := le_antisymm h (by linarith)
  rw [hxy] at hc
  exact hc (le_refl _)

theorem round64_zero : round64 0 = 0 := by
  simp [round64]

theorem round64_one : round64 1 = 1 := by decide!

theorem round64_nonneg (x : ℚ) (hx : 0 ≤ x) : 0 ≤ round64 x := by
  unfold round64
  split_ifs with h0
  · exact le_refl _
  · simp only
    have hq := pow2_pos (binaryExponent x - 52)
    have h1 : roundHalfEven 0 ≤ roundHalfEven (x / pow2 (binaryExponent x - 52)) :=
      roundHalfEven_mono _ _ (div_nonneg hx (le_of_lt hq))
    have h2 : roundHalfEven (0 : ℚ) = 0 := by
      have := roundHalfEven_intCast 0
      simpa using this
    rw [h2] at h1
    exact mul_nonneg (by exact_mod_cast h1) (le_of_lt hq)

/-- A positive number and its rounding lie in the same binade. -/
theorem round64_bounds (x : ℚ) (hx : 0 < x) :
    (2 : ℚ) ^ binaryExponent x ≤ round64 x ∧ round64 x ≤ (2 : ℚ) ^ (binaryExponent x + 1) := by
  have hspec := binaryExponent_spec x (ne_of_gt hx)
  rw [abs_of_pos hx] at hspec
  have h2 : (2 : ℚ) ≠ 0 := by norm_num
  have hq : (0 : ℚ) < (2 : ℚ) ^ (binaryExponent x - 52) := zpow_pos (by norm_num) _
  have e52 : ((2 ^ 52 : Int) : ℚ) * (2 : ℚ) ^ (binaryExponent x - 52) =
      (2 : ℚ) ^ binaryExponent x := by
    rw [show ((2 ^ 52 : Int) : ℚ) = (2 : ℚ) ^ (52 : Int) by norm_num, ← zpow_add₀ h2]
    congr 1
    ring
  have e53 : ((2 ^ 53 : Int) : ℚ) * (2 : ℚ) ^ (binaryExponent x - 52) =
      (2 : ℚ) ^ (binaryExponent x + 1) := by
    rw [show ((2 ^ 53 : Int) : ℚ) = (2 : ℚ) ^ (53 : Int) by norm_num, ← zpow_add₀ h2]
    congr 1
    ring
  have hlo : ((2 ^ 52 : Int) : ℚ) ≤ x / (2 : ℚ) ^ (binaryExponent x - 52) := by
    rw [le_div_iff₀ hq, e52]
    exact hspec.1
  have hhi : x / (2 : ℚ) ^ (binaryExponent x - 52) ≤ ((2 ^ 53 : Int) : ℚ) := by
    rw [div_le_iff₀ hq, e53]
    exact le_of_lt hspec.2
  have r1 := roundHalfEven_mono _ _ hlo
  have r2 := roundHalfEven_mono _ _ hhi
  rw [roundHalfEven_intCast] at r1 r2
  have r1' : ((2 ^ 52 : Int) : ℚ) ≤ (roundHalfEven (x / (2 : ℚ) ^ (binaryExponent x - 52)) : ℚ) := by
    exact_mod_cast r1
  have r2' : (roundHalfEven (x / (2 : ℚ) ^ (binaryExponent x - 52)) : ℚ) ≤ ((2 ^ 53 : Int) : ℚ) := by
    exact_mod_cast r2
  unfold round64
  rw [if_neg (ne_of_gt hx)]
  simp only [pow2_eq]
  constructor
  · rw [← e52]
    exact mul_le_mul_of_nonneg_right r1' (le_of_lt hq)
  · rw [← e53]
    exact mul_le_mul_of_nonneg_right r2' (le_of_lt hq)

/-- Rounding to `float64` is monotone on the non-negative numbers. -/
theorem round64_mono (x y : ℚ) (hx : 0 ≤ x) (hxy : x ≤ y) : round64 x ≤ round64 y := by
  rcases eq_or_lt_of_le hx with h0 | hpos
  · rw [← h0, round64_zero]
    exact round64_nonneg y (le_trans hx hxy)
  · have hy : 0 < y := lt_of_lt_of_le hpos hxy
    have sx := binaryExponent_spec x (ne_of_gt hpos)
    have sy := binaryExponent_spec y (ne_of_gt hy)
    rw [abs_of_pos hpos] at sx
    rw [abs_of_pos hy] at sy
    have hlt : binaryExponent x < binaryExponent y + 1 :=
      (zpow_lt_zpow_iff_right₀ (by norm_num : (1 : ℚ) < 2)).1
        (lt_of_le_of_lt sx.1 (lt_of_le_of_lt hxy sy.2))
    rcases eq_or_lt_of_le (Int.lt_add_one_iff.1 hlt) with he | he
    · unfold round64
      rw [if_neg (ne_of_gt hpos), if_neg (ne_of_gt hy)]
      simp only [he]
      have hq := pow2_pos (binaryExponent y - 52)
      have := roundHalfEven_mono _ _ (div_le_div_of_nonneg_right hxy (le_of_lt hq))
      exact mul_le_mul_of_nonneg_right (by exact_mod_cast this) (le_of_lt hq)
    · calc round64 x ≤ (2 : ℚ) ^ (binaryExponent x + 1) := (round64_bounds x hpos).2
        _ ≤ (2 : ℚ) ^ binaryExponent y :=
          zpow_le_zpow_right₀ (by norm_num) (by omega)
        _ ≤ round64 y := (round64_bounds y hy).1

/-- Rounding keeps the unit interval. -/
theorem round64_unit (x : ℚ) (h0 : 0 ≤ x) (h1 : x ≤ 1) : 0 ≤ round64 x ∧ round64 x ≤ 1 :=
  ⟨round64_nonneg x h0, by
    have := round64_mono x 1 h0 h1
    rwa [round64_one] at this⟩

/-! ### The range of `CalculateSimilarity` -/

/-- A normalized string is already lower-cased, when `ToLower` maps the
characters one by one with a function that fixes its own values (as
`unicode.ToLower` does). -/
theorem toLower_normalizeString (u : Unicode) (f : Char → Char)
    (hmap : ∀ s, u.ToLower s = String.mk (s.data.map f)) (hidem : ∀ c, f (f c) = f c)
    (s : String) : u.ToLower (normalizeString u s) = normalizeString u s := by
  rw [hmap (normalizeString u s)]
  unfold normalizeString
  rw [hmap (u.TrimSpace s)]
  congr 1
  have hfix : ∀ x ∈ List.filter (fun r => u.IsLetter r || u.IsDigit r || u.IsSpace r)
      (List.map f (u.TrimSpace s).data), f x = x := by
    intro x hx
    obtain ⟨y, _, hy⟩ := List.mem_map.1 (List.mem_filter.1 hx).1
    rw [← hy, hidem]
  exact (List.map_congr_left hfix).trans (List.map_id _)

theorem levenshteinDistance_nonneg (u : Unicode) (a b : String) :
    0 ≤ levenshteinDistance u a b := by
  rw [levenshteinDistance_eq u a b]
  exact Int.natCast_nonneg _

theorem levenshteinDistance_le (u : Unicode) (a b : String) :
    levenshteinDistance u a b ≤ max (goLen (u.ToLower a)) (goLen (u.ToLower b)) := by
  rw [levenshteinDistance_eq u a b]
  unfold goLen
  have h := editDistance_le_max (goBytes (u.ToLower a)) (goBytes (u.ToLower b))
  exact_mod_cast h

theorem toLower_toLower (c : Char) : Char.toLower (Char.toLower c) = Char.toLower c := by
  have hof : ∀ m : Nat, m < 55296 → (Char.ofNat m).toNat = m := by
    intro m h
    unfold Char.ofNat
    rw [dif_pos (Or.inl h)]
    rfl
  unfold Char.toLower
  by_cases h : c.toNat ≥ 65 ∧ c.toNat ≤ 90
  · simp only [h, and_self, if_true]
    rw [hof _ (by omega), if_neg (by omega)]
  · simp only [h, if_false]

/-- C26. `CalculateSimilarity(s1, s2)` lies in the closed interval `[0, 1]`:
the edit distance of the normalized names is at least 0 and at most the longer
of their byte lengths, and the result is a finite `float64` between 0 and 1.
`ToLower` is taken to map the characters one by one with a function that fixes
its own values, as `strings.ToLower` does with `unicode.ToLower`. -/
theorem similarity_range (u : Unicode) (f : Char → Char)
    (hmap : ∀ s, u.ToLower s = String.mk (s.data.map f)) (hidem : ∀ c, f (f c) = f c)
    (s1 s2 : String) :
    (0 ≤ levenshteinDistance u (normalizeString u s1) (normalizeString u s2) ∧
      levenshteinDistance u (normalizeString u s1) (normalizeString u s2) ≤
        max (goLen (normalizeString u s1)) (goLen (normalizeString u s2))) ∧
    (∃ q : ℚ, CalculateSimilarity u s1 s2 = .fin q ∧ 0 ≤ q ∧ q ≤ 1) ∧
    (CalculateSimilarity u s1 s2).ge (.fin 0) = true ∧
    (Float64.fin 1).ge (CalculateSimilarity u s1 s2) = true := by
  have hd0 := levenshteinDistance_nonneg u (normalizeString u s1) (normalizeString u s2)
  have hdm : levenshteinDistance u (normalizeString u s1) (normalizeString u s2) ≤
      max (goLen (normalizeString u s1)) (goLen (normalizeString u s2)) := by
    have h := levenshteinDistance_le u (normalizeString u s1) (normalizeString u s2)
    rwa [toLower_normalizeString u f hmap hidem s1,
      toLower_normalizeString u f hmap hidem s2] at h
  have hq : ∃ q : ℚ, CalculateSimilarity u s1 s2 = .fin q ∧ 0 ≤ q ∧ q ≤ 1 := by
    by_cases h : normalizeString u s1 = normalizeString u s2
    · exact ⟨1, calculateSimilarity_of_eq u s1 s2 h, by norm_num, le_refl _⟩
    · refine ⟨_, calculateSimilarity_of_ne u s1 s2 h, ?_⟩
      have hm := maxLen_pos _ _ h
      generalize levenshteinDistance u (normalizeString u s1) (normalizeString u s2) = d
        at hd0 hdm
      generalize max (goLen (normalizeString u s1)) (goLen (normalizeString u s2)) = m
        at hdm hm
      have hd0' : (0 : ℚ) ≤ (d : ℚ) := by exact_mod_cast hd0
      have hdm' : (d : ℚ) ≤ (m : ℚ) := by exact_mod_cast hdm
      have hm1 : (1 : ℚ) ≤ (m : ℚ) := by exact_mod_cast (Int.add_one_le_iff.2 hm)
      have rd0 : 0 ≤ Float64.ofInt d := round64_nonneg _ hd0'
      have rdm : Float64.ofInt d ≤ Float64.ofInt m := round64_mono _ _ hd0' hdm'
      have rm1 : 1 ≤ Float64.ofInt m := by
        have := round64_mono 1 (m : ℚ) (by norm_num) hm1
        rwa [round64_one] at this
      have rmpos : 0 < Float64.ofInt m := lt_of_lt_of_le (by norm_num) rm1
      have hr := round64_unit (Float64.ofInt d / Float64.ofInt m)
        (div_nonneg rd0 (le_of_lt rmpos)) ((div_le_one rmpos).2 rdm)
      exact round64_unit _ (by linarith [hr.2]) (by linarith [hr.1])
  refine ⟨⟨hd0, hdm⟩, hq, ?_, ?_⟩
  · obtain ⟨q, e, h0, _⟩ := hq
    rw [e]
    simpa [Float64.ge] using h0
  · obtain ⟨q, e, _, h1⟩ := hq
    rw [e]
    simpa [Float64.ge] using h1

/-- Instance at the ASCII library and the names `"Amazon"` and `"Ebay"`. -/
theorem similarity_range_witness :
    (∀ s, asciiUnicode.ToLower s = String.mk (s.data.map Char.toLower)) ∧
    (∀ c, Char.toLower (Char.toLower c) = Char.toLower c) ∧
    ((0 ≤ levenshteinDistance asciiUnicode (normalizeString asciiUnicode "Amazon")
          (normalizeString asciiUnicode "Ebay") ∧
      levenshteinDistance asciiUnicode (normalizeString asciiUnicode "Amazon")
          (normalizeString asciiUnicode "Ebay") ≤
        max (goLen (normalizeString asciiUnicode "Amazon"))
          (goLen (normalizeString asciiUnicode "Ebay"))) ∧
    (∃ q : ℚ, CalculateSimilarity asciiUnicode "Amazon" "Ebay" = .fin q ∧ 0 ≤ q ∧ q ≤ 1) ∧
    (CalculateSimilarity asciiUnicode "Amazon" "Ebay").ge (.fin 0) = true ∧
    (Float64.fin 1).ge (CalculateSimilarity asciiUnicode "Amazon" "Ebay") = true) :=
  ⟨fun _ => rfl, toLower_toLower,
    similarity_range asciiUnicode Char.toLower (fun _ => rfl) toLower_toLower "Amazon" "Ebay"⟩

/-! ### The cursor after a reload -/

/-- C29 fails on the code. In semi-automatic mode on a service with the tags
Amazon, Amaz0n, Ebay, Ebxy the list opens with two groups; the user moves to the
second group (`down`), opens it (`enter`), accepts the name `"Ebay"` (`enter`) and
starts the merge (`enter`). The merge succeeds, `Update` asks for the reload, and
the reload brings one group while `cursor` is still 1: the model is in browse
mode, neither merging nor loading, with `groups` non-empty and
`cursor = len(groups)`. The next `enter` makes `updateBrowseMode` evaluate
`m.groups[m.cursor]`, which panics. -/
theorem cursor_out_of_range_after_reload :
    (pressAll asciiUnicode plainInput
        (openList asciiUnicode plainInput (shrinkingClient 4) ⟨id⟩ .EntityTags
          .ModeSemiAutomatic false)
        ["down", "enter", "enter", "enter"]).map
      (fun st => (st.1.mode, st.1.groups, st.1.cursor)) =
      some ("browse", [⟨"Amazon", [⟨1, "Amazon"⟩, ⟨2, "Amaz0n"⟩]⟩], 1) ∧
    (pressAll asciiUnicode plainInput
        (openList asciiUnicode plainInput (shrinkingClient 4) ⟨id⟩ .EntityTags
          .ModeSemiAutomatic false)
        ["down", "enter", "enter", "enter"]).map
      (fun st => (st.1.merging, st.1.loading, st.1.err.isNone, st.2)) =
      some (false, false, true, true) ∧
    ((pressAll asciiUnicode plainInput
        (openList asciiUnicode plainInput (shrinkingClient 4) ⟨id⟩ .EntityTags
          .ModeSemiAutomatic false)
        ["down", "enter", "enter", "enter"]).bind
      (fun st => st.1.Update asciiUnicode plainInput (.KeyMsg "enter"))).isNone = true := by
  refine ⟨?_, ?_, ?_⟩
  · decide!
  · decide!
  · decide!

/-- The same defect in manual mode: with the cursor on the last of the four
items and the items Ebay and Ebxy merged under the name `"Ebxy"`, the reload
brings three items while `cursor` is still 3; after `tab` has moved the focus to
the list, the space key makes `updateManualMode` evaluate
`m.filteredItems[m.cursor]`, which panics. -/
theorem cursor_out_of_range_after_reload_manual :
    (pressAll asciiUnicode plainInput
        (openList asciiUnicode plainInput (shrinkingClient 3) ⟨id⟩ .EntityTags .ModeManual
          false)
        ["tab", "down", "down", " ", "down", " ", "enter", "enter", "tab"]).map
      (fun st => (st.1.mode, st.1.filteredItems, st.1.cursor, st.1.searchFocus)) =
      some ("manual", [⟨1, "Amazon"⟩, ⟨2, "Amaz0n"⟩, ⟨4, "Ebxy"⟩], 3, false) ∧
    (pressAll asciiUnicode plainInput
        (openList asciiUnicode plainInput (shrinkingClient 3) ⟨id⟩ .EntityTags .ModeManual
          false)
        ["tab", "down", "down", " ", "down", " ", "enter", "enter", "tab"]).map
      (fun st => (st.1.merging, st.1.loading, st.1.err.isNone, st.2)) =
      some (false, false, true, true) ∧
    ((pressAll asciiUnicode plainInput
        (openList asciiUnicode plainInput (shrinkingClient 3) ⟨id⟩ .EntityTags .ModeManual
          false)
        ["tab", "down", "down", " ", "down", " ", "enter", "enter", "tab"]).bind
      (fun st => st.1.Update asciiUnicode plainInput (.KeyMsg " "))).isNone = true := by
  refine ⟨?_, ?_, ?_⟩
  · decide!
  · decide!
  · decide!

/-! ### The rounding error of `CalculateSimilarity` -/

/-- The rounding error is at most half a unit in the last place. -/
theorem round64_error (x : ℚ) (hx : 0 < x) :
    |round64 x - x| ≤ (2 : ℚ) ^ (binaryExponent x - 53) := by
  have h2 : (2 : ℚ) ≠ 0 := by norm_num
  have hq : (0 : ℚ) < (2 : ℚ) ^ (binaryExponent x - 52) := zpow_pos (by norm_num) _
  have hd := roundHalfEven_dist (x / (2 : ℚ) ^ (binaryExponent x - 52))
  have e1 : (2 : ℚ) ^ (binaryExponent x - 53) = (2 : ℚ) ^ (binaryExponent x - 52) / 2 := by
    rw [show binaryExponent x - 53 = (binaryExponent x - 52) - 1 by ring, zpow_sub₀ h2,
      zpow_one]
  have ex : x = x / (2 : ℚ) ^ (binaryExponent x - 52) * (2 : ℚ) ^ (binaryExponent x - 52) := by
    field_simp
  unfold round64
  rw [if_neg (ne_of_gt hx)]
  simp only [pow2_eq]
  rw [e1, abs_le]
  generalize (roundHalfEven (x / (2 : ℚ) ^ (binaryExponent x - 52)) : ℚ) = r at hd
  generalize x / (2 : ℚ) ^ (binaryExponent x - 52) = y at hd ex
  generalize (2 : ℚ) ^ (binaryExponent x - 52) = q at hq ex
  constructor
  · rw [ex]
    nlinarith [hd.1, hd.2]
  · rw [ex]
    nlinarith [hd.1, hd.2]

theorem round64_error_unit (x : ℚ) (h0 : 0 ≤ x) (h1 : x ≤ 1) :
    |round64 x - x| ≤ (2 : ℚ) ^ (-53 : Int) := by
  rcases eq_or_lt_of_le h0 with h | hpos
  · rw [← h, round64_zero]
    simp
    positivity
  · have hs := binaryExponent_spec x (ne_of_gt hpos)
    rw [abs_of_pos hpos] at hs
    have he : binaryExponent x ≤ 0 := by
      have : (2 : ℚ) ^ binaryExponent x ≤ (2 : ℚ) ^ (0 : Int) := by
        rw [zpow_zero]
        exact le_trans hs.1 h1
      exact (zpow_le_zpow_iff_right₀ (by norm_num : (1 : ℚ) < 2)).1 this
    exact le_trans (round64_error x hpos)
      (zpow_le_zpow_right₀ (by norm_num) (by omega))

/-- The conversion `float64(n)` is exact for `0 ≤ n < 2 ^ 53`. -/
theorem ofInt_exact (n : Int) (h0 : 0 ≤ n) (h : n < 2 ^ 53) : Float64.ofInt n = (n : ℚ) := by
  unfold Float64.ofInt
  rcases eq_or_lt_of_le h0 with hz | hpos
  · rw [← hz]
    simp [round64_zero]
  · have hx : (0 : ℚ) < (n : ℚ) := by exact_mod_cast hpos
    have h2 : (2 : ℚ) ≠ 0 := by norm_num
    have hs := binaryExponent_spec (n : ℚ) (ne_of_gt hx)
    rw [abs_of_pos hx] at hs
    have hn53 : (n : ℚ) < (2 : ℚ) ^ (53 : Int) := by
      have : (n : ℚ) < ((2 ^ 53 : Int) : ℚ) := by exact_mod_cast h
      rw [show ((2 ^ 53 : Int) : ℚ) = (2 : ℚ) ^ (53 : Int) by norm_num] at this
      exact this
    have he : binaryExponent (n : ℚ) < 53 :=
      (zpow_lt_zpow_iff_right₀ (by norm_num : (1 : ℚ) < 2)).1 (lt_of_le_of_lt hs.1 hn53)
    obtain ⟨k, hk⟩ : ∃ k : Nat, (52 : Int) - binaryExponent (n : ℚ) = k :=
      ⟨(52 - binaryExponent (n : ℚ)).toNat, (Int.toNat_of_nonneg (by omega)).symm⟩
    have hq : (2 : ℚ) ^ (binaryExponent (n : ℚ) - 52) = ((2 : ℚ) ^ k)⁻¹ := by
      rw [show binaryExponent (n : ℚ) - 52 = -((k : Int)) by omega, zpow_neg, zpow_natCast]
    have hdiv : (n : ℚ) / (2 : ℚ) ^ (binaryExponent (n : ℚ) - 52) = ((n * 2 ^ k : Int) : ℚ) := by
      rw [hq]
      push_cast
      field_simp
    unfold round64
    rw [if_neg (ne_of_gt hx)]
    simp only [pow2_eq]
    rw [hdiv, roundHalfEven_intCast, hq]
    push_cast
    field_simp

/-- On names whose longer normalized form is shorter than `2 ^ 53` bytes, the
`float64` that `CalculateSimilarity` returns differs from the exact value of
`1 - levenshteinDistance(a, b) / max(len(a), len(b))` by at most `2 ^ -52`;
`ToLower` is taken to map the characters one by one with a function that fixes
its own values. -/
theorem similarity_exact_error (u : Unicode) (f : Char → Char)
    (hmap : ∀ s, u.ToLower s = String.mk (s.data.map f)) (hidem : ∀ c, f (f c) = f c)
    (s1 s2 : String) (hne : normalizeString u s1 ≠ normalizeString u s2)
    (hlen : max (goLen (normalizeString u s1)) (goLen (normalizeString u s2)) < 2 ^ 53) :
    ∃ q : ℚ, CalculateSimilarity u s1 s2 = .fin q ∧
      |q - (1 - (levenshteinDistance u (normalizeString u s1) (normalizeString u s2) : ℚ) /
          (max (goLen (normalizeString u s1)) (goLen (normalizeString u s2)) : Int))| ≤
        (2 : ℚ) ^ (-52 : Int) := by
  refine ⟨_, calculateSimilarity_of_ne u s1 s2 hne, ?_⟩
  have hd0 := levenshteinDistance_nonneg u (normalizeString u s1) (normalizeString u s2)
  have hdm : levenshteinDistance u (normalizeString u s1) (normalizeString u s2) ≤
      max (goLen (normalizeString u s1)) (goLen (normalizeString u s2)) := by
    have h := levenshteinDistance_le u (normalizeString u s1) (normalizeString u s2)
    rwa [toLower_normalizeString u f hmap hidem s1,
      toLower_normalizeString u f hmap hidem s2] at h
  have hm := maxLen_pos _ _ hne
  generalize levenshteinDistance u (normalizeString u s1) (normalizeString u s2) = d
    at hd0 hdm ⊢
  generalize max (goLen (normalizeString u s1)) (goLen (normalizeString u s2)) = m
    at hdm hm hlen ⊢
  rw [ofInt_exact d hd0 (lt_of_le_of_lt hdm hlen), ofInt_exact m (le_of_lt hm) hlen]
  have hd0' : (0 : ℚ) ≤ (d : ℚ) := by exact_mod_cast hd0
  have hdm' : (d : ℚ) ≤ (m : ℚ) := by exact_mod_cast hdm
  have hm' : (0 : ℚ) < (m : ℚ) := by exact_mod_cast hm
  have ht0 : 0 ≤ (d : ℚ) / (m : ℚ) := div_nonneg hd0' (le_of_lt hm')
  have ht1 : (d : ℚ) / (m : ℚ) ≤ 1 := (div_le_one hm').2 hdm'
  have hr := round64_unit _ ht0 ht1
  have e1 := abs_le.1 (round64_error_unit _ ht0 ht1)
  have e2 := abs_le.1 (round64_error_unit (1 - round64 ((d : ℚ) / (m : ℚ)))
    (by linarith [hr.2]) (by linarith [hr.1]))
  have h52 : (2 : ℚ) ^ (-52 : Int) = 2 * (2 : ℚ) ^ (-53 : Int) := by
    rw [show (-52 : Int) = 1 + (-53) by norm_num, zpow_add₀ (by norm_num : (2 : ℚ) ≠ 0),
      zpow_one]
  rw [h52, abs_le]
  constructor <;> linarith [e1.1, e1.2, e2.1, e2.2]

/-- Instance at the ASCII library and the names `"Amazon"` and `"Amaz0n"`, whose
similarity is the `float64` nearest to `5/6`. -/
theorem similarity_exact_error_witness :
    CalculateSimilarity asciiUnicode "Amazon" "Amaz0n" =
      .fin (7505999378950827 / 9007199254740992) ∧
    ∃ q : ℚ, CalculateSimilarity asciiUnicode "Amazon" "Amaz0n" = .fin q ∧
      |q - (1 - (levenshteinDistance asciiUnicode (normalizeString asciiUnicode "Amazon")
            (normalizeString asciiUnicode "Amaz0n") : ℚ) /
          (max (goLen (normalizeString asciiUnicode "Amazon"))
            (goLen (normalizeString asciiUnicode "Amaz0n")) : Int))| ≤
        (2 : ℚ) ^ (-52 : Int) :=
  ⟨by decide!,
    similarity_exact_error asciiUnicode Char.toLower (fun _ => rfl) toLower_toLower
      "Amazon" "Amaz0n" (by decide) (by decide!)⟩

/-! ### The records of a run are the answers of the service -/

theorem performAll_append (c : Client σ) (a b : List Call) (s : σ) :
    performAll c (a ++ b) s =
      ((performAll c a s).1 ++ (performAll c b (performAll c a s).2).1,
        (performAll c b (performAll c a s).2).2) := by
  induction a generalizing s with
  | nil => rfl
  | cons call rest ih =>
    show performAll c (call :: (rest ++ b)) s = _
    simp only [performAll, ih, List.cons_append]

theorem perform_renameCall (m : ListModel σ) (id : Int) (name : String) (s : σ) :
    (renameCall m.entityType id name).perform m.client s =
      (((renameEntity m id name s).1, []), (renameEntity m id name s).2) := by
  unfold renameEntity
  cases m.entityType <;> rfl

theorem perform_fetchCall (m : ListModel σ) (d : Int) (s : σ) :
    (fetchCall m.entityType d).perform m.client s = fetched (fetchDocs m d s) := by
  unfold fetchDocs
  cases m.entityType <;> rfl

theorem perform_reassignCall (m : ListModel σ) (docID oldID mainID : Int) (s : σ) :
    (reassignCall m.entityType docID oldID mainID).perform m.client s =
      (((reassignDoc m docID oldID mainID s).1, []), (reassignDoc m docID oldID mainID s).2) := by
  unfold reassignDoc
  cases m.entityType <;> rfl

theorem perform_deleteCall (m : ListModel σ) (d : Int) (s : σ) :
    (deleteCall m.entityType d).perform m.client s =
      (((deleteEntity m d s).1, []), (deleteEntity m d s).2) := by
  unfold deleteEntity
  cases m.entityType <;> rfl

/-- The reassignment loop: its records are the answers of the service to the
reassignments, invoked in order, and its state is the state they leave. -/
theorem updateDocs_performed (m : ListModel σ) (oldID mainID : Int) :
    ∀ (docs : List Document) (s : σ),
      performAll m.client ((callsOf (updateDocs m oldID mainID docs s).2.2).map CallRecord.call) s =
        (callsOf (updateDocs m oldID mainID docs s).2.2, (updateDocs m oldID mainID docs s).2.1) := by
  intro docs
  induction docs with
  | nil => intro s; rfl
  | cons doc rest ih =>
    intro s
    rcases hr : reassignDoc m doc.ID oldID mainID s with ⟨_ | err, s1⟩
    · have hrec := ih s1
      simp only [updateDocs, hr, callsOf, List.map_cons, performAll, perform_reassignCall,
        hrec]
    · simp only [updateDocs, hr, callsOf, List.map_cons, List.map_nil, performAll,
        perform_reassignCall]

/-- The loop over the duplicates: its records are the answers of the service to
its calls, invoked in order, and its state is the state they leave. -/
theorem migrate_performed (m : ListModel σ) (mainID : Int) (n total : Nat) :
    ∀ (ids : List Int) (idx cur : Nat) (s : σ),
      performAll m.client
          ((callsOf (migrate m mainID n total idx ids cur s).2.2.2).map CallRecord.call) s =
        (callsOf (migrate m mainID n total idx ids cur s).2.2.2,
          (migrate m mainID n total idx ids cur s).2.2.1) := by
  intro ids
  induction ids with
  | nil => intro idx cur s; rfl
  | cons d rest ih =>
    intro idx cur s
    have hev2 : ∀ (docs : List Document),
        callsOf (if docs.length > 0 then
          [Event.progress ⟨(cur + 2 : Nat), total,
            ⟨m.localizer.T "merge.status_update_docs",
              [.int docs.length, .int (idx + 1 : Nat), .int n]⟩⟩]
        else []) = [] := by
      intro docs
      split_ifs <;> rfl
    rcases hf : fetchDocs m d s with ⟨err | docs, s1⟩
    · simp only [migrate, hf, callsOf, List.map_cons, List.map_nil, performAll,
        perform_fetchCall, fetched]
    · have hu := updateDocs_performed m d mainID docs s1
      rcases hud : updateDocs m d mainID docs s1 with ⟨_ | e, s2, evs2⟩
      · rw [hud] at hu
        simp only at hu
        rcases hd : deleteEntity m d s2 with ⟨err, s3⟩
        rcases ha : deleteAborts err with _ | e
        · have hm := ih (idx + 1) (cur + 3) s3
          simp only [migrate, hf, hud, hd, ha, callsOf, callsOf_append, hev2,
            List.cons_append, List.nil_append, List.append_nil, List.map_cons,
            List.map_append, List.map_nil, performAll, performAll_append,
            perform_fetchCall, fetched, hu, perform_deleteCall, hm]
        · simp only [migrate, hf, hud, hd, ha, callsOf, callsOf_append, hev2,
            List.cons_append, List.nil_append, List.append_nil, List.map_cons,
            List.map_append, List.map_nil, performAll, performAll_append,
            perform_fetchCall, fetched, hu, perform_deleteCall]
      · rw [hud] at hu
        simp only at hu
        simp only [migrate, hf, hud, callsOf, callsOf_append, hev2, List.cons_append,
          List.nil_append, List.map_cons, performAll, perform_fetchCall, fetched, hu]

/-- The records of a run are the answers of the service: performing the calls
of the run on the service, in the order of the log and from the initial state,
returns exactly the errors and documents recorded, and leaves the service in the
state in which the run leaves it. -/
theorem run_performed (m : ListModel σ) (s : σ) :
    performAll m.client ((calls m s).map CallRecord.call) s =
      (calls m s, (executeMerge m s).2.1) := by
  unfold calls events executeMerge
  rcases hp : mergePlan m with e | p
  · rfl
  · simp only
    rcases runPlan_cases m p s with ⟨_, h⟩ | ⟨_, err, s1, hr, h⟩ | ⟨_, s1, e, hr, _, h⟩ |
      ⟨_, s1, err, s3, hr, _, hfin, h⟩
    · rw [h]
      exact migrate_performed m p.mainID p.toDeleteIDs.length (totalOps p) p.toDeleteIDs 0 0 s
    · rw [h]
      simp only [callsOf, evPrepare, tempRename, List.map_cons, List.map_nil, performAll,
        perform_renameCall, hr]
    · rw [h]
      have hm := migrate_performed m p.mainID p.toDeleteIDs.length (totalOps p)
        p.toDeleteIDs 0 1 s1
      simp only [callsOf, evPrepare, tempRename, List.map_cons, performAll,
        perform_renameCall, hr, hm]
    · rw [h]
      have hm := migrate_performed m p.mainID p.toDeleteIDs.length (totalOps p)
        p.toDeleteIDs 0 1 s1
      have hcalls : callsOf (evPrepare m p :: Event.call (tempRename m p none) ::
            (migrate m p.mainID p.toDeleteIDs.length (totalOps p) 0 p.toDeleteIDs 1 s1).2.2.2 ++
          [evFinalName m p
              (migrate m p.mainID p.toDeleteIDs.length (totalOps p) 0 p.toDeleteIDs 1 s1).2.1,
            Event.call (finalRename m p err)]) =
          tempRename m p none ::
            (callsOf (migrate m p.mainID p.toDeleteIDs.length (totalOps p) 0
              p.toDeleteIDs 1 s1).2.2.2 ++ [finalRename m p err]) := by
        show tempRename m p none :: callsOf (_ ++ [_, _]) = _
        rw [callsOf_append]
        rfl
      dsimp only
      rw [hcalls]
      simp only [tempRename, finalRename, List.map_cons, List.map_append, List.map_nil,
        performAll, performAll_append, perform_renameCall, hr, hm, hfin]

/-! ### The requests that the service receives -/

theorem makeRequest_recording (c : Client σ) (method endpoint : String)
    (body : Option String) (s : σ) (log : List Request) :
    c.recording.makeRequest method endpoint body (s, log) =
      ((c.makeRequest method endpoint body s).1,
        ((c.makeRequest method endpoint body s).2, log ++ [c.request method endpoint body])) :=
  rfl

theorem recording_json (c : Client σ) : c.recording.json = c.json := rfl

theorem patch_recording (c : Client σ) (endpoint body what : String) (s : σ)
    (log : List Request) :
    c.recording.patch endpoint body what (s, log) =
      ((c.patch endpoint body what s).1,
        ((c.patch endpoint body what s).2, log ++ [c.request "PATCH" endpoint (some body)])) := by
  unfold Client.patch
  rw [makeRequest_recording]
  rcases c.makeRequest "PATCH" endpoint (some body) s with ⟨err | resp, s1⟩
  · rfl
  · dsimp only
    split_ifs <;> rfl

theorem delete_recording (c : Client σ) (endpoint what : String) (s : σ)
    (log : List Request) :
    c.recording.delete endpoint what (s, log) =
      ((c.delete endpoint what s).1,
        ((c.delete endpoint what s).2, log ++ [c.request "DELETE" endpoint none])) := by
  unfold Client.delete
  rw [makeRequest_recording]
  rcases c.makeRequest "DELETE" endpoint none s with ⟨err | resp, s1⟩
  · rfl
  · dsimp only
    split_ifs <;> rfl

theorem getDocuments_recording (c : Client σ) (endpoint : String) (s : σ)
    (log : List Request) :
    c.recording.getDocuments endpoint (s, log) =
      ((c.getDocuments endpoint s).1,
        ((c.getDocuments endpoint s).2, log ++ [c.request "GET" endpoint none])) := by
  unfold Client.getDocuments
  rw [makeRequest_recording, recording_json]
  rcases c.makeRequest "GET" endpoint none s with ⟨err | resp, s1⟩
  · rfl
  · dsimp only
    split_ifs
    · rfl
    · rcases c.json.decodeListResponse resp.Body with err | listResp
      · rfl
      · dsimp only
        rcases c.json.unmarshalDocuments listResp.Results with err | documents <;> rfl

theorem getDocument_recording (c : Client σ) (docID : Int) (s : σ) (log : List Request) :
    c.recording.getDocument docID (s, log) =
      ((c.getDocument docID s).1,
        ((c.getDocument docID s).2,
          log ++ [c.request "GET" ("/api/documents/" ++ fmtInt docID ++ "/") none])) := by
  unfold Client.getDocument
  rw [makeRequest_recording, recording_json]
  rcases c.makeRequest "GET" ("/api/documents/" ++ fmtInt docID ++ "/") none s with
    ⟨err | resp, s1⟩
  · rfl
  · dsimp only
    split_ifs
    · rfl
    · rcases c.json.decodeDocument resp.Body with err | doc <;> rfl

theorem updateDocumentTags_recording (c : Client σ) (docID oldTagID newTagID : Int) (s : σ)
    (log : List Request) :
    c.recording.UpdateDocumentTags docID oldTagID newTagID (s, log) =
      ((c.UpdateDocumentTags docID oldTagID newTagID s).1,
        ((c.UpdateDocumentTags docID oldTagID newTagID s).2,
          log ++ (Call.UpdateDocumentTags docID oldTagID newTagID).requests c s)) := by
  unfold Client.UpdateDocumentTags Call.requests
  rw [getDocument_recording, recording_json]
  rcases hg : c.getDocument docID s with ⟨err | doc, s1⟩
  · simp [hg]
  · dsimp only
    rw [patch_recording]
    simp [hg]

/-- A call on the service with the wiretap: the result and the state of the
service are those without the wiretap, and the log grows by the requests of the
call. -/
theorem perform_recording (c : Client σ) (call : Call) (s : σ) (log : List Request) :
    call.perform c.recording (s, log) =
      ((call.perform c s).1, ((call.perform c s).2, log ++ call.requests c s)) := by
  cases call with
  | UpdateTag id name =>
    simp only [Call.perform, Call.requests, Client.UpdateTag, patch_recording]
  | UpdateCorrespondent id name =>
    simp only [Call.perform, Call.requests, Client.UpdateCorrespondent, patch_recording]
  | UpdateDocumentType id name =>
    simp only [Call.perform, Call.requests, Client.UpdateDocumentType, patch_recording]
  | GetDocumentsByTag tagID =>
    simp only [Call.perform, Call.requests, Client.GetDocumentsByTag, getDocuments_recording]
    rcases c.getDocuments _ s with ⟨err | docs, s1⟩ <;> rfl
  | GetDocumentsByCorrespondent correspondentID =>
    simp only [Call.perform, Call.requests, Client.GetDocumentsByCorrespondent,
      getDocuments_recording]
    rcases c.getDocuments _ s with ⟨err | docs, s1⟩ <;> rfl
  | GetDocumentsByType typeID =>
    simp only [Call.perform, Call.requests, Client.GetDocumentsByType, getDocuments_recording]
    rcases c.getDocuments _ s with ⟨err | docs, s1⟩ <;> rfl
  | UpdateDocumentTags docID oldTagID newTagID =>
    simp only [Call.perform, updateDocumentTags_recording]
  | UpdateDocumentCorrespondent docID newCorrespondentID =>
    simp only [Call.perform, Call.requests, Client.UpdateDocumentCorrespondent,
      patch_recording]
  | UpdateDocumentTypeForDoc docID newTypeID =>
    simp only [Call.perform, Call.requests, Client.UpdateDocumentTypeForDoc, patch_recording]
  | DeleteTag id =>
    simp only [Call.perform, Call.requests, Client.DeleteTag, delete_recording]
  | DeleteCorrespondent id =>
    simp only [Call.perform, Call.requests, Client.DeleteCorrespondent, delete_recording]
  | DeleteDocumentType id =>
    simp only [Call.perform, Call.requests, Client.DeleteDocumentType, delete_recording]

theorem performAll_recording (c : Client σ) :
    ∀ (l : List Call) (s : σ) (log : List Request),
      performAll c.recording l (s, log) =
        ((performAll c l s).1, ((performAll c l s).2, log ++ requestsAll c l s)) := by
  intro l
  induction l with
  | nil => intro s log; simp [performAll, requestsAll]
  | cons call rest ih =>
    intro s log
    simp only [performAll, requestsAll, perform_recording, ih, List.append_assoc]

/-! ### The run on the service with the wiretap -/

theorem recording_entityType (m : ListModel σ) : m.recording.entityType = m.entityType := rfl

theorem recording_client (m : ListModel σ) : m.recording.client = m.client.recording := rfl

theorem recording_localizer (m : ListModel σ) : m.recording.localizer = m.localizer := rfl

theorem recording_mergeInput (m : ListModel σ) : m.recording.mergeInput = m.mergeInput := rfl

theorem recording_mergePlan (m : ListModel σ) : mergePlan m.recording = mergePlan m := rfl

theorem renameEntity_recording (m : ListModel σ) (id : Int) (name : String) (s : σ)
    (log : List Request) :
    renameEntity m.recording id name (s, log) =
      ((renameEntity m id name s).1, ((renameEntity m id name s).2,
        log ++ (renameCall m.entityType id name).requests m.client s)) := by
  unfold renameEntity
  simp only [recording_entityType, recording_client]
  cases m.entityType <;>
    simp only [renameCall, Call.requests, Client.UpdateTag, Client.UpdateCorrespondent,
      Client.UpdateDocumentType, patch_recording]

theorem fetchDocs_recording (m : ListModel σ) (d : Int) (s : σ) (log : List Request) :
    fetchDocs m.recording d (s, log) =
      ((fetchDocs m d s).1, ((fetchDocs m d s).2,
        log ++ (fetchCall m.entityType d).requests m.client s)) := by
  unfold fetchDocs
  simp only [recording_entityType, recording_client]
  cases m.entityType <;>
    simp only [fetchCall, Call.requests, Client.GetDocumentsByTag,
      Client.GetDocumentsByCorrespondent, Client.GetDocumentsByType, getDocuments_recording]

theorem reassignDoc_recording (m : ListModel σ) (docID oldID mainID : Int) (s : σ)
    (log : List Request) :
    reassignDoc m.recording docID oldID mainID (s, log) =
      ((reassignDoc m docID oldID mainID s).1, ((reassignDoc m docID oldID mainID s).2,
        log ++ (reassignCall m.entityType docID oldID mainID).requests m.client s)) := by
  unfold reassignDoc
  simp only [recording_entityType, recording_client]
  cases m.entityType
  · simp only [reassignCall, updateDocumentTags_recording]
  · simp only [reassignCall, Call.requests, Client.UpdateDocumentCorrespondent,
      patch_recording]
  · simp only [reassignCall, Call.requests, Client.UpdateDocumentTypeForDoc, patch_recording]

theorem deleteEntity_recording (m : ListModel σ) (d : Int) (s : σ) (log : List Request) :
    deleteEntity m.recording d (s, log) =
      ((deleteEntity m d s).1, ((deleteEntity m d s).2,
        log ++ (deleteCall m.entityType d).requests m.client s)) := by
  unfold deleteEntity
  simp only [recording_entityType, recording_client]
  cases m.entityType <;>
    simp only [deleteCall, Call.requests, Client.DeleteTag, Client.DeleteCorrespondent,
      Client.DeleteDocumentType, delete_recording]

theorem updateDocs_recording (m : ListModel σ) (oldID mainID : Int) :
    ∀ (docs : List Document) (s : σ) (log : List Request),
      (updateDocs m.recording oldID mainID docs (s, log)).1 =
        (updateDocs m oldID mainID docs s).1 ∧
      (updateDocs m.recording oldID mainID docs (s, log)).2.1.1 =
        (updateDocs m oldID mainID docs s).2.1 ∧
      (updateDocs m.recording oldID mainID docs (s, log)).2.2 =
        (updateDocs m oldID mainID docs s).2.2 := by
  intro docs
  induction docs with
  | nil => intro s log; exact ⟨rfl, rfl, rfl⟩
  | cons doc rest ih =>
    intro s log
    have hrr := reassignDoc_recording m doc.ID oldID mainID s log
    rcases hr : reassignDoc m doc.ID oldID mainID s with ⟨_ | err, s1⟩
    · rw [hr] at hrr
      obtain ⟨h1, h2, h3⟩ := ih s1
        (log ++ (reassignCall m.entityType doc.ID oldID mainID).requests m.client s)
      simp only [updateDocs, hr, hrr, recording_entityType]
      exact ⟨h1, h2, by rw [h3]⟩
    · rw [hr] at hrr
      simp only [updateDocs, hr, hrr, recording_entityType, recording_localizer]
      exact ⟨trivial, trivial, trivial⟩

theorem migrate_recording (m : ListModel σ) (mainID : Int) (n total : Nat) :
    ∀ (ids : List Int) (idx cur : Nat) (s : σ) (log : List Request),
      (migrate m.recording mainID n total idx ids cur (s, log)).1 =
        (migrate m mainID n total idx ids cur s).1 ∧
      (migrate m.recording mainID n total idx ids cur (s, log)).2.1 =
        (migrate m mainID n total idx ids cur s).2.1 ∧
      (migrate m.recording mainID n total idx ids cur (s, log)).2.2.1.1 =
        (migrate m mainID n total idx ids cur s).2.2.1 ∧
      (migrate m.recording mainID n total idx ids cur (s, log)).2.2.2 =
        (migrate m mainID n total idx ids cur s).2.2.2 := by
  intro ids
  induction ids with
  | nil => intro idx cur s log; exact ⟨rfl, rfl, rfl, rfl⟩
  | cons d rest ih =>
    intro idx cur s log
    have hfr := fetchDocs_recording m d s log
    rcases hf : fetchDocs m d s with ⟨err | docs, s1⟩
    · rw [hf] at hfr
      simp only [migrate, hf, hfr, recording_entityType, recording_localizer]
      exact ⟨trivial, trivial, trivial, trivial⟩
    · rw [hf] at hfr
      dsimp only at hfr
      obtain ⟨u1, u2, u3⟩ := updateDocs_recording m d mainID docs s1
        (log ++ (fetchCall m.entityType d).requests m.client s)
      rcases hud : updateDocs m d mainID docs s1 with ⟨_ | e, s2, evs2⟩
      · rcases hur : updateDocs m.recording d mainID docs
          (s1, log ++ (fetchCall m.entityType d).requests m.client s) with
          ⟨r', ⟨s2', log2⟩, evs2'⟩
        rw [hud, hur] at u1 u2 u3
        dsimp only at u1 u2 u3
        subst u1 u2 u3
        have hdr := deleteEntity_recording m d s2' log2
        rcases hd : deleteEntity m d s2' with ⟨err, s3⟩
        rw [hd] at hdr
        dsimp only at hdr
        rcases ha : deleteAborts err with _ | e
        · obtain ⟨i1, i2, i3, i4⟩ := ih (idx + 1) (cur + 3) s3
            (log2 ++ (deleteCall m.entityType d).requests m.client s2')
          simp only [migrate, hf, hfr, hud, hur, hd, hdr, ha, recording_entityType,
            recording_localizer]
          exact ⟨i1, i2, i3, by rw [i4]⟩
        · simp only [migrate, hf, hfr, hud, hur, hd, hdr, ha, recording_entityType,
            recording_localizer]
          exact ⟨trivial, trivial, trivial, trivial⟩
      · rcases hur : updateDocs m.recording d mainID docs
          (s1, log ++ (fetchCall m.entityType d).requests m.client s) with
          ⟨r', ⟨s2', log2⟩, evs2'⟩
        rw [hud, hur] at u1 u2 u3
        dsimp only at u1 u2 u3
        subst u1 u2 u3
        simp only [migrate, hf, hfr, hud, hur, recording_entityType, recording_localizer]
        exact ⟨trivial, trivial, trivial, trivial⟩

/-- The run on the service with the wiretap has the outcome, the events and the
states of the service of the run without it. -/
theorem executeMerge_recording (m : ListModel σ) (s : σ) (log : List Request) :
    (executeMerge m.recording (s, log)).1 = (executeMerge m s).1 ∧
    (executeMerge m.recording (s, log)).2.1.1 = (executeMerge m s).2.1 ∧
    (executeMerge m.recording (s, log)).2.2 = (executeMerge m s).2.2 := by
  unfold executeMerge
  rw [recording_mergePlan]
  rcases hp : mergePlan m with e | p
  · exact ⟨rfl, rfl, rfl⟩
  · dsimp only
    unfold runPlan
    simp only [recording_entityType, recording_localizer, recording_mergeInput]
    by_cases hn : p.needsRename = true
    · simp only [hn, if_true]
      have hrr := renameEntity_recording m p.mainID (tempName p.mainID m.mergeInput) s log
      rcases hr : renameEntity m p.mainID (tempName p.mainID m.mergeInput) s with
        ⟨_ | err, s1⟩
      · rw [hr] at hrr
        dsimp only at hrr
        rw [hrr]
        dsimp only
        obtain ⟨i1, i2, i3, i4⟩ := migrate_recording m p.mainID p.toDeleteIDs.length
          (totalOps p) p.toDeleteIDs 0 1 s1
          (log ++ (renameCall m.entityType p.mainID
            (tempName p.mainID m.mergeInput)).requests m.client s)
        rcases hm : migrate m p.mainID p.toDeleteIDs.length (totalOps p) 0 p.toDeleteIDs 1 s1
          with ⟨_ | e, cur, s2, evs⟩
        · rcases hmr : migrate m.recording p.mainID p.toDeleteIDs.length (totalOps p) 0
            p.toDeleteIDs 1 (s1, log ++ (renameCall m.entityType p.mainID
              (tempName p.mainID m.mergeInput)).requests m.client s) with
            ⟨r', cur', ⟨s2', log2⟩, evs'⟩
          rw [hm, hmr] at i1 i2 i3 i4
          dsimp only at i1 i2 i3 i4
          subst i1 i2 i3 i4
          dsimp only
          have hfr := renameEntity_recording m p.mainID m.mergeInput s2' log2
          rcases hfin : renameEntity m p.mainID m.mergeInput s2' with ⟨_ | err, s3⟩
          · rw [hfin] at hfr
            rw [hfr]
            exact ⟨rfl, rfl, rfl⟩
          · rw [hfin] at hfr
            rw [hfr]
            exact ⟨rfl, rfl, rfl⟩
        · rcases hmr : migrate m.recording p.mainID p.toDeleteIDs.length (totalOps p) 0
            p.toDeleteIDs 1 (s1, log ++ (renameCall m.entityType p.mainID
              (tempName p.mainID m.mergeInput)).requests m.client s) with
            ⟨r', cur', ⟨s2', log2⟩, evs'⟩
          rw [hm, hmr] at i1 i2 i3 i4
          dsimp only at i1 i2 i3 i4
          subst i1 i2 i3 i4
          exact ⟨rfl, rfl, rfl⟩
      · rw [hr] at hrr
        dsimp only at hrr
        rw [hrr]
        exact ⟨rfl, rfl, rfl⟩
    · simp only [hn]
      obtain ⟨i1, i2, i3, i4⟩ := migrate_recording m p.mainID p.toDeleteIDs.length
        (totalOps p) p.toDeleteIDs 0 0 s log
      rcases hm : migrate m p.mainID p.toDeleteIDs.length (totalOps p) 0 p.toDeleteIDs 0 s
        with ⟨r, cur, s2, evs⟩
      rcases hmr : migrate m.recording p.mainID p.toDeleteIDs.length (totalOps p) 0
        p.toDeleteIDs 0 (s, log) with ⟨r', cur', ⟨s2', log2⟩, evs'⟩
      rw [hm, hmr] at i1 i2 i3 i4
      dsimp only at i1 i2 i3 i4
      subst i1 i2 i3 i4
      exact ⟨rfl, rfl, rfl⟩

/-- The requests that the service receives during a run: with a wiretap on the
transport the run has the same outcome and events, the service goes through the
same states, and the log of the wiretap grows by the requests of the calls of
the run, in the order of the calls. -/
theorem run_wiretap (m : ListModel σ) (s : σ) (log : List Request) :
    executeMerge m.recording (s, log) =
      ((executeMerge m s).1,
        ((executeMerge m s).2.1,
          log ++ requestsAll m.client ((calls m s).map CallRecord.call) s),
        (executeMerge m s).2.2) := by
  obtain ⟨h1, h2, h3⟩ := executeMerge_recording m s log
  have hp := run_performed m.recording (s, log)
  have hcalls : calls m.recording (s, log) = calls m s := by
    unfold calls events
    rw [h3]
  rw [hcalls, recording_client, performAll_recording] at hp
  have hlog : (executeMerge m.recording (s, log)).2.1.2 =
      log ++ requestsAll m.client ((calls m s).map CallRecord.call) s := by
    have := congrArg (fun x => x.2.2) hp
    exact this.symm
  refine Prod.ext h1 (Prod.ext (Prod.ext h2 hlog) h3)

/-! ### Splitting the calls of a run -/

theorem performAll_length (c : Client σ) :
    ∀ (l : List Call) (s : σ), (performAll c l s).1.length = l.length := by
  intro l
  induction l with
  | nil => intro s; rfl
  | cons call rest ih =>
    intro s
    simp only [performAll, List.length_cons, ih]

theorem requestsAll_append (c : Client σ) (a b : List Call) (s : σ) :
    requestsAll c (a ++ b) s = requestsAll c a s ++ requestsAll c b (performAll c a s).2 := by
  induction a generalizing s with
  | nil => rfl
  | cons call rest ih =>
    show requestsAll c (call :: (rest ++ b)) s = _
    simp only [requestsAll, performAll, ih, List.append_assoc]

/-- When performing the calls of `a ++ b` returns the records `a ++ b`, then
performing the calls of `a` returns `a`, and performing the calls of `b` in the
state that `a` leaves returns `b`. -/
theorem performAll_split (c : Client σ) (a b : List CallRecord) (s s' : σ)
    (h : performAll c ((a ++ b).map CallRecord.call) s = (a ++ b, s')) :
    (performAll c (a.map CallRecord.call) s).1 = a ∧
    performAll c (b.map CallRecord.call) (performAll c (a.map CallRecord.call) s).2 =
      (b, s') := by
  rw [List.map_append, performAll_append] at h
  have h1 := congrArg Prod.fst h
  have h2 := congrArg Prod.snd h
  dsimp only at h1 h2
  have hlen : (performAll c (a.map CallRecord.call) s).1.length = a.length := by
    rw [performAll_length, List.length_map]
  obtain ⟨ha, hb⟩ := List.append_inj h1 hlen
  exact ⟨ha, Prod.ext hb h2⟩

theorem wiretap_log (m : ListModel σ) (s : σ) (log : List Request) :
    (executeMerge m.recording (s, log)).2.1.2 =
      log ++ requestsAll m.client ((calls m s).map CallRecord.call) s := by
  rw [run_wiretap]

/-! ### Preparing -/

/-- C6. Preparing: when the plan needs a rename, the first client call of the
run is the rename of `mainID` to the temporary name, which is the text
`"__MERGING_<mainID>_<finalName>"` and differs from `finalName`. The call is
really issued: the error recorded for it is the one that the rename method of
the client returns in the initial state of the service, the other calls of the
run are performed from the state that this rename leaves, and the requests that
the service receives during the run begin with the requests of this rename. If
the rename returns an error, the run issues no other call, the service has
received the requests of the rename only, and the run returns the failure that
carries the error. -/
theorem preparing_rename (m : ListModel σ) (s : σ) (p : MergePlan)
    (hp : mergePlan m = .ok p) (hn : p.needsRename = true) :
    tempName p.mainID m.mergeInput = "__MERGING_" ++ toString p.mainID ++ "_" ++ m.mergeInput ∧
    tempName p.mainID m.mergeInput ≠ m.mergeInput ∧
    ∃ rest, calls m s =
        ⟨renameCall m.entityType p.mainID (tempName p.mainID m.mergeInput),
          ((renameCall m.entityType p.mainID (tempName p.mainID m.mergeInput)).perform
            m.client s).1.1, []⟩ :: rest ∧
      performAll m.client (rest.map CallRecord.call)
          ((renameCall m.entityType p.mainID (tempName p.mainID m.mergeInput)).perform
            m.client s).2 = (rest, (executeMerge m s).2.1) ∧
      (∀ log, (executeMerge m.recording (s, log)).2.1.2 =
        log ++ ((renameCall m.entityType p.mainID (tempName p.mainID m.mergeInput)).requests
            m.client s ++
          requestsAll m.client (rest.map CallRecord.call)
            ((renameCall m.entityType p.mainID (tempName p.mainID m.mergeInput)).perform
              m.client s).2)) ∧
      ∀ e, ((renameCall m.entityType p.mainID (tempName p.mainID m.mergeInput)).perform
          m.client s).1.1 = some e →
        rest = [] ∧
        outcome m s = ⟨some ⟨m.localizer.T "merge.error_temp_update", [.err e]⟩⟩ := by
  refine ⟨rfl, tempName_ne _ _, ?_⟩
  have hperf : (renameCall m.entityType p.mainID (tempName p.mainID m.mergeInput)).perform
      m.client s =
      (((renameEntity m p.mainID (tempName p.mainID m.mergeInput) s).1, []),
        (renameEntity m p.mainID (tempName p.mainID m.mergeInput) s).2) := by
    unfold renameEntity
    cases m.entityType <;> rfl
  have hrun := run_performed m s
  have hstruct : ∃ rest, calls m s =
        ⟨renameCall m.entityType p.mainID (tempName p.mainID m.mergeInput),
          (renameEntity m p.mainID (tempName p.mainID m.mergeInput) s).1, []⟩ :: rest ∧
      ∀ e, (renameEntity m p.mainID (tempName p.mainID m.mergeInput) s).1 = some e →
        rest = [] ∧
        outcome m s = ⟨some ⟨m.localizer.T "merge.error_temp_update", [.err e]⟩⟩ := by
    unfold calls events outcome
    rw [executeMerge_eq_runPlan m p s hp]
    rcases runPlan_cases m p s with ⟨hn', _⟩ | ⟨_, err, s1, hr, h⟩ | ⟨_, s1, e, hr, _, h⟩ |
      ⟨_, s1, err, s3, hr, _, _, h⟩
    · rw [hn] at hn'; cases hn'
    · rw [h, hr]
      refine ⟨[], rfl, ?_⟩
      intro e he
      cases he
      exact ⟨rfl, rfl⟩
    · rw [h, hr]
      exact ⟨_, rfl, fun e he => by cases he⟩
    · rw [h, hr]
      exact ⟨_, rfl, fun e he => by cases he⟩
  obtain ⟨rest, hcalls, hfail⟩ := hstruct
  have hsplit := performAll_split m.client
    [⟨renameCall m.entityType p.mainID (tempName p.mainID m.mergeInput),
      (renameEntity m p.mainID (tempName p.mainID m.mergeInput) s).1, []⟩] rest s
    (executeMerge m s).2.1 (by rw [hcalls] at hrun; exact hrun)
  have hstate : (performAll m.client
      ([⟨renameCall m.entityType p.mainID (tempName p.mainID m.mergeInput),
        (renameEntity m p.mainID (tempName p.mainID m.mergeInput) s).1, []⟩].map
          CallRecord.call) s).2 =
      ((renameCall m.entityType p.mainID (tempName p.mainID m.mergeInput)).perform
        m.client s).2 := rfl
  rw [hstate] at hsplit
  refine ⟨rest, ?_, hsplit.2, ?_, ?_⟩
  · rw [hcalls, hperf]
  · intro log
    rw [wiretap_log, hcalls]
    rfl
  · intro e he
    rw [hperf] at he
    exact hfail e he

/-- Instance at a run that merges the tags 5 and 7 under the new name `"Bar"` on
a service that answers every `PATCH` with `500`: the run issues the rename to
the temporary name and nothing else, and the service receives one request, the
`PATCH` of the name of tag 5. On a service where every request succeeds, the
same `PATCH` is the first of the four requests of the run. -/
theorem preparing_rename_witness :
    (tempName 5 "Bar" = "__MERGING_5_Bar" ∧
      tempName 5 "Bar" ≠ "Bar" ∧
      ∃ rest, calls (patchFailsModel .EntityTags "Bar") () =
          ⟨.UpdateTag 5 "__MERGING_5_Bar",
            ((Call.UpdateTag 5 "__MERGING_5_Bar").perform
              (patchFailsModel .EntityTags "Bar").client ()).1.1, []⟩ :: rest ∧
        performAll (patchFailsModel .EntityTags "Bar").client (rest.map CallRecord.call)
            ((Call.UpdateTag 5 "__MERGING_5_Bar").perform
              (patchFailsModel .EntityTags "Bar").client ()).2 =
          (rest, (executeMerge (patchFailsModel .EntityTags "Bar") ()).2.1) ∧
        (∀ log, (executeMerge (patchFailsModel .EntityTags "Bar").recording ((), log)).2.1.2 =
          log ++ ((Call.UpdateTag 5 "__MERGING_5_Bar").requests
              (patchFailsModel .EntityTags "Bar").client () ++
            requestsAll (patchFailsModel .EntityTags "Bar").client (rest.map CallRecord.call)
              ((Call.UpdateTag 5 "__MERGING_5_Bar").perform
                (patchFailsModel .EntityTags "Bar").client ()).2)) ∧
        ∀ e, ((Call.UpdateTag 5 "__MERGING_5_Bar").perform
            (patchFailsModel .EntityTags "Bar").client ()).1.1 = some e →
          rest = [] ∧
          outcome (patchFailsModel .EntityTags "Bar") () =
            ⟨some ⟨"merge.error_temp_update", [.err e]⟩⟩) ∧
    calls (patchFailsModel .EntityTags "Bar") () =
      [⟨.UpdateTag 5 "__MERGING_5_Bar",
        some ⟨"errore nell'aggiornamento del tag: 500 - boom"⟩, []⟩] ∧
    (executeMerge (patchFailsModel .EntityTags "Bar").recording ((), [])).2.1.2 =
      [⟨"PATCH", "http://h/api/tags/5/", some "\x7b\"name\": \"__MERGING_5_Bar\"\x7d",
        "Token k", "application/json"⟩] ∧
    (executeMerge (healthyModel .EntityTags "Bar").recording ((), [])).2.1.2 =
      [⟨"PATCH", "http://h/api/tags/5/", some "\x7b\"name\": \"__MERGING_5_Bar\"\x7d",
          "Token k", "application/json"⟩,
        ⟨"GET", "http://h/api/documents/?tags__id__in=7&page_size=100", none,
          "Token k", "application/json"⟩,
        ⟨"DELETE", "http://h/api/tags/7/", none, "Token k", "application/json"⟩,
        ⟨"PATCH", "http://h/api/tags/5/", some "\x7b\"name\": \"Bar\"\x7d",
          "Token k", "application/json"⟩] :=
  ⟨preparing_rename (patchFailsModel .EntityTags "Bar") () ⟨5, [7], false⟩ rfl rfl,
    by decide, by decide, by decide⟩

/-! ### Finalizing -/

/-- C7. Finalizing: when the plan needs a rename and no call of the run other
than a rename to the final name made the run return, the calls of the run are
the rename to the temporary name, the complete blocks (fetch, reassignments,
delete) of all the entries of `toDeleteIDs` in order, and last the rename of
`mainID` to `finalName`. The last call is really issued: the earlier calls,
performed on the service, leave it in a state `s2`; the error recorded for the
last call is the one that the rename method of the client returns in `s2`, the
run leaves the service in the state that this rename leaves, and the requests
that the service receives during the run end with the requests of this rename.
When the plan needs no rename, no call of the run is a rename, the calls of the
run are the ones performed on the service, and the service receives the
requests of these calls and no other. -/
theorem finalizing_rename (m : ListModel σ) (s : σ) (p : MergePlan)
    (hp : mergePlan m = .ok p) :
    (p.needsRename = true →
      (∀ r ∈ calls m s, r.call ≠ renameCall m.entityType p.mainID m.mergeInput →
        r.aborts = false) →
      ∃ blocks s2, blocks.map Block.dup = p.toDeleteIDs ∧
        performAll m.client
            ((tempRename m p none :: blocksCalls m.entityType p.mainID blocks).map
              CallRecord.call) s =
          (tempRename m p none :: blocksCalls m.entityType p.mainID blocks, s2) ∧
        calls m s = tempRename m p none :: blocksCalls m.entityType p.mainID blocks ++
          [⟨renameCall m.entityType p.mainID m.mergeInput,
            ((renameCall m.entityType p.mainID m.mergeInput).perform m.client s2).1.1, []⟩] ∧
        (executeMerge m s).2.1 =
          ((renameCall m.entityType p.mainID m.mergeInput).perform m.client s2).2 ∧
        ∀ log, (executeMerge m.recording (s, log)).2.1.2 =
          log ++ (requestsAll m.client
              ((tempRename m p none :: blocksCalls m.entityType p.mainID blocks).map
                CallRecord.call) s ++
            (renameCall m.entityType p.mainID m.mergeInput).requests m.client s2)) ∧
    (p.needsRename = false →
      (∀ r ∈ calls m s, r.call.isRename = false) ∧
      performAll m.client ((calls m s).map CallRecord.call) s =
        (calls m s, (executeMerge m s).2.1) ∧
      ∀ log, (executeMerge m.recording (s, log)).2.1.2 =
        log ++ requestsAll m.client ((calls m s).map CallRecord.call) s) := by
  have hrun := run_performed m s
  have hwire := wiretap_log m s
  have h := run_shape m p s hp
  generalize hcs : calls m s = cs at h hrun hwire
  generalize (outcome m s).err = o at h
  have hblocks : ∀ (blocks : List Block), ∀ r ∈ blocksCalls m.entityType p.mainID blocks,
      r.call.isRename = false := by
    intro blocks r hr
    obtain ⟨b, _, hb⟩ := mem_blocksCalls _ _ _ _ hr
    rcases mem_blockCalls _ _ _ _ hb with rfl | ⟨doc, _, rfl⟩ | rfl <;> simp [okReassign]
  constructor
  · intro hn hall
    have hprep : prepareCalls m p = [tempRename m p none] := by simp [prepareCalls, hn]
    cases h with
    | prepareFailed err _ =>
      have := hall (tempRename m p (some err)) (List.mem_singleton.2 rfl)
        (fun hc => tempName_ne _ _ (renameCall_inj _ _ _ _ _ hc).2)
      simp [CallRecord.aborts, tempRename] at this
    | fetchFailed blocks d rest err hids hok =>
      have := hall ⟨fetchCall m.entityType d, some err, []⟩ (by simp)
        (fun hc => by have := congrArg Call.isRename hc; simp at this)
      simp [CallRecord.aborts] at this
    | reassignFailed blocks d rest done doc later err hids hok =>
      have := hall ⟨reassignCall m.entityType doc.ID d p.mainID, some err, []⟩ (by simp)
        (fun hc => by have := congrArg Call.isRename hc; simp at this)
      simp [CallRecord.aborts] at this
    | deleteFailed blocks b rest e hids hok ha =>
      have := hall ⟨deleteCall m.entityType b.dup, b.delErr, []⟩
        (by simp [blocksCalls_append, blocksCalls, blockCalls])
        (fun hc => by have := congrArg Call.isRename hc; simp at this)
      simp [CallRecord.aborts, ha] at this
    | completed blocks hids hok hn' => rw [hn] at hn'; cases hn'
    | finalized blocks err hids hok _ =>
      rw [hprep] at hrun hwire
      have hsplit := performAll_split m.client
        (tempRename m p none :: blocksCalls m.entityType p.mainID blocks)
        [finalRename m p err] s (executeMerge m s).2.1 hrun
      obtain ⟨h1, h2⟩ := hsplit
      generalize hs2 : (performAll m.client
        ((tempRename m p none :: blocksCalls m.entityType p.mainID blocks).map
          CallRecord.call) s).2 = s2 at h2
      have h3 := congrArg Prod.fst h2
      have h4 := congrArg Prod.snd h2
      simp only [finalRename, List.map_cons, List.map_nil, performAll, List.cons.injEq,
        CallRecord.mk.injEq, true_and, and_true] at h3 h4
      refine ⟨blocks, s2, hids.symm, Prod.ext h1 hs2, ?_, h4.symm, ?_⟩
      · rw [h3.1, hprep]
        rfl
      · intro log
        rw [hwire log]
        show log ++ requestsAll m.client (List.map CallRecord.call
          ((tempRename m p none :: blocksCalls m.entityType p.mainID blocks) ++
            [finalRename m p err])) s = _
        rw [List.map_append, requestsAll_append, hs2]
        simp only [finalRename, List.map_cons, List.map_nil, requestsAll, List.append_nil]
  · intro hn
    refine ⟨?_, hrun, hwire⟩
    intro r hr
    have hprep : prepareCalls m p = [] := by simp [prepareCalls, hn]
    cases h with
    | prepareFailed err hn' => rw [hn] at hn'; cases hn'
    | fetchFailed blocks d rest err hids hok =>
      rw [hprep] at hr
      simp only [List.nil_append, List.mem_append, List.mem_singleton] at hr
      rcases hr with hr | rfl
      · exact hblocks blocks r hr
      · simp
    | reassignFailed blocks d rest done doc later err hids hok =>
      rw [hprep] at hr
      simp only [List.nil_append, List.mem_append, List.cons_append, List.mem_cons,
        List.mem_map, List.not_mem_nil, or_false] at hr
      rcases hr with hr | rfl | ⟨doc', _, rfl⟩ | rfl
      · exact hblocks blocks r hr
      · simp
      · simp [okReassign]
      · simp
    | deleteFailed blocks b rest e hids hok ha =>
      rw [hprep] at hr
      exact hblocks _ r hr
    | completed blocks hids hok _ =>
      rw [hprep] at hr
      exact hblocks _ r hr
    | finalized blocks err hids hok hn' => rw [hn] at hn'; cases hn'

/-- Instance at a run that merges the tags 5 and 7 under the new name `"Bar"`, and
at a run that merges tag 5 into tag 7, already named `"Foo"`, on a service where
every request succeeds. In the first run the last of the four requests that the
service receives is the `PATCH` of the name of tag 5 to `"Bar"`, after the
`DELETE` of tag 7; in the second run the service receives no `PATCH` of a name. -/
theorem finalizing_rename_witness :
    (∃ blocks s2, blocks.map Block.dup = [7] ∧
      performAll (healthyModel .EntityTags "Bar").client
          ((tempRename (healthyModel .EntityTags "Bar") ⟨5, [7], false⟩ none ::
            blocksCalls .EntityTags 5 blocks).map CallRecord.call) () =
        (tempRename (healthyModel .EntityTags "Bar") ⟨5, [7], false⟩ none ::
          blocksCalls .EntityTags 5 blocks, s2) ∧
      calls (healthyModel .EntityTags "Bar") () =
        tempRename (healthyModel .EntityTags "Bar") ⟨5, [7], false⟩ none ::
          blocksCalls .EntityTags 5 blocks ++
          [⟨.UpdateTag 5 "Bar",
            ((Call.UpdateTag 5 "Bar").perform (healthyModel .EntityTags "Bar").client s2).1.1,
            []⟩] ∧
      (executeMerge (healthyModel .EntityTags "Bar") ()).2.1 =
        ((Call.UpdateTag 5 "Bar").perform (healthyModel .EntityTags "Bar").client s2).2 ∧
      ∀ log, (executeMerge (healthyModel .EntityTags "Bar").recording ((), log)).2.1.2 =
        log ++ (requestsAll (healthyModel .EntityTags "Bar").client
            ((tempRename (healthyModel .EntityTags "Bar") ⟨5, [7], false⟩ none ::
              blocksCalls .EntityTags 5 blocks).map CallRecord.call) () ++
          (Call.UpdateTag 5 "Bar").requests (healthyModel .EntityTags "Bar").client s2)) ∧
    ((∀ r ∈ calls (healthyModel .EntityTags "Foo") (), r.call.isRename = false) ∧
      performAll (healthyModel .EntityTags "Foo").client
          ((calls (healthyModel .EntityTags "Foo") ()).map CallRecord.call) () =
        (calls (healthyModel .EntityTags "Foo") (),
          (executeMerge (healthyModel .EntityTags "Foo") ()).2.1) ∧
      ∀ log, (executeMerge (healthyModel .EntityTags "Foo").recording ((), log)).2.1.2 =
        log ++ requestsAll (healthyModel .EntityTags "Foo").client
          ((calls (healthyModel .EntityTags "Foo") ()).map CallRecord.call) ()) ∧
    calls (healthyModel .EntityTags "Bar") () =
      [⟨.UpdateTag 5 "__MERGING_5_Bar", none, []⟩, ⟨.GetDocumentsByTag 7, none, []⟩,
        ⟨.DeleteTag 7, none, []⟩, ⟨.UpdateTag 5 "Bar", none, []⟩] ∧
    (executeMerge (healthyModel .EntityTags "Bar").recording ((), [])).2.1.2 =
      [⟨"PATCH", "http://h/api/tags/5/", some "\x7b\"name\": \"__MERGING_5_Bar\"\x7d",
          "Token k", "application/json"⟩,
        ⟨"GET", "http://h/api/documents/?tags__id__in=7&page_size=100", none,
          "Token k", "application/json"⟩,
        ⟨"DELETE", "http://h/api/tags/7/", none, "Token k", "application/json"⟩,
        ⟨"PATCH", "http://h/api/tags/5/", some "\x7b\"name\": \"Bar\"\x7d",
          "Token k", "application/json"⟩] ∧
    (executeMerge (healthyModel .EntityTags "Foo").recording ((), [])).2.1.2 =
      [⟨"GET", "http://h/api/documents/?tags__id__in=5&page_size=100", none,
          "Token k", "application/json"⟩,
        ⟨"GET", "http://h/api/documents/10/", none, "Token k", "application/json"⟩,
        ⟨"PATCH", "http://h/api/documents/10/", some "\x7b\"tags\": [7]\x7d",
          "Token k", "application/json"⟩,
        ⟨"DELETE", "http://h/api/tags/5/", none, "Token k", "application/json"⟩] :=
  ⟨(finalizing_rename (healthyModel .EntityTags "Bar") () ⟨5, [7], false⟩ rfl).1 rfl
      (by decide),
    (finalizing_rename (healthyModel .EntityTags "Foo") () ⟨7, [5], true⟩ rfl).2 rfl,
    by decide, by decide, by decide⟩

/-! ### The order of the calls -/

/-- C1. For every state of the model that passes validation and every behaviour
of the service, the client calls of the run are: renames of `mainID` to the
temporary name (`pre`), then one block per duplicate for an initial segment of
`toDeleteIDs` in order, each block being the successful fetch of the duplicate,
one successful reassignment to `mainID` per fetched document, and the delete;
then the calls of the next duplicate whose fetch or reassignment failed (`tail`),
or renames of `mainID` to the final name (`fin`). Hence a delete of `d` in the
log, wherever it stands, is immediately preceded by the successful fetch of `d`
and the successful reassignments, from `d` to `mainID`, of all the documents
that fetch returned. The log is the run on the service: performing the recorded
calls on the service, in the order of the log and from the initial state,
returns the recorded errors and documents and leaves the service in the state
in which the run leaves it; and the requests that the service receives during
the run are the requests of the recorded calls, in that order, and no other. -/
theorem merge_call_order (m : ListModel σ) (s : σ) (p : MergePlan)
    (hp : mergePlan m = .ok p) :
    (∃ (pre : List CallRecord) (blocks : List Block) (rest : List Int)
      (tail fin : List CallRecord),
      calls m s = pre ++ (blocksCalls m.entityType p.mainID blocks ++ (tail ++ fin)) ∧
      p.toDeleteIDs = blocks.map Block.dup ++ rest ∧
      (∀ r ∈ pre, r.call = renameCall m.entityType p.mainID (tempName p.mainID m.mergeInput)) ∧
      (∀ r ∈ fin, r.call = renameCall m.entityType p.mainID m.mergeInput) ∧
      (tail = [] ∨ (fin = [] ∧ ∃ d rest', rest = d :: rest' ∧
        IncompleteBlock m.entityType p.mainID d tail))) ∧
    (∀ (pre0 : List CallRecord) (r : CallRecord) (post0 : List CallRecord) (d : Int),
      calls m s = pre0 ++ r :: post0 → r.call = deleteCall m.entityType d →
      d ∈ p.toDeleteIDs ∧
      ∃ pre1 docs, pre0 = pre1 ++ ⟨fetchCall m.entityType d, none, docs⟩ ::
        docs.map (okReassign m.entityType d p.mainID)) ∧
    performAll m.client ((calls m s).map CallRecord.call) s =
      (calls m s, (executeMerge m s).2.1) ∧
    (∀ log, (executeMerge m.recording (s, log)).2.1.2 =
      log ++ requestsAll m.client ((calls m s).map CallRecord.call) s) := by
  have hdec := run_decomposition m s p hp
  refine ⟨hdec, ?_, run_performed m s, wiretap_log m s⟩
  obtain ⟨pre, blocks, rest, tail, fin, hcalls, hids, hpre, hfin, htail⟩ := hdec
  intro pre0 r post0 d hsplit hcall
  have hr : r.call.isDelete = true := by rw [hcall]; simp
  rw [hcalls] at hsplit
  have hnotpre : r ∉ pre := by
    intro hm
    rw [hpre r hm] at hr
    simp at hr
  obtain ⟨b', h1, h2⟩ := split_right _ _ pre0 hsplit hnotpre
  have hY : ∀ y ∈ tail ++ fin, y.call.isDelete = false := by
    intro y hy
    rcases List.mem_append.1 hy with hy | hy
    · rcases htail with rfl | ⟨_, d', rest', _, hinc⟩
      · cases hy
      · exact incompleteBlock_no_delete _ _ _ _ hinc y hy
    · rw [hfin y hy]; simp
  obtain ⟨pre1, b, hb, hpre1, hrec⟩ :=
    delete_position m.entityType p.mainID r post0 hr blocks (tail ++ fin) b' h2 hY
  have hd : d = b.dup := by
    apply deleteCall_inj m.entityType
    rw [← hcall, hrec]
  subst hd
  refine ⟨?_, pre ++ pre1, b.docs, ?_⟩
  · rw [hids]
    exact List.mem_append_left _ (List.mem_map_of_mem _ hb)
  · rw [h1, hpre1]; simp

/-- Instance at a run that merges tag 5 into tag 7 on a service where every
request succeeds: the fetch of the documents of tag 5, the reassignment of
document 10, whose tag list `[5]` is sent back as `[7]`, and the delete of tag 5.
Second, a run that merges correspondent 5 into correspondent 7: the service
receives the fetch of the documents of correspondent 5, the `PATCH` of the
correspondent of each of the documents 10, 11, 12 to 7, and last the `DELETE`
of correspondent 5. -/
theorem merge_call_order_witness :
    ((∀ (pre0 : List CallRecord) (r : CallRecord) (post0 : List CallRecord) (d : Int),
        calls (healthyModel .EntityTags "Foo") () = pre0 ++ r :: post0 →
        r.call = deleteCall .EntityTags d →
        d ∈ [5] ∧
        ∃ pre1 docs, pre0 = pre1 ++ ⟨fetchCall .EntityTags d, none, docs⟩ ::
          docs.map (okReassign .EntityTags d 7)) ∧
      performAll (healthyModel .EntityTags "Foo").client
          ((calls (healthyModel .EntityTags "Foo") ()).map CallRecord.call) () =
        (calls (healthyModel .EntityTags "Foo") (),
          (executeMerge (healthyModel .EntityTags "Foo") ()).2.1) ∧
      ∀ log, (executeMerge (healthyModel .EntityTags "Foo").recording ((), log)).2.1.2 =
        log ++ requestsAll (healthyModel .EntityTags "Foo").client
          ((calls (healthyModel .EntityTags "Foo") ()).map CallRecord.call) ()) ∧
    calls (healthyModel .EntityTags "Foo") () =
      [⟨.GetDocumentsByTag 5, none, [⟨10, "a", none, none, [5]⟩]⟩,
        ⟨.UpdateDocumentTags 10 5 7, none, []⟩, ⟨.DeleteTag 5, none, []⟩] ∧
    (executeMerge (healthyModel .EntityTags "Foo").recording ((), [])).2.1.2 =
      [⟨"GET", "http://h/api/documents/?tags__id__in=5&page_size=100", none,
          "Token k", "application/json"⟩,
        ⟨"GET", "http://h/api/documents/10/", none, "Token k", "application/json"⟩,
        ⟨"PATCH", "http://h/api/documents/10/", some "\x7b\"tags\": [7]\x7d",
          "Token k", "application/json"⟩,
        ⟨"DELETE", "http://h/api/tags/5/", none, "Token k", "application/json"⟩] ∧
    (calls (countingModel 9) 0).map CallRecord.call =
      [.GetDocumentsByCorrespondent 5, .UpdateDocumentCorrespondent 10 7,
        .UpdateDocumentCorrespondent 11 7, .UpdateDocumentCorrespondent 12 7,
        .DeleteCorrespondent 5] ∧
    (executeMerge (countingModel 9).recording (0, [])).2.1.2 =
      [⟨"GET", "http://h/api/documents/?correspondent__id=5&page_size=100", none,
          "Token k", "application/json"⟩,
        ⟨"PATCH", "http://h/api/documents/10/", some "\x7b\"correspondent\": 7\x7d",
          "Token k", "application/json"⟩,
        ⟨"PATCH", "http://h/api/documents/11/", some "\x7b\"correspondent\": 7\x7d",
          "Token k", "application/json"⟩,
        ⟨"PATCH", "http://h/api/documents/12/", some "\x7b\"correspondent\": 7\x7d",
          "Token k", "application/json"⟩,
        ⟨"DELETE", "http://h/api/correspondents/5/", none, "Token k", "application/json"⟩] :=
  ⟨(merge_call_order (healthyModel .EntityTags "Foo") () ⟨7, [5], true⟩ rfl).2,
    by decide, by decide, by decide, by decide⟩

/-! ### A delete answered `404 Not Found` -/

theorem delete_mem_blocksCalls (kind : EntityType) (mainID : Int) (b : Block) :
    ∀ (blocks : List Block), b ∈ blocks →
      (⟨deleteCall kind b.dup, b.delErr, []⟩ : CallRecord) ∈ blocksCalls kind mainID blocks := by
  intro blocks
  induction blocks with
  | nil => intro hb; cases hb
  | cons b' bs ih =>
    intro hb
    rcases List.mem_cons.1 hb with rfl | hb
    · simp [blocksCalls, blockCalls]
    · simp only [blocksCalls, List.mem_append]
      exact Or.inr (ih hb)

/-- C3. A delete answered `404 Not Found` is treated as success. If the plan
passes validation and, in the run, every call that is not a delete returned no
error and every delete returned the error that the client builds from an answer
with status `404`, then the run returns the success outcome, every entry of
`toDeleteIDs` is processed in order up to its delete, and the run ends with the
successful final rename when one is needed. The hypotheses are about the calls
of this run only: nothing is assumed of the answers of the service to other
requests or in other states. The log is the run on the service: performing the
recorded calls on the service returns the recorded errors and documents, and
the service receives the requests of the recorded calls and no other. -/
theorem delete_not_found_is_success (m : ListModel σ) (s : σ) (p : MergePlan)
    (hp : mergePlan m = .ok p)
    (hok : ∀ r ∈ calls m s, r.call.isDelete = false → r.err = none)
    (hdel : ∀ r ∈ calls m s, r.call.isDelete = true →
      ∃ what body, r.err = some (apiError what ⟨404, body⟩)) :
    outcome m s = ⟨none⟩ ∧
    (∃ blocks : List Block, blocks.map Block.dup = p.toDeleteIDs ∧
      (∀ b ∈ blocks, ∃ what body, b.delErr = some (apiError what ⟨404, body⟩)) ∧
      calls m s = prepareCalls m p ++ blocksCalls m.entityType p.mainID blocks ++
        (if p.needsRename then [finalRename m p none] else [])) ∧
    performAll m.client ((calls m s).map CallRecord.call) s =
      (calls m s, (executeMerge m s).2.1) ∧
    (∀ log, (executeMerge m.recording (s, log)).2.1.2 =
      log ++ requestsAll m.client ((calls m s).map CallRecord.call) s) := by
  have hmain : (outcome m s).err = none ∧
      ∃ blocks : List Block, blocks.map Block.dup = p.toDeleteIDs ∧
        (∀ b ∈ blocks, ∃ what body, b.delErr = some (apiError what ⟨404, body⟩)) ∧
        calls m s = prepareCalls m p ++ blocksCalls m.entityType p.mainID blocks ++
          (if p.needsRename then [finalRename m p none] else []) := by
    have h := run_shape m p s hp
    generalize calls m s = cs at h hok hdel ⊢
    generalize (outcome m s).err = o at h ⊢
    have hall : ∀ (blocks : List Block) (post : List CallRecord),
        cs = prepareCalls m p ++ blocksCalls m.entityType p.mainID blocks ++ post →
        ∀ b ∈ blocks, ∃ what body, b.delErr = some (apiError what ⟨404, body⟩) := by
      intro blocks post hcs b hb
      have hmem : (⟨deleteCall m.entityType b.dup, b.delErr, []⟩ : CallRecord) ∈ cs := by
        rw [hcs]
        exact List.mem_append_left _ (List.mem_append_right _
          (delete_mem_blocksCalls m.entityType p.mainID b blocks hb))
      exact hdel _ hmem (by simp)
    cases h with
    | prepareFailed err hn =>
      have := hok (tempRename m p (some err)) (List.mem_singleton.2 rfl)
        (by simp [tempRename])
      simp [tempRename] at this
    | fetchFailed blocks d rest err hids hok' =>
      have := hok ⟨fetchCall m.entityType d, some err, []⟩ (by simp) (by simp)
      simp at this
    | reassignFailed blocks d rest done doc later err hids hok' =>
      have := hok ⟨reassignCall m.entityType doc.ID d p.mainID, some err, []⟩ (by simp)
        (by simp)
      simp at this
    | deleteFailed blocks b rest e hids hok' ha =>
      obtain ⟨what, body, hb⟩ := hall (blocks ++ [b]) [] (by simp) b (by simp)
      rw [hb, deleteAborts_notFound] at ha
      cases ha
    | completed blocks hids hok' hn =>
      refine ⟨rfl, blocks, hids.symm, hall blocks [] (by simp), ?_⟩
      simp [MergePlan.needsRename] at hn
      simp [MergePlan.needsRename, hn]
    | finalized blocks err hids hok' hn =>
      have herr : err = none :=
        hok (finalRename m p err) (by simp) (by simp [finalRename])
      subst herr
      refine ⟨rfl, blocks, hids.symm, hall blocks [finalRename m p none] rfl, ?_⟩
      simp [hn]
  refine ⟨?_, hmain.2, run_performed m s, wiretap_log m s⟩
  have hout : outcome m s = ⟨(outcome m s).err⟩ := rfl
  rw [hout, hmain.1]

/-- Instance at a run that merges the correspondents 5 and 7 under the new name
`"Bar"` on a service where correspondent 7 is gone: the `DELETE` of
correspondent 7 is answered `404`, any other `DELETE` would be answered `204`.
The run records the `404` error for the delete, goes on to the final rename and
returns the success outcome; the service receives the seven requests of the run. -/
theorem delete_not_found_is_success_witness :
    (outcome goneModel () = ⟨none⟩ ∧
      (∃ blocks : List Block, blocks.map Block.dup = [7] ∧
        (∀ b ∈ blocks, ∃ what body, b.delErr = some (apiError what ⟨404, body⟩)) ∧
        calls goneModel () =
          prepareCalls goneModel ⟨5, [7], false⟩ ++
            blocksCalls .EntityCorrespondents 5 blocks ++
            (if (⟨5, [7], false⟩ : MergePlan).needsRename
              then [finalRename goneModel ⟨5, [7], false⟩ none] else [])) ∧
      performAll goneModel.client ((calls goneModel ()).map CallRecord.call) () =
        (calls goneModel (), (executeMerge goneModel ()).2.1) ∧
      (∀ log, (executeMerge goneModel.recording ((), log)).2.1.2 =
        log ++ requestsAll goneModel.client ((calls goneModel ()).map CallRecord.call) ())) ∧
    calls goneModel () =
      [⟨.UpdateCorrespondent 5 "__MERGING_5_Bar", none, []⟩,
        ⟨.GetDocumentsByCorrespondent 7, none,
          [⟨10, "a", some 5, none, []⟩, ⟨11, "b", some 5, none, []⟩,
            ⟨12, "c", some 5, none, []⟩]⟩,
        ⟨.UpdateDocumentCorrespondent 10 5, none, []⟩,
        ⟨.UpdateDocumentCorrespondent 11 5, none, []⟩,
        ⟨.UpdateDocumentCorrespondent 12 5, none, []⟩,
        ⟨.DeleteCorrespondent 7,
          some ⟨"errore nell'eliminazione del corrispondente: 404 - Not found"⟩, []⟩,
        ⟨.UpdateCorrespondent 5 "Bar", none, []⟩] ∧
    (goneClient.DeleteCorrespondent 5 ()).1 = none ∧
    (executeMerge goneModel.recording ((), [])).2.1.2 =
      [⟨"PATCH", "http://h/api/correspondents/5/",
          some "\x7b\"name\": \"__MERGING_5_Bar\"\x7d", "Token k", "application/json"⟩,
        ⟨"GET", "http://h/api/documents/?correspondent__id=7&page_size=100", none,
          "Token k", "application/json"⟩,
        ⟨"PATCH", "http://h/api/documents/10/", some "\x7b\"correspondent\": 5\x7d",
          "Token k", "application/json"⟩,
        ⟨"PATCH", "http://h/api/documents/11/", some "\x7b\"correspondent\": 5\x7d",
          "Token k", "application/json"⟩,
        ⟨"PATCH", "http://h/api/documents/12/", some "\x7b\"correspondent\": 5\x7d",
          "Token k", "application/json"⟩,
        ⟨"DELETE", "http://h/api/correspondents/7/", none, "Token k", "application/json"⟩,
        ⟨"PATCH", "http://h/api/correspondents/5/", some "\x7b\"name\": \"Bar\"\x7d",
          "Token k", "application/json"⟩] :=
  ⟨delete_not_found_is_success goneModel () ⟨5, [7], false⟩ rfl (by decide)
      (fun r hr hd => ⟨"errore nell'eliminazione del corrispondente", "Not found",
        (by decide : ∀ r ∈ calls goneModel (), r.call.isDelete = true →
          r.err = some (apiError "errore nell'eliminazione del corrispondente"
            ⟨404, "Not found"⟩)) r hr hd⟩),
    by decide, by decide, by decide⟩

end PaperlessMerger
